import Mathlib

/-!
# sky360lib: the weighted moving variance background subtractor and the tracker's box helpers

A shallow embedding of `api/bgs/WeightedMovingVariance/WeightedMovingVariance.cpp` and of the
bounding-box functions of `apps/demo/src/demoTracker.hpp`.

Conventions of the embedding.

* Memory is a list of byte cells. A cell is `none` while its value is indeterminate (memory
  obtained from `make_unique_for_overwrite` or `cv::Mat::create` and not yet written) and
  `some b` once the byte `b` has been stored in it.
* Every operation whose behaviour the language leaves undefined (reading an indeterminate or
  out-of-range cell, writing outside a buffer, dereferencing `nullptr`, converting a `float`
  whose truncation does not fit into `uint8_t`) yields `none`.
* A raw pointer into one of the three owned buffers `pImgMem[k]` is the slot number `k`.
* The kernels are given at two levels of arithmetic. In the namespace `binary32` a `float` is a
  value of the type `F32` (a finite number, an infinity or a NaN) and every product, sum and
  difference is rounded to IEEE 754 binary32 by `roundF32` (round to nearest, ties to even,
  gradual underflow, overflow to infinity), in the order in which the source writes the
  operations, each operation being rounded on its own. The statements about the values that the
  kernels compute are made at that level. The kernels outside that namespace evaluate the same
  expressions in exact rational arithmetic; they carry the statements on which rounding has no
  bearing (data flow, definedness, order, and the scenarios whose values binary32 represents
  exactly).
* `std::sqrt` is not available on the rationals, so the kernels take it as the argument `fsqrt`.
* `uint32_t` and `size_t` quantities are natural numbers reduced modulo `2 ^ 32` and `2 ^ 64`
  wherever the source narrows or increments them.
* `int` quantities are integers; an `int` operation whose result is not representable in
  32 bits (signed overflow) yields `none`. `double` quotients are exact rationals.
-/

namespace sky360lib.bgs

/-! ## Memory -/

/-- One byte (or one typed sample) of memory, `none` while indeterminate. -/
abbrev Cell := Option Nat

/-- A contiguous run of cells. -/
abbrev Buffer := List Cell

/-- The result of `make_unique_for_overwrite<uint8_t[]>(n)`: `n` indeterminate bytes. -/
def makeUniqueForOverwrite (n : Nat) : Buffer := List.replicate n none

/-- The standard `memcpy(dst, src, n)`: the first `n` cells of `src` replace the first `n` cells
of `dst`; undefined when either buffer has fewer than `n` cells. -/
def memcpy (dst src : Buffer) (n : Nat) : Option Buffer :=
  if n ≤ src.length ∧ n ≤ dst.length then some (src.take n ++ dst.drop n) else none

/-- The read `p[i]` of a sample that is then used in arithmetic. -/
def readSample (p : List Cell) (i : Nat) : Option Nat :=
  match p.get? i with
  | some (some v) => some v
  | _ => none

/-- The store `o[i] = v` into a `uint8_t` buffer. -/
def writeUChar (o : Buffer) (i v : Nat) : Option Buffer :=
  if i < o.length then some (o.set i (some v)) else none

/-- The view of a byte buffer through a `uint16_t*` cast (little-endian byte order): sample `k`
is made of bytes `2k` and `2k+1`, and is indeterminate when one of them is. -/
def asUInt16 : Buffer → List Cell
  | lo :: hi :: rest =>
      (match lo, hi with
        | some l, some h => some (l + 256 * h)
        | _, _ => none) :: asUInt16 rest
  | _ => []

/-! ## Geometry, parameters and per-stream state -/

/-- Modelled from the spec: the Image Geometry Descriptor `ImgSize`, declared in a header that is
not part of the sources at hand. It records width, height, channel count and bytes per sample;
pixel count and total byte size are derived from them. -/
structure ImgSize where
  width : Nat
  height : Nat
  numChannels : Nat
  bytesPerPixel : Nat
deriving DecidableEq

/-- Modelled from the spec: pixel count = width × height. -/
def ImgSize.numPixels (s : ImgSize) : Nat := s.width * s.height

/-- Modelled from the spec: total byte size = pixel count × channel count × bytes per sample. -/
def ImgSize.sizeInBytes (s : ImgSize) : Nat := s.numPixels * s.numChannels * s.bytesPerPixel

/-- Modelled from the spec: the Weight Configuration as `process` reads it (fields `weight`,
`enableThreshold`, `thresholdSquared`, `thresholdSquared16`); the declaration that the source
file is compiled against is in an absent header. -/
structure WeightedMovingVarianceParams where
  enableThreshold : Bool
  weight : Fin 3 → ℚ
  thresholdSquared : ℚ
  thresholdSquared16 : ℚ

/-- Modelled from the spec: the table `ROLLING_BG_IDX` of the absent header, "three fixed cyclic
permutations of {0,1,2}, selected by counter mod 3", ordered so that one rotation turns the
current slot into previous-1, previous-1 into previous-2 and previous-2 into the new current. -/
def ROLLING_BG_IDX : Fin 3 → Fin 3 → Fin 3 :=
  ![![0, 1, 2], ![2, 0, 1], ![1, 2, 0]]

/-- Modelled from the spec: the Rolling Window State `RollingImages` (declared in the absent
header) with the fields the source file uses. The three role pointers are `none` for `nullptr`
and `some k` when they point at `pImgMem[k]`. The counters are unbounded naturals, their declared
integer types not being available. -/
structure RollingImages where
  currentRollingIdx : Nat
  firstPhase : Nat
  pImgSize : ImgSize
  pImgInput : Option (Fin 3)
  pImgInputPrev1 : Option (Fin 3)
  pImgInputPrev2 : Option (Fin 3)
  pImgMem : Fin 3 → Buffer

/-- The image type `cv::Mat` of OpenCV, reduced to what the source file uses: the pixel count
reported by `size()` and the data bytes. -/
structure Mat where
  size : Nat
  data : Buffer
deriving DecidableEq

/-- The OpenCV call `cv::Mat::empty`: no pixels or no data. -/
def Mat.empty (m : Mat) : Bool := m.size == 0 || m.data.isEmpty

/-- The OpenCV call `cv::Mat::create(size, CV_8UC1)`: one fresh indeterminate byte per pixel. -/
def Mat.create (size : Nat) : Mat := { size := size, data := makeUniqueForOverwrite size }

/-! ## The kernels in exact arithmetic -/

/-- The constant `UCHAR_MAX`. -/
def UCHAR_MAX : Nat := 255

/-- Modelled from the spec: the constant `ZERO_UC` of the absent header, the mask value `0`. -/
def ZERO_UC : Nat := 0

/-- The implicit conversion of a `float` to `uint8_t`: the fraction is discarded (truncation
towards zero); undefined when the truncated value is not in `0..255`. -/
def floatToUChar (x : ℚ) : Option Nat :=
  if -1 < x ∧ x < 256 then some (Int.toNat ⌊x⌋) else none

/-- The loop `for (uint32_t i{0}; i < totalPixels; ++i) body(i)` threading a state. -/
def forLoop {σ : Type} (totalPixels : Nat) (body : Nat → σ → Option σ) (s : σ) : Option σ :=
  match totalPixels with
  | 0 => some s
  | k + 1 => (forLoop k body s).bind (body k)

/-- The weighted sum of squared deviations of the mono kernels: `mean` (line 116/130), `value`
(117/131) and the sum of line 118/132, for the samples `d0`, `d1`, `d2` already cast to `float`,
evaluated in exact rational arithmetic; `binary32.monoResult` is the same expression with every
operation rounded to binary32. -/
def monoResult (weight : Fin 3 → ℚ) (d0 d1 d2 : ℚ) : ℚ :=
  let mean := (d0 * weight 0) + (d1 * weight 1) + (d2 * weight 2)
  let value0 := d0 - mean
  let value1 := d1 - mean
  let value2 := d2 - mean
  ((value0 * value0) * weight 0) + ((value1 * value1) * weight 1) + ((value2 * value2) * weight 2)

/-- One iteration of `calcWeightedVarianceMono` up to the store: the byte computed for pixel `i`. -/
def pixelMono (fsqrt : ℚ → ℚ) (i1 i2 i3 : List Cell) (weight : Fin 3 → ℚ) (i : Nat) :
    Option Nat := do
  let a ← readSample i1 i
  let b ← readSample i2 i
  let c ← readSample i3 i
  floatToUChar (fsqrt (monoResult weight a b c))

/-- The kernel `calcWeightedVarianceMono` (lines 109-120). -/
def calcWeightedVarianceMono (fsqrt : ℚ → ℚ) (i1 i2 i3 : List Cell) (o : Buffer)
    (totalPixels : Nat) (weight : Fin 3 → ℚ) : Option Buffer :=
  forLoop totalPixels (fun i o => (pixelMono fsqrt i1 i2 i3 weight i).bind (writeUChar o i)) o

/-- One iteration of `calcWeightedVarianceMonoThreshold` up to the store. -/
def pixelMonoThreshold (i1 i2 i3 : List Cell) (weight : Fin 3 → ℚ) (thresholdSquared : ℚ)
    (i : Nat) : Option Nat := do
  let a ← readSample i1 i
  let b ← readSample i2 i
  let c ← readSample i3 i
  let result := monoResult weight a b c
  some (if result > thresholdSquared then UCHAR_MAX else ZERO_UC)

/-- The kernel `calcWeightedVarianceMonoThreshold` (lines 122-135). -/
def calcWeightedVarianceMonoThreshold (i1 i2 i3 : List Cell) (o : Buffer)
    (totalPixels : Nat) (weight : Fin 3 → ℚ) (thresholdSquared : ℚ) : Option Buffer :=
  forLoop totalPixels
    (fun i o => (pixelMonoThreshold i1 i2 i3 weight thresholdSquared i).bind (writeUChar o i)) o

/-- The per-channel sum of the colour kernels (lines 147-155 and 170-178) for the samples `c1`
(current), `c2` (previous-1) and `c3` (previous-2) of one channel: the mean uses all three, while
the third deviation `value[2]` is taken from `c2`, exactly as lines 150-152 and 173-175 do.
Evaluated in exact rational arithmetic; `binary32.colorChannelResult` rounds every operation. -/
def colorChannelResult (weight : Fin 3 → ℚ) (c1 c2 c3 : ℚ) : ℚ :=
  let mean := (c1 * weight 0) + (c2 * weight 1) + (c3 * weight 2)
  let value0 := c1 - mean
  let value1 := c2 - mean
  let value2 := c2 - mean
  ((value0 * value0) * weight 0) + ((value1 * value1) * weight 1) + ((value2 * value2) * weight 2)

/-- The index `j3` of the colour loops after `j` iterations: a `uint32_t` that starts at `0` and
grows by `3` per iteration. -/
def colorIndex (j : Nat) : Nat := (3 * j) % 2 ^ 32

/-- The three samples `p[j3]`, `p[j3 + 1]`, `p[j3 + 2]` of one pixel, the index sums being
`uint32_t` sums. -/
def readPixel3 (p : List Cell) (j3 : Nat) : Option (ℚ × ℚ × ℚ) := do
  let r ← readSample p j3
  let g ← readSample p ((j3 + 1) % 2 ^ 32)
  let b ← readSample p ((j3 + 2) % 2 ^ 32)
  some ((r : ℚ), (g : ℚ), (b : ℚ))

/-- One iteration of `calcWeightedVarianceColor` up to the store, the luma combination of
line 156 being evaluated in exact rational arithmetic with the decimal constants;
`binary32.pixelColor` uses the `float` literals and rounds every operation. -/
def pixelColor (fsqrt : ℚ → ℚ) (i1 i2 i3 : List Cell) (weight : Fin 3 → ℚ) (j : Nat) :
    Option Nat := do
  let dI1 ← readPixel3 i1 (colorIndex j)
  let dI2 ← readPixel3 i2 (colorIndex j)
  let dI3 ← readPixel3 i3 (colorIndex j)
  let r := fsqrt (colorChannelResult weight dI1.1 dI2.1 dI3.1)
  let g := fsqrt (colorChannelResult weight dI1.2.1 dI2.2.1 dI3.2.1)
  let b := fsqrt (colorChannelResult weight dI1.2.2 dI2.2.2 dI3.2.2)
  floatToUChar (0.299 * r + 0.587 * g + 0.114 * b)

/-- The kernel `calcWeightedVarianceColor` (lines 137-158). -/
def calcWeightedVarianceColor (fsqrt : ℚ → ℚ) (i1 i2 i3 : List Cell) (o : Buffer)
    (totalPixels : Nat) (weight : Fin 3 → ℚ) : Option Buffer :=
  forLoop totalPixels (fun j o => (pixelColor fsqrt i1 i2 i3 weight j).bind (writeUChar o j)) o

/-- The value `result` of line 179 for one pixel given by its three channel triples, evaluated
in exact rational arithmetic with the decimal constants; `binary32.colorThresholdResult` uses
the `float` literals and rounds every operation. -/
def colorThresholdResult (weight : Fin 3 → ℚ) (dI1 dI2 dI3 : ℚ × ℚ × ℚ) : ℚ :=
  let r2 := colorChannelResult weight dI1.1 dI2.1 dI3.1
  let g2 := colorChannelResult weight dI1.2.1 dI2.2.1 dI3.2.1
  let b2 := colorChannelResult weight dI1.2.2 dI2.2.2 dI3.2.2
  0.299 * r2 + 0.587 * g2 + 0.114 * b2

/-- One iteration of `calcWeightedVarianceColorThreshold` up to the store. -/
def pixelColorThreshold (i1 i2 i3 : List Cell) (weight : Fin 3 → ℚ) (thresholdSquared : ℚ)
    (j : Nat) : Option Nat := do
  let dI1 ← readPixel3 i1 (colorIndex j)
  let dI2 ← readPixel3 i2 (colorIndex j)
  let dI3 ← readPixel3 i3 (colorIndex j)
  let result := colorThresholdResult weight dI1 dI2 dI3
  some (if result > thresholdSquared then UCHAR_MAX else ZERO_UC)

/-- The kernel `calcWeightedVarianceColorThreshold` (lines 160-182). -/
def calcWeightedVarianceColorThreshold (i1 i2 i3 : List Cell) (o : Buffer)
    (totalPixels : Nat) (weight : Fin 3 → ℚ) (thresholdSquared : ℚ) : Option Buffer :=
  forLoop totalPixels
    (fun j o => (pixelColorThreshold i1 i2 i3 weight thresholdSquared j).bind (writeUChar o j)) o

/-- The member `weightedVarianceMono` (lines 184-199); its `size_t totalPixels` is narrowed to the
`uint32_t` parameter of the kernels. -/
def weightedVarianceMono (fsqrt : ℚ → ℚ) (img1 img2 img3 : List Cell) (outImg : Buffer)
    (totalPixels : Nat) (weight : Fin 3 → ℚ) (enableThreshold : Bool) (thresholdSquared : ℚ) :
    Option Buffer :=
  if enableThreshold then
    calcWeightedVarianceMonoThreshold img1 img2 img3 outImg (totalPixels % 2 ^ 32) weight
      thresholdSquared
  else
    calcWeightedVarianceMono fsqrt img1 img2 img3 outImg (totalPixels % 2 ^ 32) weight

/-- The member `weightedVarianceColor` (lines 201-216). -/
def weightedVarianceColor (fsqrt : ℚ → ℚ) (img1 img2 img3 : List Cell) (outImg : Buffer)
    (totalPixels : Nat) (weight : Fin 3 → ℚ) (enableThreshold : Bool) (thresholdSquared : ℚ) :
    Option Buffer :=
  if enableThreshold then
    calcWeightedVarianceColorThreshold img1 img2 img3 outImg (totalPixels % 2 ^ 32) weight
      thresholdSquared
  else
    calcWeightedVarianceColor fsqrt img1 img2 img3 outImg (totalPixels % 2 ^ 32) weight

/-! ## Binary32 arithmetic -/

/-- A value of the C++ type `float` (IEEE 754 binary32): a finite number, an infinity or a NaN.
The sign of a zero and the payload of a NaN are not represented: no operation of the kernels
(product, sum, difference, `std::sqrt`, `>`, conversion to `uint8_t`) can tell them apart. -/
inductive F32 where
  | finite (q : ℚ)
  | posInf
  | negInf
  | nan
deriving DecidableEq, Repr

/-- The number of halvings that bring `n` below 2, by recursion on `fuel`. -/
def log2Fuel : Nat → Nat → Nat
  | 0, _ => 0
  | fuel + 1, n => if n < 2 then 0 else log2Fuel fuel (n / 2) + 1

/-- The binary exponent of a non-zero rational: the integer `e` with `2^e ≤ |q| < 2^(e+1)`. -/
def floorLog2 (q : ℚ) : Int :=
  let e : Int := (log2Fuel q.num.natAbs q.num.natAbs : Int) - (log2Fuel q.den q.den : Int)
  if (2 : ℚ) ^ e ≤ |q| then e else e - 1

/-- The integer nearest to `x`, the even one of the two when `x` lies half-way. -/
def roundHalfEven (x : ℚ) : Int :=
  let f := ⌊x⌋
  if x - f < 1 / 2 then f
  else if 1 / 2 < x - f then f + 1
  else if f % 2 = 0 then f else f + 1

/-- The exponent of the unit in the last place of the binary32 numbers around `q`: 24
significant bits, and never below the subnormal spacing `2^-149`. -/
def ulpExponent (q : ℚ) : Int := max (floorLog2 q - 23) (-149)

/-- The number with 24 significant bits (or the multiple of `2^-149`) nearest to `q`, the one
with an even last digit when `q` lies half-way between two of them. -/
def roundToGrid (q : ℚ) : ℚ :=
  (roundHalfEven (q / (2 : ℚ) ^ ulpExponent q) : ℚ) * (2 : ℚ) ^ ulpExponent q

/-- The binary32 result of an operation whose exact value is `q`: `q` rounded to the nearest
binary32 number (ties to even, gradual underflow), and an infinity when the rounded magnitude
reaches `2^128`. -/
def roundF32 (q : ℚ) : F32 :=
  if q = 0 then F32.finite 0
  else if (2 : ℚ) ^ (128 : Nat) ≤ roundToGrid q then F32.posInf
  else if roundToGrid q ≤ -(2 : ℚ) ^ (128 : Nat) then F32.negInf
  else F32.finite (roundToGrid q)

/-- The infinity of the sign of `q`, and NaN for `q = 0`: the product of an infinity and the
finite factor `q`, up to the sign of the infinity. -/
def infinityTimes (positive : Bool) (q : ℚ) : F32 :=
  if q = 0 then F32.nan
  else if (0 < q) = positive then F32.posInf else F32.negInf

/-- The negation of a `float`. -/
def F32.neg : F32 → F32
  | F32.finite q => F32.finite (-q)
  | F32.posInf => F32.negInf
  | F32.negInf => F32.posInf
  | F32.nan => F32.nan

/-- The `float` sum `a + b`. -/
def F32.add : F32 → F32 → F32
  | F32.finite a, F32.finite b => roundF32 (a + b)
  | F32.nan, _ => F32.nan
  | _, F32.nan => F32.nan
  | F32.posInf, F32.negInf => F32.nan
  | F32.negInf, F32.posInf => F32.nan
  | F32.posInf, _ => F32.posInf
  | F32.negInf, _ => F32.negInf
  | F32.finite _, F32.posInf => F32.posInf
  | F32.finite _, F32.negInf => F32.negInf

/-- The `float` difference `a - b`. -/
def F32.sub (a b : F32) : F32 := F32.add a (F32.neg b)

/-- The `float` product `a * b`. -/
def F32.mul : F32 → F32 → F32
  | F32.finite a, F32.finite b => roundF32 (a * b)
  | F32.nan, _ => F32.nan
  | _, F32.nan => F32.nan
  | F32.finite a, F32.posInf => infinityTimes true a
  | F32.finite a, F32.negInf => infinityTimes false a
  | F32.posInf, F32.finite b => infinityTimes true b
  | F32.negInf, F32.finite b => infinityTimes false b
  | F32.posInf, F32.posInf => F32.posInf
  | F32.negInf, F32.negInf => F32.posInf
  | F32.posInf, F32.negInf => F32.negInf
  | F32.negInf, F32.posInf => F32.negInf

instance : Add F32 := ⟨F32.add⟩

instance : Sub F32 := ⟨F32.sub⟩

instance : Mul F32 := ⟨F32.mul⟩

/-- The `float` comparison `a > b`; false as soon as one side is a NaN. -/
def F32.gt : F32 → F32 → Bool
  | F32.finite a, F32.finite b => decide (b < a)
  | F32.nan, _ => false
  | _, F32.nan => false
  | F32.posInf, F32.posInf => false
  | F32.posInf, _ => true
  | _, F32.posInf => false
  | F32.negInf, _ => false
  | F32.finite _, F32.negInf => true

/-- The call `std::sqrt(x)` on a `float`: the root function `fsqrt` on the finite non-negative
numbers, NaN on the negative ones. -/
def F32.sqrt (fsqrt : ℚ → ℚ) : F32 → F32
  | F32.finite q => if q < 0 then F32.nan else F32.finite (fsqrt q)
  | F32.posInf => F32.posInf
  | F32.negInf => F32.nan
  | F32.nan => F32.nan

/-- The implicit conversion of a `float` to `uint8_t`; undefined for an infinity, a NaN and a
number whose truncation is not in `0..255`. -/
def F32.toUChar : F32 → Option Nat
  | F32.finite q => floatToUChar q
  | _ => none

/-- The cast `(float)p[i]` of an integer sample: exact below `2^24`, rounded above. -/
def F32.ofSample (v : Nat) : F32 := roundF32 (v : ℚ)

/-! ## The kernels in binary32 arithmetic

The kernels with the arithmetic of the source: every product, sum and difference is a `float`
operation, rounded to binary32 in the order in which the source writes it. -/

namespace binary32

/-- The weighted sum of squared deviations of the mono kernels (lines 116-118 and 130-132). -/
def monoResult (weight : Fin 3 → F32) (dI0 dI1 dI2 : F32) : F32 :=
  let mean := (dI0 * weight 0) + (dI1 * weight 1) + (dI2 * weight 2)
  let value0 := dI0 - mean
  let value1 := dI1 - mean
  let value2 := dI2 - mean
  ((value0 * value0) * weight 0) + ((value1 * value1) * weight 1) + ((value2 * value2) * weight 2)

/-- One iteration of `calcWeightedVarianceMono` up to the store: the byte computed for pixel `i`. -/
def pixelMono (fsqrt : ℚ → ℚ) (i1 i2 i3 : List Cell) (weight : Fin 3 → F32) (i : Nat) :
    Option Nat := do
  let a ← readSample i1 i
  let b ← readSample i2 i
  let c ← readSample i3 i
  F32.toUChar (F32.sqrt fsqrt
    (monoResult weight (F32.ofSample a) (F32.ofSample b) (F32.ofSample c)))

/-- The kernel `calcWeightedVarianceMono` (lines 109-120). -/
def calcWeightedVarianceMono (fsqrt : ℚ → ℚ) (i1 i2 i3 : List Cell) (o : Buffer)
    (totalPixels : Nat) (weight : Fin 3 → F32) : Option Buffer :=
  forLoop totalPixels (fun i o => (pixelMono fsqrt i1 i2 i3 weight i).bind (writeUChar o i)) o

/-- One iteration of `calcWeightedVarianceMonoThreshold` up to the store. -/
def pixelMonoThreshold (i1 i2 i3 : List Cell) (weight : Fin 3 → F32) (thresholdSquared : F32)
    (i : Nat) : Option Nat := do
  let a ← readSample i1 i
  let b ← readSample i2 i
  let c ← readSample i3 i
  let result := monoResult weight (F32.ofSample a) (F32.ofSample b) (F32.ofSample c)
  some (if F32.gt result thresholdSquared then UCHAR_MAX else ZERO_UC)

/-- The kernel `calcWeightedVarianceMonoThreshold` (lines 122-135). -/
def calcWeightedVarianceMonoThreshold (i1 i2 i3 : List Cell) (o : Buffer)
    (totalPixels : Nat) (weight : Fin 3 → F32) (thresholdSquared : F32) : Option Buffer :=
  forLoop totalPixels
    (fun i o => (pixelMonoThreshold i1 i2 i3 weight thresholdSquared i).bind (writeUChar o i)) o

/-- The per-channel sum of the colour kernels (lines 147-155 and 170-178): the mean uses the
three samples of the channel, the third deviation is taken from `c2` as lines 150-152 and
173-175 do. -/
def colorChannelResult (weight : Fin 3 → F32) (c1 c2 c3 : F32) : F32 :=
  let mean := (c1 * weight 0) + (c2 * weight 1) + (c3 * weight 2)
  let value0 := c1 - mean
  let value1 := c2 - mean
  let value2 := c2 - mean
  ((value0 * value0) * weight 0) + ((value1 * value1) * weight 1) + ((value2 * value2) * weight 2)

/-- The three samples `p[j3]`, `p[j3 + 1]`, `p[j3 + 2]` of one pixel cast to `float`. -/
def readPixel3 (p : List Cell) (j3 : Nat) : Option (F32 × F32 × F32) := do
  let r ← readSample p j3
  let g ← readSample p ((j3 + 1) % 2 ^ 32)
  let b ← readSample p ((j3 + 2) % 2 ^ 32)
  some (F32.ofSample r, F32.ofSample g, F32.ofSample b)

/-- The literal `0.299f`. -/
def lumaR : F32 := roundF32 (299 / 1000)

/-- The literal `0.587f`. -/
def lumaG : F32 := roundF32 (587 / 1000)

/-- The literal `0.114f`. -/
def lumaB : F32 := roundF32 (114 / 1000)

/-- One iteration of `calcWeightedVarianceColor` up to the store. -/
def pixelColor (fsqrt : ℚ → ℚ) (i1 i2 i3 : List Cell) (weight : Fin 3 → F32) (j : Nat) :
    Option Nat := do
  let dI1 ← readPixel3 i1 (colorIndex j)
  let dI2 ← readPixel3 i2 (colorIndex j)
  let dI3 ← readPixel3 i3 (colorIndex j)
  let r := F32.sqrt fsqrt (colorChannelResult weight dI1.1 dI2.1 dI3.1)
  let g := F32.sqrt fsqrt (colorChannelResult weight dI1.2.1 dI2.2.1 dI3.2.1)
  let b := F32.sqrt fsqrt (colorChannelResult weight dI1.2.2 dI2.2.2 dI3.2.2)
  F32.toUChar (lumaR * r + lumaG * g + lumaB * b)

/-- The kernel `calcWeightedVarianceColor` (lines 137-158). -/
def calcWeightedVarianceColor (fsqrt : ℚ → ℚ) (i1 i2 i3 : List Cell) (o : Buffer)
    (totalPixels : Nat) (weight : Fin 3 → F32) : Option Buffer :=
  forLoop totalPixels (fun j o => (pixelColor fsqrt i1 i2 i3 weight j).bind (writeUChar o j)) o

/-- The value `result` of line 179 for one pixel given by its three channel triples. -/
def colorThresholdResult (weight : Fin 3 → F32) (dI1 dI2 dI3 : F32 × F32 × F32) : F32 :=
  let r2 := colorChannelResult weight dI1.1 dI2.1 dI3.1
  let g2 := colorChannelResult weight dI1.2.1 dI2.2.1 dI3.2.1
  let b2 := colorChannelResult weight dI1.2.2 dI2.2.2 dI3.2.2
  lumaR * r2 + lumaG * g2 + lumaB * b2

/-- One iteration of `calcWeightedVarianceColorThreshold` up to the store. -/
def pixelColorThreshold (i1 i2 i3 : List Cell) (weight : Fin 3 → F32) (thresholdSquared : F32)
    (j : Nat) : Option Nat := do
  let dI1 ← readPixel3 i1 (colorIndex j)
  let dI2 ← readPixel3 i2 (colorIndex j)
  let dI3 ← readPixel3 i3 (colorIndex j)
  let result := colorThresholdResult weight dI1 dI2 dI3
  some (if F32.gt result thresholdSquared then UCHAR_MAX else ZERO_UC)

/-- The kernel `calcWeightedVarianceColorThreshold` (lines 160-182). -/
def calcWeightedVarianceColorThreshold (i1 i2 i3 : List Cell) (o : Buffer)
    (totalPixels : Nat) (weight : Fin 3 → F32) (thresholdSquared : F32) : Option Buffer :=
  forLoop totalPixels
    (fun j o => (pixelColorThreshold i1 i2 i3 weight thresholdSquared j).bind (writeUChar o j)) o

/-- The member `weightedVarianceMono` (lines 184-199); its `size_t totalPixels` is narrowed to the
`uint32_t` parameter of the kernels. -/
def weightedVarianceMono (fsqrt : ℚ → ℚ) (img1 img2 img3 : List Cell) (outImg : Buffer)
    (totalPixels : Nat) (weight : Fin 3 → F32) (enableThreshold : Bool) (thresholdSquared : F32) :
    Option Buffer :=
  if enableThreshold then
    calcWeightedVarianceMonoThreshold img1 img2 img3 outImg (totalPixels % 2 ^ 32) weight
      thresholdSquared
  else
    calcWeightedVarianceMono fsqrt img1 img2 img3 outImg (totalPixels % 2 ^ 32) weight

/-- The member `weightedVarianceColor` (lines 201-216). -/
def weightedVarianceColor (fsqrt : ℚ → ℚ) (img1 img2 img3 : List Cell) (outImg : Buffer)
    (totalPixels : Nat) (weight : Fin 3 → F32) (enableThreshold : Bool) (thresholdSquared : F32) :
    Option Buffer :=
  if enableThreshold then
    calcWeightedVarianceColorThreshold img1 img2 img3 outImg (totalPixels % 2 ^ 32) weight
      thresholdSquared
  else
    calcWeightedVarianceColor fsqrt img1 img2 img3 outImg (totalPixels % 2 ^ 32) weight

/-- Modelled from the spec: the Weight Configuration as `process` reads it, its three weights
and two threshold constants being `float` values; the declaration that the source file is
compiled against is in an absent header. -/
structure WeightedMovingVarianceParams where
  enableThreshold : Bool
  weight : Fin 3 → F32
  thresholdSquared : F32
  thresholdSquared16 : F32

/-- The kernel selection of `process` (lines 77-106) for the geometry `imgSize`, applied to the
bytes of the current, previous-1 and previous-2 buffers and to the output bytes. -/
def runKernel (fsqrt : ℚ → ℚ) (imgSize : ImgSize) (params : WeightedMovingVarianceParams)
    (pImgInput pImgInputPrev1 pImgInputPrev2 : Buffer) (outData : Buffer) : Option Buffer :=
  if imgSize.numChannels = 1 then
    if imgSize.bytesPerPixel = 1 then
      weightedVarianceMono fsqrt pImgInput pImgInputPrev1 pImgInputPrev2
        outData (imgSize.numPixels % 2 ^ 64)
        params.weight params.enableThreshold params.thresholdSquared
    else
      weightedVarianceMono fsqrt (asUInt16 pImgInput) (asUInt16 pImgInputPrev1)
        (asUInt16 pImgInputPrev2)
        outData (imgSize.numPixels % 2 ^ 64)
        params.weight params.enableThreshold params.thresholdSquared16
  else
    if imgSize.bytesPerPixel = 1 then
      weightedVarianceColor fsqrt pImgInput pImgInputPrev1 pImgInputPrev2
        outData (imgSize.numPixels % 2 ^ 64)
        params.weight params.enableThreshold params.thresholdSquared
    else
      weightedVarianceColor fsqrt (asUInt16 pImgInput) (asUInt16 pImgInputPrev1)
        (asUInt16 pImgInputPrev2)
        outData (imgSize.numPixels % 2 ^ 64)
        params.weight params.enableThreshold params.thresholdSquared16

end binary32

/-! ## The stream coordinator -/

/-- The member `rollImages` (lines 44-52): the row of `ROLLING_BG_IDX` selected by
`currentRollingIdx % 3` is written into the three role pointers, then the counter grows by one.
No byte of `pImgMem` is touched. -/
def rollImages (rollingImages : RollingImages) : RollingImages :=
  let rollingIdx := ROLLING_BG_IDX ⟨rollingImages.currentRollingIdx % 3, Nat.mod_lt _ (by decide)⟩
  { rollingImages with
    pImgInput := some (rollingIdx 0)
    pImgInputPrev1 := some (rollingIdx 1)
    pImgInputPrev2 := some (rollingIdx 2)
    currentRollingIdx := rollingImages.currentRollingIdx + 1 }

/-- The body of the loop of `initialize` (lines 31-40) for the stream whose geometry is
`imgSize`: zeroed counters, null role pointers, three fresh buffers of `sizeInBytes`
indeterminate bytes, and one call of `rollImages`. -/
def initRollingImages (imgSize : ImgSize) : RollingImages :=
  rollImages
    { currentRollingIdx := 0
      firstPhase := 0
      pImgSize := imgSize
      pImgInput := none
      pImgInputPrev1 := none
      pImgInputPrev2 := none
      pImgMem := fun _ => makeUniqueForOverwrite imgSize.sizeInBytes }

/-- The object state of `WeightedMovingVariance`: its parameters, the two members inherited from
the base class `CoreBgs` that the source file reads, and the per-stream windows. -/
structure WeightedMovingVariance where
  m_params : WeightedMovingVarianceParams
  m_numProcessesParallel : Nat
  m_imgSizesParallel : List ImgSize
  imgInputPrev : List RollingImages

/-- The member `initialize` (lines 26-42): `imgInputPrev` gets `m_numProcessesParallel` entries,
entry `i` built from `m_imgSizesParallel[i]`; undefined when that vector is shorter. -/
def initialise (self : WeightedMovingVariance) : Option WeightedMovingVariance :=
  if self.m_numProcessesParallel ≤ self.m_imgSizesParallel.length then
    some { self with
      imgInputPrev :=
        (self.m_imgSizesParallel.take self.m_numProcessesParallel).map initRollingImages }
  else none

/-- The kernel selection of `process` (lines 77-106) for the geometry `imgSize`, applied to the
bytes of the current, previous-1 and previous-2 buffers and to the output bytes. -/
def runKernel (fsqrt : ℚ → ℚ) (imgSize : ImgSize) (params : WeightedMovingVarianceParams)
    (pImgInput pImgInputPrev1 pImgInputPrev2 : Buffer) (outData : Buffer) : Option Buffer :=
  if imgSize.numChannels = 1 then
    if imgSize.bytesPerPixel = 1 then
      weightedVarianceMono fsqrt pImgInput pImgInputPrev1 pImgInputPrev2
        outData (imgSize.numPixels % 2 ^ 64)
        params.weight params.enableThreshold params.thresholdSquared
    else
      weightedVarianceMono fsqrt (asUInt16 pImgInput) (asUInt16 pImgInputPrev1)
        (asUInt16 pImgInputPrev2)
        outData (imgSize.numPixels % 2 ^ 64)
        params.weight params.enableThreshold params.thresholdSquared16
  else
    if imgSize.bytesPerPixel = 1 then
      weightedVarianceColor fsqrt pImgInput pImgInputPrev1 pImgInputPrev2
        outData (imgSize.numPixels % 2 ^ 64)
        params.weight params.enableThreshold params.thresholdSquared
    else
      weightedVarianceColor fsqrt (asUInt16 pImgInput) (asUInt16 pImgInputPrev1)
        (asUInt16 pImgInputPrev2)
        outData (imgSize.numPixels % 2 ^ 64)
        params.weight params.enableThreshold params.thresholdSquared16

/-- The overload of `process` that takes the window (lines 64-107): the frame is copied into the
current slot; during the first two calls only `firstPhase` grows and the output is returned as it
came; afterwards the selected kernel fills the output. -/
def processRollingImages (fsqrt : ℚ → ℚ) (inImage outImg : Mat) (imgInputPrev : RollingImages)
    (params : WeightedMovingVarianceParams) : Option (Mat × RollingImages) := do
  let cur ← imgInputPrev.pImgInput
  let copied ← memcpy (imgInputPrev.pImgMem cur) inImage.data imgInputPrev.pImgSize.sizeInBytes
  let window := { imgInputPrev with pImgMem := Function.update imgInputPrev.pImgMem cur copied }
  if window.firstPhase < 2 then
    some (outImg, { window with firstPhase := window.firstPhase + 1 })
  else do
    let prev1 ← window.pImgInputPrev1
    let prev2 ← window.pImgInputPrev2
    let data ← runKernel fsqrt window.pImgSize params
      (window.pImgMem cur) (window.pImgMem prev1) (window.pImgMem prev2) outImg.data
    some ({ outImg with data := data }, window)

/-- The public member `process` (lines 54-62) for stream `numProcess`: an empty output is created
with the pixel count of the input, the overload above runs on `imgInputPrev[numProcess]`, and
that window is rotated. Undefined when there is no such stream. -/
def process (fsqrt : ℚ → ℚ) (self : WeightedMovingVariance) (imgInput imgOutput : Mat)
    (numProcess : Nat) : Option (WeightedMovingVariance × Mat) := do
  let imgOutput1 := if imgOutput.empty then Mat.create imgInput.size else imgOutput
  let window ← self.imgInputPrev.get? numProcess
  let (out, window1) ← processRollingImages fsqrt imgInput imgOutput1 window self.m_params
  some ({ self with imgInputPrev := self.imgInputPrev.set numProcess (rollImages window1) }, out)

/-! ## Auxiliary definitions for the statements -/

/-- The row of `ROLLING_BG_IDX` that `rollImages` selects when the counter is `c`. -/
def rollingRow (c : Nat) : Fin 3 → Fin 3 := ROLLING_BG_IDX ⟨c % 3, Nat.mod_lt _ (by decide)⟩

/-- The window states that can arise for one stream: the state built by `initialize`, and
every state obtained from such a state by `rollImages` or by a defined run of `process`. -/
inductive Reachable : RollingImages → Prop
  | init (imgSize : ImgSize) : Reachable (initRollingImages imgSize)
  | roll (r : RollingImages) : Reachable r → Reachable (rollImages r)
  | proc (fsqrt : ℚ → ℚ) (inImage outImg out1 : Mat) (params : WeightedMovingVarianceParams)
      (r r1 : RollingImages) : Reachable r →
      processRollingImages fsqrt inImage outImg r params = some (out1, r1) → Reachable r1

/-- A run of `process` calls on stream `numProcess`, each call given as the pair of its input
frame and the output image passed in; the outputs are collected in call order. Undefined as soon
as one call is. -/
def processAll (fsqrt : ℚ → ℚ) (numProcess : Nat) :
    WeightedMovingVariance → List (Mat × Mat) → Option (WeightedMovingVariance × List Mat)
  | self, [] => some (self, [])
  | self, (imgInput, imgOutput) :: rest => do
    let (self1, out) ← process fsqrt self imgInput imgOutput numProcess
    let (self2, outs) ← processAll fsqrt numProcess self1 rest
    some (self2, out :: outs)

/-- The output image that `process` hands to the kernel stage: the one passed in, or a fresh
one of the input's pixel count when the one passed in is empty (lines 56-59). -/
def outputFor (imgInput imgOutput : Mat) : Mat :=
  if imgOutput.empty then Mat.create imgInput.size else imgOutput

/-- The state of a window of geometry `imgSize` after the frames `hist` (newest first, each cut
to the byte size of the geometry) have been submitted to it since `initialize`. -/
structure WindowInv (imgSize : ImgSize) (hist : List Buffer) (r : RollingImages) : Prop where
  size : r.pImgSize = imgSize
  counter : r.currentRollingIdx = hist.length + 1
  phase : r.firstPhase = min hist.length 2
  cur : r.pImgInput = some (rollingRow hist.length 0)
  prev1 : r.pImgInputPrev1 = some (rollingRow hist.length 1)
  prev2 : r.pImgInputPrev2 = some (rollingRow hist.length 2)
  lens : ∀ slot, (r.pImgMem slot).length = imgSize.sizeInBytes
  mem1 : ∀ f, hist.get? 0 = some f → r.pImgMem (rollingRow hist.length 1) = f
  mem2 : ∀ f, hist.get? 1 = some f → r.pImgMem (rollingRow hist.length 2) = f

/-- The window after the copy of a frame into the current slot. -/
def withFrame (r : RollingImages) (slot : Fin 3) (stored : Buffer) : RollingImages :=
  { r with pImgMem := Function.update r.pImgMem slot stored }

/-- The frames stored by a run of calls, newest first, each cut to `n` bytes. -/
def storedFrames (n : Nat) (calls : List (Mat × Mat)) : List Buffer :=
  calls.reverse.map (fun c => c.1.data.take n)

/-- The spec's weighted variance (§4.2 steps 1-2): `mean = current*w0 + prev1*w1 + prev2*w2` and
`variance = w0*(current-mean)^2 + w1*(prev1-mean)^2 + w2*(prev2-mean)^2`. -/
def specVariance (w0 w1 w2 current prev1 prev2 : ℚ) : ℚ :=
  let mean := current * w0 + prev1 * w1 + prev2 * w2
  w0 * (current - mean) ^ 2 + w1 * (prev1 - mean) ^ 2 + w2 * (prev2 - mean) ^ 2

/-- The spec's thresholded output: `255` when `variance > thresholdSquared` else `0`. -/
def specMask (variance thresholdSquared : ℚ) : Nat :=
  if variance > thresholdSquared then 255 else 0

/-- The sample `p[j3 + c]` that the colour loops read for channel `c` of pixel `j`, with `j3`
and the sum taken as `uint32_t`; it is `p[3 * j + c]` as long as `3 * j + c < 2 ^ 32`. -/
def channelAt (p : List Nat) (j c : Nat) : Nat := p.getD ((colorIndex j + c) % 2 ^ 32) 0

/-- All the reads that the colour loops make in `p` for `n` pixels fall inside `p`. -/
def ColorReadable (p : List Nat) (n : Nat) : Prop :=
  ∀ j, j < n → ∀ c, c < 3 → (colorIndex j + c) % 2 ^ 32 < p.length

/-- The three channels of pixel `j` as the colour loops read them. -/
def pixel3At (p : List Nat) (j : Nat) : ℚ × ℚ × ℚ :=
  ((channelAt p j 0 : ℚ), (channelAt p j 1 : ℚ), (channelAt p j 2 : ℚ))

/-- The per-channel quantity of the claim on the colour path: the mean
`m = cur*w0 + prev1*w1 + prev2*w2` and the sum `w0*(cur-m)^2 + w1*(prev1-m)^2 + w2*(prev1-m)^2`,
whose third deviation is taken from the previous-1 sample. -/
def anomalousVariance (w0 w1 w2 cur prev1 prev2 : ℚ) : ℚ :=
  let m := cur * w0 + prev1 * w1 + prev2 * w2
  w0 * (cur - m) ^ 2 + w1 * (prev1 - m) ^ 2 + w2 * (prev1 - m) ^ 2

/-- A computable stand-in for `std::sqrt` on concrete inputs: the integer square root of the
integer part of `x`. It is the exact root on perfect squares, and composed with the truncating
conversion to `uint8_t` it gives the truncated real root. -/
def sqrtFloor (x : ℚ) : ℚ := (Nat.sqrt (Int.toNat ⌊x⌋) : ℚ)

/-- The spec's conversion of the continuous deviation: "saturated/truncated into an 8-bit
value", the fraction dropped and every value above 255 replaced by 255. -/
def specSaturate (x : ℚ) : Nat := min 255 (Int.toNat ⌊x⌋)

/-- The 16-bit samples `s16` are the samples `s8` with the same relative intensities: there is
one sample for each sample of `s8`, equal to `k` times it. -/
def Scaled (k : ℚ) (s8 s16 : List Nat) : Prop :=
  s16.length = s8.length ∧ ∀ i, ((s16.getD i 0 : Nat) : ℚ) = k * ((s8.getD i 0 : Nat) : ℚ)

/-- The weights (0.5, 0.3, 0.2) of the spec's scenarios. -/
def demoWeight : Fin 3 → ℚ := ![1/2, 3/10, 1/5]

/-- Thresholded parameters for the worked examples. -/
def demoParams : WeightedMovingVarianceParams :=
  { enableThreshold := true, weight := demoWeight, thresholdSquared := 399,
    thresholdSquared16 := 257 ^ 2 * 399 }

/-- The geometry of the spec's scenarios: 4×1, one channel, one byte per sample. -/
def demoSize : ImgSize := { width := 4, height := 1, numChannels := 1, bytesPerPixel := 1 }

/-- An object with one stream of geometry `demoSize`, before `initialize`. -/
def demoBgs : WeightedMovingVariance :=
  { m_params := demoParams, m_numProcessesParallel := 1, m_imgSizesParallel := [demoSize],
    imgInputPrev := [] }

/-- A 4×1 frame holding the given bytes. -/
def demoFrame (bytes : List Nat) : Mat := { size := 4, data := bytes.map some }

/-- An empty output image, as a caller passes on its first call. -/
def emptyMat : Mat := { size := 0, data := [] }

/-- The parameters of the spec's first scenario: weights (0.5, 0.3, 0.2), thresholding off. -/
def demoParamsContinuous : WeightedMovingVarianceParams :=
  { enableThreshold := false, weight := demoWeight, thresholdSquared := 399,
    thresholdSquared16 := 257 ^ 2 * 399 }

/-- An object with one 4×1 mono 8-bit stream and thresholding off, before `initialize`. -/
def demoBgsContinuous : WeightedMovingVariance :=
  { m_params := demoParamsContinuous, m_numProcessesParallel := 1,
    m_imgSizesParallel := [demoSize], imgInputPrev := [] }

/-- Thresholded parameters with the weights (0.5, 0.3, 0.2) and the given threshold constant. -/
def demoParamsThreshold (t : ℚ) : WeightedMovingVarianceParams :=
  { enableThreshold := true, weight := demoWeight, thresholdSquared := t,
    thresholdSquared16 := t }

/-- An object with one 4×1 mono 8-bit stream, thresholding on and the given `thresholdSquared`,
before `initialize`. -/
def demoBgsThreshold (t : ℚ) : WeightedMovingVariance :=
  { m_params := demoParamsThreshold t, m_numProcessesParallel := 1,
    m_imgSizesParallel := [demoSize], imgInputPrev := [] }

/-- A geometry outside the supported set: one pixel of four 8-bit channels. -/
def fourChannelSize : ImgSize := { width := 1, height := 1, numChannels := 4, bytesPerPixel := 1 }

/-- An object whose only stream has the geometry `fourChannelSize`, before `initialize`. -/
def fourChannelBgs : WeightedMovingVariance :=
  { m_params := demoParams, m_numProcessesParallel := 1, m_imgSizesParallel := [fourChannelSize],
    imgInputPrev := [] }

/-- A one-pixel frame of four bytes. -/
def fourChannelFrame (bytes : List Nat) : Mat := { size := 1, data := bytes.map some }

/-- The three submissions of the spec's thresholded scenario: [10,10,10,10] twice, then
[50,10,10,10], each with an empty output image. -/
def jumpCalls : List (Mat × Mat) :=
  [(demoFrame [10, 10, 10, 10], emptyMat), (demoFrame [10, 10, 10, 10], emptyMat),
    (demoFrame [50, 10, 10, 10], emptyMat)]

/-- An object with two 4×1 mono 8-bit streams, before `initialize`. -/
def demoBgsTwo : WeightedMovingVariance :=
  { m_params := demoParams, m_numProcessesParallel := 2,
    m_imgSizesParallel := [demoSize, demoSize], imgInputPrev := [] }

/-- The samples that a `uint16_t*` view reads from fully written bytes (little-endian). -/
def decode16 : List Nat → List Nat
  | lo :: hi :: rest => (lo + 256 * hi) :: decode16 rest
  | _ => []

/-- The run of a kernel in two parts: on the first `k` pixels, and on the remaining `n - k`
pixels with the three input pointers advanced by `k` pixels of `stride` samples each and the
output pointer advanced by `k` cells; the two outputs are then put one after the other. -/
def splitRun (kernel : List Cell → List Cell → List Cell → Buffer → Nat → Option Buffer)
    (stride : Nat) (i1 i2 i3 : List Cell) (o : Buffer) (n k : Nat) : Option Buffer :=
  (kernel i1 i2 i3 o k).bind (fun first =>
    (kernel (i1.drop (stride * k)) (i2.drop (stride * k)) (i3.drop (stride * k)) (o.drop k)
      (n - k)).map (fun rest => first.take k ++ rest))

/-- The two views `p` and `q` hold the same samples for pixel `j`, a pixel being `stride`
consecutive samples. -/
def SamePixel (stride : Nat) (p q : List Cell) (j : Nat) : Prop :=
  ∀ c, c < stride → readSample p (stride * j + c) = readSample q (stride * j + c)

/-- A `float` with its fraction dropped, as a natural number (0 for a value that is not a
non-negative finite number). -/
def F32.truncate : F32 → Nat
  | F32.finite q => Int.toNat ⌊q⌋
  | _ => 0

/-- The spec's weighted variance (§4.2 steps 1-2) evaluated as the kernels evaluate it, in
`float` arithmetic: `mean = current*w0 + prev1*w1 + prev2*w2` and
`variance = w0*(current-mean)^2 + w1*(prev1-mean)^2 + w2*(prev2-mean)^2`, every product, sum and
difference rounded to binary32, a square being the product of the deviation with itself. -/
def binary32.specVariance (w0 w1 w2 current prev1 prev2 : F32) : F32 :=
  let mean := current * w0 + prev1 * w1 + prev2 * w2
  w0 * ((current - mean) * (current - mean)) + w1 * ((prev1 - mean) * (prev1 - mean))
    + w2 * ((prev2 - mean) * (prev2 - mean))

/-- The spec's thresholded output for `float` operands: `255` when
`variance > thresholdSquared` else `0`. -/
def binary32.specMask (variance thresholdSquared : F32) : Nat :=
  if F32.gt variance thresholdSquared then 255 else 0

/-- The per-channel quantity of the claim on the colour path in `float` arithmetic: the mean
`m = cur*w0 + prev1*w1 + prev2*w2` and the sum `w0*(cur-m)^2 + w1*(prev1-m)^2 + w2*(prev1-m)^2`,
whose third deviation is taken from the previous-1 sample. -/
def binary32.anomalousVariance (w0 w1 w2 cur prev1 prev2 : F32) : F32 :=
  let m := cur * w0 + prev1 * w1 + prev2 * w2
  w0 * ((cur - m) * (cur - m)) + w1 * ((prev1 - m) * (prev1 - m))
    + w2 * ((prev1 - m) * (prev1 - m))

/-- The three channels of pixel `j` as the colour loops read them, cast to `float`. -/
def binary32.pixel3At (p : List Nat) (j : Nat) : F32 × F32 × F32 :=
  (F32.ofSample (channelAt p j 0), F32.ofSample (channelAt p j 1),
    F32.ofSample (channelAt p j 2))

/-- The weights `0.5f`, `0.3f`, `0.2f`: the binary32 numbers nearest to 0.5, 0.3 and 0.2. -/
def binary32.demoWeight : Fin 3 → F32 := ![roundF32 (1 / 2), roundF32 (3 / 10), roundF32 (1 / 5)]

/-- The spec's continuous deviation `sqrt(variance)` on the mono path, in `float` arithmetic. -/
def binary32.specDeviation (fsqrt : ℚ → ℚ) (w0 w1 w2 current prev1 prev2 : F32) : F32 :=
  F32.sqrt fsqrt (binary32.specVariance w0 w1 w2 current prev1 prev2)

/-- The kernels' mean of a pixel that holds the sample `v` in all three views,
`v*w0 + v*w1 + v*w2` in `float` arithmetic, is `v` itself. In exact arithmetic this is the
condition `w0 + w1 + w2 = 1`. -/
def binary32.MeanIsValue (weight : Fin 3 → F32) (v : Nat) : Prop :=
  (F32.ofSample v * weight 0) + (F32.ofSample v * weight 1) + (F32.ofSample v * weight 2)
    = F32.ofSample v

instance (weight : Fin 3 → F32) (v : Nat) : Decidable (binary32.MeanIsValue weight v) :=
  inferInstanceAs (Decidable (_ = _))

/-- The weights 0.5, 0.25, 0.25, each a binary32 number. -/
def binary32.dyadicWeight : Fin 3 → F32 :=
  ![roundF32 (1 / 2), roundF32 (1 / 4), roundF32 (1 / 4)]

/-- The weights 1, 1, 1. -/
def binary32.unitWeight : Fin 3 → F32 := ![roundF32 1, roundF32 1, roundF32 1]

/-- The `float` `y` is the `float` `x` multiplied by `2^s` without any rounding: `x` is a finite
multiple of `2^-g` of magnitude at most `2^B`, and `y` is `2^s` times that number. -/
def ScaledBy (s g B : Nat) (x y : F32) : Prop :=
  ∃ n : Int, x = F32.finite ((n : ℚ) / (2 : ℚ) ^ g) ∧
    y = F32.finite ((2 : ℚ) ^ s * ((n : ℚ) / (2 : ℚ) ^ g)) ∧
    |(n : ℚ) / (2 : ℚ) ^ g| ≤ (2 : ℚ) ^ B

/-- The weight is a multiple of `2^-40` of magnitude at most `2^24`; every binary32 number that
is 0 or whose magnitude lies between `2^-17` and `2^24` is one. -/
def binary32.WeightInRange (w : F32) : Prop :=
  ∃ n : Int, w = F32.finite ((n : ℚ) / (2 : ℚ) ^ (40 : Nat)) ∧
    |(n : ℚ) / (2 : ℚ) ^ (40 : Nat)| ≤ (2 : ℚ) ^ (24 : Nat)

/-- Thresholded parameters with the weights `0.5f`, `0.3f`, `0.2f` and the two threshold
constants given. -/
def binary32.demoParams (t t16 : ℚ) : binary32.WeightedMovingVarianceParams :=
  { enableThreshold := true, weight := binary32.demoWeight, thresholdSquared := F32.finite t,
    thresholdSquared16 := F32.finite t16 }

end sky360lib.bgs

namespace sky360lib.demo

/-! ## The demo tracker: bounding-box helpers -/

/-- The rectangle type `cv::Rect` of OpenCV: four `int` fields. -/
structure Rect where
  x : Int
  y : Int
  width : Int
  height : Int
deriving DecidableEq

/-- The least value of a 32-bit `int`. -/
def INT_MIN : Int := -2147483648

/-- The greatest value of a 32-bit `int`. -/
def INT_MAX : Int := 2147483647

/-- The result of an `int` operation whose mathematical value is `v`: `v` itself when it is
representable, undefined (signed overflow) otherwise. -/
def intResult (v : Int) : Option Int :=
  if INT_MIN ≤ v ∧ v ≤ INT_MAX then some v else none

/-- The `int` expression `hi - lo + 1`, one factor of `intersection_area` (line 226 of
`demoTracker.hpp`). -/
def spanPlusOne (hi lo : Int) : Option Int := do
  let d ← intResult (hi - lo)
  intResult (d + 1)

/-- The `int` expression `(width + 1) * (height + 1)` of lines 229 and 230. -/
def areaPlusOne (width height : Int) : Option Int := do
  let w ← intResult (width + 1)
  let h ← intResult (height + 1)
  intResult (w * h)

/-- Lines 226-234 of `bbox_overlap`, reached when the intersection rectangle is not empty. The
quotient of the two areas converted to `double` is an exact rational; a zero divisor gives no
finite number and is left undefined. -/
def overlapRatio (bbox1 bbox2 : Rect) (x_left y_top x_right y_bottom : Int) : Option ℚ := do
  let dx1 ← spanPlusOne x_right x_left
  let dy1 ← spanPlusOne y_bottom y_top
  let intersection_area ← intResult (dx1 * dy1)
  let bb1_area ← areaPlusOne bbox1.width bbox1.height
  let bb2_area ← areaPlusOne bbox2.width bbox2.height
  let sum ← intResult (bb1_area + bb2_area)
  let union ← intResult (sum - intersection_area)
  if union = 0 then none else some ((intersection_area : ℚ) / (union : ℚ))

/-- The function `bbox_overlap` of `demoTracker.hpp` (lines 210-235). -/
def bbox_overlap (bbox1 bbox2 : Rect) : Option ℚ := do
  let x_left := max bbox1.x bbox2.x
  let y_top := max bbox1.y bbox2.y
  let right1 ← intResult (bbox1.x + bbox1.width)
  let right2 ← intResult (bbox2.x + bbox2.width)
  let x_right := min right1 right2
  let bottom1 ← intResult (bbox1.y + bbox1.height)
  let bottom2 ← intResult (bbox2.y + bbox2.height)
  let y_bottom := min bottom1 bottom2
  if x_right < x_left ∨ y_bottom < y_top then
    some 0
  else
    overlapRatio bbox1 bbox2 x_left y_top x_right y_bottom

/-- The function `bbox1_contain_bbox2` of `demoTracker.hpp` (lines 239-245); the operands of
`&&` are evaluated from left to right, and no further once one is false. -/
def bbox1_contain_bbox2 (bbox1 bbox2 : Rect) : Option Bool :=
  if bbox2.x > bbox1.x then
    if bbox2.y > bbox1.y then do
      let right2 ← intResult (bbox2.x + bbox2.width)
      let right1 ← intResult (bbox1.x + bbox1.width)
      if right2 < right1 then do
        let bottom2 ← intResult (bbox2.y + bbox2.height)
        let bottom1 ← intResult (bbox1.y + bbox1.height)
        some (decide (bottom2 < bottom1))
      else some false
    else some false
  else some false

/-- The member `DemoTracker::does_bbx_overlap` (lines 179-182) on the tracked boxes `m_bboxes`;
`back()` of an empty vector is undefined. -/
def does_bbx_overlap (m_bboxes : List Rect) (bbox : Rect) : Option Bool := do
  let back ← m_bboxes.getLast?
  let overlap ← bbox_overlap back bbox
  some (decide (overlap > 0))

/-- The member `DemoTracker::is_bbx_contained` (lines 184-187). -/
def is_bbx_contained (m_bboxes : List Rect) (bbox : Rect) : Option Bool := do
  let back ← m_bboxes.getLast?
  bbox1_contain_bbox2 back bbox

/-- The area `(width + 1) * (height + 1)` that `bbox_overlap` gives a box. -/
def boxArea (r : Rect) : Int := (r.width + 1) * (r.height + 1)

/-- The left edge of the intersection rectangle. -/
def xLeft (bbox1 bbox2 : Rect) : Int := max bbox1.x bbox2.x

/-- The top edge of the intersection rectangle. -/
def yTop (bbox1 bbox2 : Rect) : Int := max bbox1.y bbox2.y

/-- The right edge of the intersection rectangle. -/
def xRight (bbox1 bbox2 : Rect) : Int := min (bbox1.x + bbox1.width) (bbox2.x + bbox2.width)

/-- The bottom edge of the intersection rectangle. -/
def yBottom (bbox1 bbox2 : Rect) : Int := min (bbox1.y + bbox1.height) (bbox2.y + bbox2.height)

/-- The two boxes are separated: the intersection rectangle is empty in one direction. -/
def Separated (bbox1 bbox2 : Rect) : Prop :=
  xRight bbox1 bbox2 < xLeft bbox1 bbox2 ∨ yBottom bbox1 bbox2 < yTop bbox1 bbox2

instance (bbox1 bbox2 : Rect) : Decidable (Separated bbox1 bbox2) :=
  inferInstanceAs (Decidable (_ ∨ _))

/-- The area of the intersection rectangle, with the `+ 1` of screen coordinates. -/
def intersectionArea (bbox1 bbox2 : Rect) : Int :=
  (xRight bbox1 bbox2 - xLeft bbox1 bbox2 + 1) * (yBottom bbox1 bbox2 - yTop bbox1 bbox2 + 1)

/-- The right and bottom edges `x + width` and `y + height` of the box are representable in
`int`. -/
def Rect.EdgesFit (r : Rect) : Prop :=
  INT_MIN ≤ r.x + r.width ∧ r.x + r.width ≤ INT_MAX ∧
    INT_MIN ≤ r.y + r.height ∧ r.y + r.height ≤ INT_MAX

instance (r : Rect) : Decidable r.EdgesFit :=
  inferInstanceAs (Decidable (_ ∧ _))

/-- The sum `bb1_area + bb2_area` of the two box areas is representable in `int`. -/
def AreasFit (bbox1 bbox2 : Rect) : Prop := boxArea bbox1 + boxArea bbox2 ≤ INT_MAX

instance (bbox1 bbox2 : Rect) : Decidable (AreasFit bbox1 bbox2) :=
  inferInstanceAs (Decidable (_ ≤ _))

end sky360lib.demo

namespace sky360lib.bgs

/-! ## Lemmas and theorems -/

theorem forLoop_succ {σ : Type} (k : Nat) (body : Nat → σ → Option σ) (s : σ) :
    forLoop (k + 1) body s = (forLoop k body s).bind (body k) := rfl

theorem set_range_append (f : Nat → Nat) (o : Buffer) (n : Nat) (hn : n < o.length) (v : Nat) :
    ((List.range n).map (fun i => some (f i)) ++ o.drop n).set n (some v)
      = (List.range n).map (fun i => some (f i)) ++ (some v :: o.drop (n + 1)) := by
  rw [List.set_append]
  simp only [List.length_map, List.length_range, lt_irrefl, if_false, Nat.sub_self]
  rw [List.drop_eq_getElem_cons hn]
  rfl

theorem forLoop_write (px : Nat → Option Nat) (f : Nat → Nat) (o : Buffer) :
    ∀ n, n ≤ o.length → (∀ i, i < n → px i = some (f i)) →
      forLoop n (fun i o => (px i).bind (writeUChar o i)) o
        = some ((List.range n).map (fun i => some (f i)) ++ o.drop n) := by
  intro n
  induction n with
  | zero => intro _ _; simp [forLoop]
  | succ k ih =>
    intro hk hpx
    have hk1 : k < o.length := hk
    rw [forLoop_succ, ih (Nat.le_of_lt hk1) (fun i hi => hpx i (Nat.lt_succ_of_lt hi))]
    simp only [Option.some_bind, hpx k (Nat.lt_succ_self k)]
    have hlen : k < ((List.range k).map (fun i => some (f i)) ++ o.drop k).length := by
      simp; omega
    rw [writeUChar, if_pos hlen, set_range_append f o k hk1]
    simp [List.range_succ]

theorem ROLLING_BG_IDX_next : ∀ x : Fin 3,
    ROLLING_BG_IDX (x + 1) 0 = ROLLING_BG_IDX x 2 ∧ ROLLING_BG_IDX (x + 1) 1 = ROLLING_BG_IDX x 0 ∧
      ROLLING_BG_IDX (x + 1) 2 = ROLLING_BG_IDX x 1 := by decide

theorem ROLLING_BG_IDX_distinct : ∀ x : Fin 3,
    ROLLING_BG_IDX x 0 ≠ ROLLING_BG_IDX x 1 ∧ ROLLING_BG_IDX x 0 ≠ ROLLING_BG_IDX x 2 ∧
      ROLLING_BG_IDX x 1 ≠ ROLLING_BG_IDX x 2 := by decide

theorem rollingRow_succ (c : Nat) :
    rollingRow (c + 1) 0 = rollingRow c 2 ∧ rollingRow (c + 1) 1 = rollingRow c 0 ∧
      rollingRow (c + 1) 2 = rollingRow c 1 := by
  have h : (⟨(c + 1) % 3, Nat.mod_lt _ (by decide)⟩ : Fin 3)
      = ⟨c % 3, Nat.mod_lt _ (by decide)⟩ + 1 := by
    apply Fin.ext
    simp [Fin.val_add]
  unfold rollingRow
  rw [h]
  exact ROLLING_BG_IDX_next _

theorem rollingRow_distinct (c : Nat) :
    rollingRow c 0 ≠ rollingRow c 1 ∧ rollingRow c 0 ≠ rollingRow c 2 ∧
      rollingRow c 1 ≠ rollingRow c 2 := ROLLING_BG_IDX_distinct _

theorem rollImages_fields (r : RollingImages) :
    (rollImages r).currentRollingIdx = r.currentRollingIdx + 1 ∧
    (rollImages r).pImgInput = some (rollingRow r.currentRollingIdx 0) ∧
    (rollImages r).pImgInputPrev1 = some (rollingRow r.currentRollingIdx 1) ∧
    (rollImages r).pImgInputPrev2 = some (rollingRow r.currentRollingIdx 2) ∧
    (rollImages r).pImgMem = r.pImgMem ∧ (rollImages r).firstPhase = r.firstPhase ∧
    (rollImages r).pImgSize = r.pImgSize :=
  ⟨rfl, rfl, rfl, rfl, rfl, rfl, rfl⟩

theorem processRollingImages_roles (fsqrt : ℚ → ℚ) (inImage outImg out1 : Mat)
    (params : WeightedMovingVarianceParams) (r r1 : RollingImages)
    (h : processRollingImages fsqrt inImage outImg r params = some (out1, r1)) :
    r1.currentRollingIdx = r.currentRollingIdx ∧ r1.pImgInput = r.pImgInput ∧
      r1.pImgInputPrev1 = r.pImgInputPrev1 ∧ r1.pImgInputPrev2 = r.pImgInputPrev2 ∧
      r1.pImgSize = r.pImgSize := by
  simp only [processRollingImages, Option.bind_eq_bind, Option.bind_eq_some] at h
  obtain ⟨cur, hc, copied, hm, h⟩ := h
  split at h
  · simp only [Option.some.injEq, Prod.mk.injEq] at h
    obtain ⟨_, rfl⟩ := h
    simp
  · simp only [Option.bind_eq_some, Option.some.injEq, Prod.mk.injEq] at h
    obtain ⟨p1, h1, p2, h2, d, hd, _, rfl⟩ := h
    simp

/-- Every reachable window has been rotated at least once, and its role pointers are the row
selected by the counter value of that last rotation. -/
theorem Reachable.roles {r : RollingImages} (h : Reachable r) :
    ∃ c, r.currentRollingIdx = c + 1 ∧ r.pImgInput = some (rollingRow c 0) ∧
      r.pImgInputPrev1 = some (rollingRow c 1) ∧ r.pImgInputPrev2 = some (rollingRow c 2) := by
  induction h with
  | init imgSize => exact ⟨0, rfl, rfl, rfl, rfl⟩
  | roll r _ _ => exact ⟨r.currentRollingIdx, rfl, rfl, rfl, rfl⟩
  | proc fsqrt inImage outImg out1 params r r1 _ hp ih =>
    obtain ⟨c, hc, h0, h1, h2⟩ := ih
    obtain ⟨e, e0, e1, e2, _⟩ := processRollingImages_roles fsqrt inImage outImg out1 params r r1 hp
    exact ⟨c, e.trans hc, e0.trans h0, e1.trans h1, e2.trans h2⟩

/-- C3: in every window state reachable from `initialize` by any number of `rollImages` and
`process` calls, the three role pointers are non-null and point at three pairwise distinct
slots of `pImgMem`, so they are a permutation of the slots 0, 1, 2. -/
theorem roles_are_permutation (r : RollingImages) (h : Reachable r) :
    ∃ a b c : Fin 3, r.pImgInput = some a ∧ r.pImgInputPrev1 = some b ∧
      r.pImgInputPrev2 = some c ∧ a ≠ b ∧ a ≠ c ∧ b ≠ c ∧
      ∀ slot : Fin 3, slot = a ∨ slot = b ∨ slot = c := by
  obtain ⟨n, _, h0, h1, h2⟩ := h.roles
  obtain ⟨d01, d02, d12⟩ := rollingRow_distinct n
  refine ⟨_, _, _, h0, h1, h2, d01, d02, d12, ?_⟩
  intro slot
  revert d01 d02 d12
  generalize rollingRow n 0 = a
  generalize rollingRow n 1 = b
  generalize rollingRow n 2 = c
  revert slot a b c
  decide

theorem windowInv_init (imgSize : ImgSize) : WindowInv imgSize [] (initRollingImages imgSize) where
  size := rfl
  counter := rfl
  phase := rfl
  cur := rfl
  prev1 := rfl
  prev2 := rfl
  lens := fun _ => by simp [initRollingImages, rollImages, makeUniqueForOverwrite]
  mem1 := fun f h => by simp at h
  mem2 := fun f h => by simp at h

theorem memcpy_full (dst src : Buffer) (n : Nat) (hd : dst.length = n) (hs : n ≤ src.length) :
    memcpy dst src n = some (src.take n) := by
  simp [memcpy, hs, hd.symm, List.drop_length]
  omega

theorem memcpy_defined (dst src c : Buffer) (n : Nat) (h : memcpy dst src n = some c) :
    n ≤ src.length := by
  unfold memcpy at h
  split at h
  · rename_i hh; exact hh.1
  · simp at h

theorem processRollingImages_of_inv (fsqrt : ℚ → ℚ) (params : WeightedMovingVarianceParams)
    (imgSize : ImgSize) (hist : List Buffer) (r : RollingImages) (f out : Mat)
    (hinv : WindowInv imgSize hist r) (hf : imgSize.sizeInBytes ≤ f.data.length) :
    processRollingImages fsqrt f out r params =
      if hist.length < 2 then
        some (out, { withFrame r (rollingRow hist.length 0) (f.data.take imgSize.sizeInBytes) with
          firstPhase := r.firstPhase + 1 })
      else
        (runKernel fsqrt imgSize params (f.data.take imgSize.sizeInBytes)
          (r.pImgMem (rollingRow hist.length 1)) (r.pImgMem (rollingRow hist.length 2))
          out.data).map
          (fun d => ({ out with data := d },
            withFrame r (rollingRow hist.length 0) (f.data.take imgSize.sizeInBytes))) := by
  obtain ⟨d01, d02, d12⟩ := rollingRow_distinct hist.length
  have hm := memcpy_full (r.pImgMem (rollingRow hist.length 0)) f.data imgSize.sizeInBytes
    (hinv.lens _) hf
  have hph : r.firstPhase < 2 ↔ hist.length < 2 := by rw [hinv.phase]; omega
  simp only [processRollingImages, hinv.cur, hinv.prev1, hinv.prev2, hinv.size, hm,
    Option.bind_eq_bind, Option.some_bind, hph, withFrame]
  split
  · rfl
  · rw [Function.update_same, Function.update_noteq d01.symm, Function.update_noteq d02.symm]
    cases runKernel fsqrt imgSize params (f.data.take imgSize.sizeInBytes)
      (r.pImgMem (rollingRow hist.length 1)) (r.pImgMem (rollingRow hist.length 2)) out.data <;> rfl

theorem windowInv_step (imgSize : ImgSize) (hist : List Buffer) (r : RollingImages)
    (stored : Buffer) (phase : Nat) (hinv : WindowInv imgSize hist r)
    (hs : stored.length = imgSize.sizeInBytes) (hp : phase = min (hist.length + 1) 2) :
    WindowInv imgSize (stored :: hist)
      (rollImages { withFrame r (rollingRow hist.length 0) stored with firstPhase := phase }) := by
  obtain ⟨d01, d02, d12⟩ := rollingRow_distinct hist.length
  obtain ⟨s0, s1, s2⟩ := rollingRow_succ hist.length
  have hc : r.currentRollingIdx = hist.length + 1 := hinv.counter
  refine ⟨hinv.size, ?_, hp, ?_, ?_, ?_, ?_, ?_, ?_⟩
  · simp [rollImages, withFrame, hc]
  · simp [rollImages, withFrame, hc, rollingRow]
  · simp [rollImages, withFrame, hc, rollingRow]
  · simp [rollImages, withFrame, hc, rollingRow]
  · intro slot
    by_cases h : slot = rollingRow hist.length 0
    · simp [rollImages, withFrame, h, hs]
    · simp [rollImages, withFrame, Function.update_noteq h, hinv.lens]
  · intro f hf
    simp only [List.get?_cons_zero, Option.some.injEq] at hf
    subst hf
    simp only [List.length_cons, s1]
    simp [rollImages, withFrame]
  · intro f hf
    simp only [List.length_cons, s2]
    have : hist.get? 0 = some f := by simpa using hf
    simp [rollImages, withFrame, Function.update_noteq d01.symm, hinv.mem1 f this]

theorem process_snd_of_inv (fsqrt : ℚ → ℚ) (self : WeightedMovingVariance) (numProcess : Nat)
    (imgSize : ImgSize) (hist : List Buffer) (r : RollingImages) (f o : Mat)
    (hget : self.imgInputPrev.get? numProcess = some r) (hinv : WindowInv imgSize hist r)
    (hf : imgSize.sizeInBytes ≤ f.data.length) :
    (process fsqrt self f o numProcess).map Prod.snd =
      if hist.length < 2 then some (outputFor f o)
      else (runKernel fsqrt imgSize self.m_params (f.data.take imgSize.sizeInBytes)
          (r.pImgMem (rollingRow hist.length 1)) (r.pImgMem (rollingRow hist.length 2))
          (outputFor f o).data).map (fun d => { outputFor f o with data := d }) := by
  have hp := processRollingImages_of_inv fsqrt self.m_params imgSize hist r f (outputFor f o)
    hinv hf
  simp only [process, hget, Option.bind_eq_bind, Option.some_bind]
  change Option.map Prod.snd ((processRollingImages fsqrt f (outputFor f o) r self.m_params).bind _)
    = _
  rw [hp]
  split
  · rfl
  · cases runKernel fsqrt imgSize self.m_params (f.data.take imgSize.sizeInBytes)
      (r.pImgMem (rollingRow hist.length 1)) (r.pImgMem (rollingRow hist.length 2))
      (outputFor f o).data <;> rfl

theorem process_inv (fsqrt : ℚ → ℚ) (self self1 : WeightedMovingVariance) (numProcess : Nat)
    (imgSize : ImgSize) (hist : List Buffer) (r : RollingImages) (f o out1 : Mat)
    (hget : self.imgInputPrev.get? numProcess = some r) (hinv : WindowInv imgSize hist r)
    (hrun : process fsqrt self f o numProcess = some (self1, out1)) :
    self1.m_params = self.m_params ∧
      ∃ r1, self1.imgInputPrev.get? numProcess = some r1 ∧
        WindowInv imgSize (f.data.take imgSize.sizeInBytes :: hist) r1 := by
  have hlt : numProcess < self.imgInputPrev.length := by
    by_contra hh
    rw [List.get?_eq_none.mpr (Nat.le_of_not_lt hh)] at hget
    exact Option.noConfusion hget
  simp only [process, hget, Option.bind_eq_bind, Option.some_bind] at hrun
  change (processRollingImages fsqrt f (outputFor f o) r self.m_params).bind _ = _ at hrun
  have hf : imgSize.sizeInBytes ≤ f.data.length := by
    cases hp : processRollingImages fsqrt f (outputFor f o) r self.m_params with
    | none => rw [hp] at hrun; exact Option.noConfusion hrun
    | some res =>
      simp only [processRollingImages, hinv.cur, hinv.size, Option.bind_eq_bind,
        Option.some_bind, Option.bind_eq_some] at hp
      obtain ⟨c, hc, _⟩ := hp
      exact memcpy_defined _ _ _ _ hc
  rw [processRollingImages_of_inv fsqrt self.m_params imgSize hist r f (outputFor f o) hinv hf]
    at hrun
  have hs : (f.data.take imgSize.sizeInBytes).length = imgSize.sizeInBytes := by
    simp [List.length_take, hf]
  split at hrun
  · rename_i hlt2
    simp only [Option.some_bind, Option.some.injEq, Prod.mk.injEq] at hrun
    obtain ⟨rfl, _⟩ := hrun
    refine ⟨rfl, _, by simp [List.get?_eq_getElem?, List.getElem?_set, hlt]; rfl, ?_⟩
    exact windowInv_step imgSize hist r _ _ hinv hs (by rw [hinv.phase]; omega)
  · rename_i hge
    cases hk : runKernel fsqrt imgSize self.m_params (f.data.take imgSize.sizeInBytes)
      (r.pImgMem (rollingRow hist.length 1)) (r.pImgMem (rollingRow hist.length 2))
      (outputFor f o).data with
    | none => rw [hk] at hrun; exact Option.noConfusion hrun
    | some d =>
      rw [hk] at hrun
      simp only [Option.map_some', Option.some_bind, Option.some.injEq, Prod.mk.injEq] at hrun
      obtain ⟨rfl, _⟩ := hrun
      refine ⟨rfl, _, by simp [List.get?_eq_getElem?, List.getElem?_set, hlt]; rfl, ?_⟩
      have := windowInv_step imgSize hist r _ r.firstPhase hinv hs (by rw [hinv.phase]; omega)
      exact this

theorem processAll_inv (fsqrt : ℚ → ℚ) (numProcess : Nat) (imgSize : ImgSize) :
    ∀ (calls : List (Mat × Mat)) (self self1 : WeightedMovingVariance) (outs : List Mat)
      (hist : List Buffer) (r : RollingImages),
      self.imgInputPrev.get? numProcess = some r → WindowInv imgSize hist r →
      processAll fsqrt numProcess self calls = some (self1, outs) →
      self1.m_params = self.m_params ∧
        ∃ r1, self1.imgInputPrev.get? numProcess = some r1 ∧
          WindowInv imgSize (storedFrames imgSize.sizeInBytes calls ++ hist) r1 := by
  intro calls
  induction calls with
  | nil =>
    intro self self1 outs hist r hget hinv hrun
    simp only [processAll, Option.some.injEq, Prod.mk.injEq] at hrun
    obtain ⟨rfl, _⟩ := hrun
    exact ⟨rfl, r, hget, by simpa [storedFrames] using hinv⟩
  | cons c rest ih =>
    intro self self1 outs hist r hget hinv hrun
    obtain ⟨f, o⟩ := c
    simp only [processAll, Option.bind_eq_bind, Option.bind_eq_some, Prod.exists] at hrun
    obtain ⟨s1, o1, h1, hrest⟩ := hrun
    obtain ⟨s2, outs2, h2, hfin⟩ := hrest
    simp only [Option.some.injEq, Prod.mk.injEq] at hfin
    obtain ⟨rfl, _⟩ := hfin
    obtain ⟨hp1, r1, hget1, hinv1⟩ := process_inv fsqrt self s1 numProcess imgSize hist r f o o1
      hget hinv h1
    obtain ⟨hp2, r2, hget2, hinv2⟩ := ih s1 s2 outs2 _ r1 hget1 hinv1 h2
    refine ⟨hp2.trans hp1, r2, hget2, ?_⟩
    simpa [storedFrames] using hinv2

theorem initialise_get (self0 self : WeightedMovingVariance) (numProcess : Nat) (imgSize : ImgSize)
    (hinit : initialise self0 = some self)
    (hlt : numProcess < self0.m_numProcessesParallel)
    (hsz : self0.m_imgSizesParallel.get? numProcess = some imgSize) :
    self.m_params = self0.m_params ∧
      self.imgInputPrev.get? numProcess = some (initRollingImages imgSize) := by
  unfold initialise at hinit
  split at hinit
  · simp only [Option.some.injEq] at hinit
    subst hinit
    refine ⟨rfl, ?_⟩
    simp only [List.get?_eq_getElem?, List.getElem?_map, List.getElem?_take] at hsz ⊢
    simp [hlt, hsz]
  · exact Option.noConfusion hinit

theorem readSample_map_some (s : List Nat) (i : Nat) : readSample (s.map some) i = s.get? i := by
  unfold readSample
  rw [List.get?_eq_getElem?, List.get?_eq_getElem?, List.getElem?_map]
  cases s[i]? <;> rfl

theorem readSample_of_lt (s : List Nat) (i : Nat) (h : i < s.length) :
    readSample (s.map some) i = some (s.getD i 0) := by
  rw [readSample_map_some, List.getD_eq_getElem?_getD, List.get?_eq_getElem?,
    List.getElem?_eq_getElem h]
  rfl

theorem monoResult_eq_specVariance (weight : Fin 3 → ℚ) (d0 d1 d2 : ℚ) :
    monoResult weight d0 d1 d2 = specVariance (weight 0) (weight 1) (weight 2) d0 d1 d2 := by
  simp only [monoResult, specVariance]
  ring

theorem pixelMonoThreshold_of_lt (cur prev1 prev2 : List Nat) (weight : Fin 3 → ℚ)
    (thresholdSquared : ℚ) (i : Nat) (h1 : i < cur.length) (h2 : i < prev1.length)
    (h3 : i < prev2.length) :
    pixelMonoThreshold (cur.map some) (prev1.map some) (prev2.map some) weight thresholdSquared i
      = some (specMask (monoResult weight (cur.getD i 0) (prev1.getD i 0) (prev2.getD i 0))
          thresholdSquared) := by
  simp [pixelMonoThreshold, readSample_of_lt, h1, h2, h3, specMask, UCHAR_MAX, ZERO_UC]

theorem calcWeightedVarianceMonoThreshold_eq (cur prev1 prev2 : List Nat) (o : Buffer) (n : Nat)
    (weight : Fin 3 → ℚ) (thresholdSquared : ℚ) (h1 : n ≤ cur.length) (h2 : n ≤ prev1.length)
    (h3 : n ≤ prev2.length) (ho : n ≤ o.length) :
    calcWeightedVarianceMonoThreshold (cur.map some) (prev1.map some) (prev2.map some) o n weight
        thresholdSquared
      = some ((List.range n).map (fun i => some (specMask
          (monoResult weight (cur.getD i 0) (prev1.getD i 0) (prev2.getD i 0)) thresholdSquared))
          ++ o.drop n) :=
  forLoop_write _ _ o n ho (fun i hi => pixelMonoThreshold_of_lt cur prev1 prev2 weight
    thresholdSquared i (by omega) (by omega) (by omega))

theorem colorIndex_lt (j : Nat) : colorIndex j < 2 ^ 32 := Nat.mod_lt _ (by norm_num)

theorem colorIndex_of_lt (j c : Nat) (h : 3 * j + c < 2 ^ 32) :
    (colorIndex j + c) % 2 ^ 32 = 3 * j + c := by
  unfold colorIndex
  rw [Nat.mod_eq_of_lt (by omega : 3 * j < 2 ^ 32), Nat.mod_eq_of_lt h]

theorem readPixel3_of_readable (p : List Nat) (n j : Nat) (h : ColorReadable p n) (hj : j < n) :
    readPixel3 (p.map some) (colorIndex j) = some (pixel3At p j) := by
  have h0 := h j hj 0 (by norm_num)
  have h1 := h j hj 1 (by norm_num)
  have h2 := h j hj 2 (by norm_num)
  have e0 : (colorIndex j + 0) % 2 ^ 32 = colorIndex j := Nat.mod_eq_of_lt (colorIndex_lt j)
  rw [e0] at h0
  simp only [readPixel3, readSample_of_lt _ _ h0, readSample_of_lt _ _ h1,
    readSample_of_lt _ _ h2, Option.bind_eq_bind, Option.some_bind, pixel3At, channelAt, e0]

theorem pixelColorThreshold_of_readable (cur prev1 prev2 : List Nat) (n : Nat)
    (weight : Fin 3 → ℚ) (thresholdSquared : ℚ) (j : Nat) (hj : j < n)
    (h1 : ColorReadable cur n) (h2 : ColorReadable prev1 n) (h3 : ColorReadable prev2 n) :
    pixelColorThreshold (cur.map some) (prev1.map some) (prev2.map some) weight
        thresholdSquared j
      = some (specMask (colorThresholdResult weight (pixel3At cur j) (pixel3At prev1 j)
          (pixel3At prev2 j)) thresholdSquared) := by
  simp [pixelColorThreshold, readPixel3_of_readable _ n j h1 hj,
    readPixel3_of_readable _ n j h2 hj, readPixel3_of_readable _ n j h3 hj, specMask,
    UCHAR_MAX, ZERO_UC]

theorem calcWeightedVarianceColorThreshold_eq (cur prev1 prev2 : List Nat) (o : Buffer) (n : Nat)
    (weight : Fin 3 → ℚ) (thresholdSquared : ℚ) (h1 : ColorReadable cur n)
    (h2 : ColorReadable prev1 n) (h3 : ColorReadable prev2 n) (ho : n ≤ o.length) :
    calcWeightedVarianceColorThreshold (cur.map some) (prev1.map some) (prev2.map some) o n
        weight thresholdSquared
      = some ((List.range n).map (fun j => some (specMask
          (colorThresholdResult weight (pixel3At cur j) (pixel3At prev1 j) (pixel3At prev2 j))
          thresholdSquared)) ++ o.drop n) :=
  forLoop_write _ _ o n ho (fun j hj => pixelColorThreshold_of_readable cur prev1 prev2 n weight
    thresholdSquared j hj h1 h2 h3)

theorem colorReadable_of_length (p : List Nat) (n : Nat) (h : 3 * n ≤ p.length)
    (hn : 3 * n ≤ 2 ^ 32) : ColorReadable p n := by
  intro j hj c hc
  rw [colorIndex_of_lt j c (by omega)]
  omega

theorem forLoop_write_inv (px : Nat → Option Nat) (o : Buffer) :
    ∀ n out, forLoop n (fun i o => (px i).bind (writeUChar o i)) o = some out →
      n ≤ o.length ∧ out.length = o.length ∧
        ∀ i, i < n → ∃ v, px i = some v ∧ out.get? i = some (some v) := by
  intro n
  induction n with
  | zero =>
    intro out h
    simp only [forLoop, Option.some.injEq] at h
    subst h
    exact ⟨Nat.zero_le _, rfl, fun i hi => absurd hi (Nat.not_lt_zero i)⟩
  | succ k ih =>
    intro out h
    rw [forLoop_succ] at h
    simp only [Option.bind_eq_some] at h
    obtain ⟨mid, hmid, v, hv, hw⟩ := h
    obtain ⟨hk, hlen, hpix⟩ := ih mid hmid
    unfold writeUChar at hw
    split at hw
    · rename_i hlt
      simp only [Option.some.injEq] at hw
      subst hw
      refine ⟨by omega, by simp [hlen], ?_⟩
      intro i hi
      by_cases hik : i = k
      · subst hik
        exact ⟨v, hv, by simp [List.get?_eq_getElem?, List.getElem?_set, hlt]⟩
      · obtain ⟨u, hu, hget⟩ := hpix i (by omega)
        refine ⟨u, hu, ?_⟩
        rw [← hget]
        simp [List.get?_eq_getElem?, List.getElem?_set, Ne.symm hik]
    · exact Option.noConfusion hw

theorem get?_range_map_append (f : Nat → Cell) (rest : Buffer) (n i : Nat) (hi : i < n) :
    ((List.range n).map f ++ rest).get? i = some (f i) := by
  rw [List.get?_eq_getElem?, List.getElem?_append_left (by simpa using hi)]
  simp [hi]

theorem pixelMono_of_lt (fsqrt : ℚ → ℚ) (cur prev1 prev2 : List Nat) (weight : Fin 3 → ℚ)
    (i : Nat) (h1 : i < cur.length) (h2 : i < prev1.length) (h3 : i < prev2.length) :
    pixelMono fsqrt (cur.map some) (prev1.map some) (prev2.map some) weight i
      = floatToUChar (fsqrt (monoResult weight (cur.getD i 0) (prev1.getD i 0)
          (prev2.getD i 0))) := by
  simp [pixelMono, readSample_of_lt, h1, h2, h3]

theorem floatToUChar_of_range (x : ℚ) (h0 : 0 ≤ x) (h1 : x < 256) :
    floatToUChar x = some (Int.toNat ⌊x⌋) ∧ Int.toNat ⌊x⌋ ≤ 255 := by
  constructor
  · rw [floatToUChar, if_pos ⟨by linarith, h1⟩]
  · have hfl : ⌊x⌋ < 256 := Int.floor_lt.mpr (by exact_mod_cast h1)
    have hnn : 0 ≤ ⌊x⌋ := Int.floor_nonneg.mpr h0
    omega

theorem floatToUChar_of_large (x : ℚ) (h : 256 ≤ x) : floatToUChar x = none := by
  rw [floatToUChar, if_neg]
  intro hh
  linarith [hh.2]

theorem sqrtFloor_sq (x : ℚ) (m : Nat) (h : x = (m : ℚ) * (m : ℚ)) : sqrtFloor x = (m : ℚ) := by
  unfold sqrtFloor
  have : ⌊x⌋ = ((m * m : Nat) : Int) := by
    rw [h, ← Nat.cast_mul]; exact Int.floor_natCast _
  rw [this, Int.toNat_ofNat, Nat.sqrt_eq]

theorem weightedVarianceMono_continuous_eq (fsqrt : ℚ → ℚ) (cur prev1 prev2 : List Nat)
    (o : Buffer) (totalPixels : Nat) (weight : Fin 3 → ℚ) (thresholdSquared : ℚ)
    (hn : totalPixels < 2 ^ 32) (h1 : totalPixels ≤ cur.length)
    (h2 : totalPixels ≤ prev1.length) (h3 : totalPixels ≤ prev2.length)
    (ho : totalPixels ≤ o.length)
    (hr : ∀ i, i < totalPixels →
        0 ≤ fsqrt (specVariance (weight 0) (weight 1) (weight 2)
          (cur.getD i 0) (prev1.getD i 0) (prev2.getD i 0)) ∧
        fsqrt (specVariance (weight 0) (weight 1) (weight 2)
          (cur.getD i 0) (prev1.getD i 0) (prev2.getD i 0)) < 256) :
    weightedVarianceMono fsqrt (cur.map some) (prev1.map some) (prev2.map some) o totalPixels
        weight false thresholdSquared
      = some ((List.range totalPixels).map (fun i => some (Int.toNat
          ⌊fsqrt (specVariance (weight 0) (weight 1) (weight 2)
            (cur.getD i 0) (prev1.getD i 0) (prev2.getD i 0))⌋)) ++ o.drop totalPixels) := by
  simp only [weightedVarianceMono, Bool.false_eq_true, if_false, Nat.mod_eq_of_lt hn]
  exact forLoop_write _ _ o totalPixels ho (fun i hi => by
    rw [pixelMono_of_lt fsqrt cur prev1 prev2 weight i (by omega) (by omega) (by omega),
      monoResult_eq_specVariance]
    exact (floatToUChar_of_range _ (hr i hi).1 (hr i hi).2).1)

theorem floatToUChar_zero : floatToUChar 0 = some 0 := by
  norm_num [floatToUChar]

theorem specMask_eq_zero_iff (r t : ℚ) : specMask r t = 0 ↔ r ≤ t := by
  unfold specMask
  split
  · rename_i h; constructor
    · intro h0; norm_num at h0
    · intro hle; exact absurd h (not_lt.mpr hle)
  · rename_i h; exact ⟨fun _ => not_lt.mp h, fun _ => rfl⟩

/-- C9: for one and the same window and weights, if the thresholded kernel (mono or colour)
stores 0 at a pixel for the threshold constant `t1`, it stores 0 there for every `t2 ≥ t1`:
raising the constant compared against the variance never turns a 0 of the mask into 255. -/
theorem threshold_monotone (cur prev1 prev2 : List Nat) (o : Buffer) (n : Nat)
    (weight : Fin 3 → ℚ) (t1 t2 : ℚ) (ht : t1 ≤ t2) (ho : n ≤ o.length) :
    (n ≤ cur.length → n ≤ prev1.length → n ≤ prev2.length →
      ∃ out1 out2,
        calcWeightedVarianceMonoThreshold (cur.map some) (prev1.map some) (prev2.map some)
          o n weight t1 = some out1 ∧
        calcWeightedVarianceMonoThreshold (cur.map some) (prev1.map some) (prev2.map some)
          o n weight t2 = some out2 ∧
        ∀ i, i < n → out1.get? i = some (some 0) → out2.get? i = some (some 0)) ∧
    (ColorReadable cur n → ColorReadable prev1 n → ColorReadable prev2 n →
      ∃ out1 out2,
        calcWeightedVarianceColorThreshold (cur.map some) (prev1.map some) (prev2.map some)
          o n weight t1 = some out1 ∧
        calcWeightedVarianceColorThreshold (cur.map some) (prev1.map some) (prev2.map some)
          o n weight t2 = some out2 ∧
        ∀ i, i < n → out1.get? i = some (some 0) → out2.get? i = some (some 0)) := by
  constructor
  · intro h1 h2 h3
    refine ⟨_, _, calcWeightedVarianceMonoThreshold_eq cur prev1 prev2 o n weight t1 h1 h2 h3 ho,
      calcWeightedVarianceMonoThreshold_eq cur prev1 prev2 o n weight t2 h1 h2 h3 ho, ?_⟩
    intro i hi h0
    rw [get?_range_map_append _ _ n i hi] at h0 ⊢
    simp only [Option.some.injEq] at h0 ⊢
    exact (specMask_eq_zero_iff _ _).mpr (le_trans ((specMask_eq_zero_iff _ _).mp h0) ht)
  · intro h1 h2 h3
    refine ⟨_, _,
      calcWeightedVarianceColorThreshold_eq cur prev1 prev2 o n weight t1 h1 h2 h3 ho,
      calcWeightedVarianceColorThreshold_eq cur prev1 prev2 o n weight t2 h1 h2 h3 ho, ?_⟩
    intro i hi h0
    rw [get?_range_map_append _ _ n i hi] at h0 ⊢
    simp only [Option.some.injEq] at h0 ⊢
    exact (specMask_eq_zero_iff _ _).mpr (le_trans ((specMask_eq_zero_iff _ _).mp h0) ht)

theorem forLoop_congr {σ : Type} (b1 b2 : Nat → σ → Option σ) (s : σ) :
    ∀ n, (∀ i t, i < n → b1 i t = b2 i t) → forLoop n b1 s = forLoop n b2 s := by
  intro n
  induction n with
  | zero => intro _; rfl
  | succ m ih =>
    intro h
    rw [forLoop_succ, forLoop_succ, ih (fun i t hi => h i t (Nat.lt_succ_of_lt hi))]
    cases forLoop m b2 s with
    | none => rfl
    | some t => exact h m t (Nat.lt_succ_self m)

theorem readSample_of_ge (s : List Nat) (i : Nat) (h : s.length ≤ i) :
    readSample (s.map some) i = none := by
  rw [readSample_map_some, List.get?_eq_none.mpr h]

theorem storedFrames_length (n : Nat) (calls : List (Mat × Mat)) :
    (storedFrames n calls).length = calls.length := by
  simp [storedFrames]

theorem get?_of_getD (hist : List Buffer) (i : Nat) (h : i < hist.length) :
    hist.get? i = some (hist.getD i []) := by
  rw [List.getD_eq_getElem?_getD, List.get?_eq_getElem?, List.getElem?_eq_getElem h]
  rfl

theorem process_after_run (fsqrt : ℚ → ℚ) (self0 self self1 : WeightedMovingVariance)
    (numProcess : Nat) (imgSize : ImgSize)
    (hinit : initialise self0 = some self)
    (hlt : numProcess < self0.m_numProcessesParallel)
    (hsz : self0.m_imgSizesParallel.get? numProcess = some imgSize)
    (calls : List (Mat × Mat)) (outs : List Mat)
    (hrun : processAll fsqrt numProcess self calls = some (self1, outs))
    (f o : Mat) (hf : imgSize.sizeInBytes ≤ f.data.length) :
    (process fsqrt self1 f o numProcess).map Prod.snd =
      if calls.length < 2 then some (outputFor f o)
      else (runKernel fsqrt imgSize self0.m_params (f.data.take imgSize.sizeInBytes)
          ((storedFrames imgSize.sizeInBytes calls).getD 0 [])
          ((storedFrames imgSize.sizeInBytes calls).getD 1 [])
          (outputFor f o).data).map (fun d => { outputFor f o with data := d }) := by
  obtain ⟨hp0, hget0⟩ := initialise_get self0 self numProcess imgSize hinit hlt hsz
  obtain ⟨hp, r1, hget, hinv⟩ := processAll_inv fsqrt numProcess imgSize calls self self1 outs []
    (initRollingImages imgSize) hget0 (windowInv_init imgSize) hrun
  rw [List.append_nil] at hinv
  rw [process_snd_of_inv fsqrt self1 numProcess imgSize _ r1 f o hget hinv hf,
    storedFrames_length, hp, hp0]
  split
  · rfl
  · rename_i hge
    have hlen := storedFrames_length imgSize.sizeInBytes calls
    have m1 := hinv.mem1 _ (get?_of_getD _ 0 (by omega))
    have m2 := hinv.mem2 _ (get?_of_getD _ 1 (by omega))
    rw [hlen] at m1 m2
    rw [m1, m2]

/-- C1: once at least two frames have been submitted to a freshly initialised stream, the next
`process` call on it runs the kernel on the frame just submitted as current, the frame before it
as previous-1 and the one before that as previous-2 (each cut to the byte size of the stream), so
its output is determined by these three frames, the geometry, the parameters and the output
image passed in, whatever was submitted earlier. -/
theorem process_uses_three_latest_frames (fsqrt : ℚ → ℚ)
    (self0 self self1 : WeightedMovingVariance) (numProcess : Nat) (imgSize : ImgSize)
    (hinit : initialise self0 = some self)
    (hlt : numProcess < self0.m_numProcessesParallel)
    (hsz : self0.m_imgSizesParallel.get? numProcess = some imgSize)
    (earlier : List (Mat × Mat)) (frame2 out2 frame1 out1 : Mat) (outs : List Mat)
    (hrun : processAll fsqrt numProcess self (earlier ++ [(frame2, out2), (frame1, out1)])
      = some (self1, outs))
    (frame out : Mat) (hf : imgSize.sizeInBytes ≤ frame.data.length) :
    (process fsqrt self1 frame out numProcess).map Prod.snd =
      (runKernel fsqrt imgSize self0.m_params (frame.data.take imgSize.sizeInBytes)
          (frame1.data.take imgSize.sizeInBytes) (frame2.data.take imgSize.sizeInBytes)
          (outputFor frame out).data).map (fun d => { outputFor frame out with data := d }) := by
  rw [process_after_run fsqrt self0 self self1 numProcess imgSize hinit hlt hsz _ outs hrun
    frame out hf, if_neg (by simp)]
  simp [storedFrames]

/-- C2: after `initialize`, each of the first two `process` calls on a stream is defined and
returns the output image as it was handed to the kernel stage (the image passed in, or the fresh
unwritten one created for an empty image) without any kernel result in it; from the third call
on, the output data is the result of the kernel run on the current frame and the two stored
frames, and the call is defined exactly when that kernel run is. -/
theorem warm_up_two_calls (fsqrt : ℚ → ℚ) (self0 self self1 : WeightedMovingVariance)
    (numProcess : Nat) (imgSize : ImgSize)
    (hinit : initialise self0 = some self)
    (hlt : numProcess < self0.m_numProcessesParallel)
    (hsz : self0.m_imgSizesParallel.get? numProcess = some imgSize)
    (calls : List (Mat × Mat)) (outs : List Mat)
    (hrun : processAll fsqrt numProcess self calls = some (self1, outs))
    (f o : Mat) (hf : imgSize.sizeInBytes ≤ f.data.length) :
    (calls.length < 2 →
      ∃ self2, process fsqrt self1 f o numProcess = some (self2, outputFor f o)) ∧
    (2 ≤ calls.length →
      (process fsqrt self1 f o numProcess).map Prod.snd =
        (runKernel fsqrt imgSize self0.m_params (f.data.take imgSize.sizeInBytes)
          ((storedFrames imgSize.sizeInBytes calls).getD 0 [])
          ((storedFrames imgSize.sizeInBytes calls).getD 1 [])
          (outputFor f o).data).map (fun d => { outputFor f o with data := d })) := by
  have h := process_after_run fsqrt self0 self self1 numProcess imgSize hinit hlt hsz calls outs
    hrun f o hf
  constructor
  · intro hlt2
    rw [if_pos hlt2] at h
    obtain ⟨⟨s2, o2⟩, hs, ho⟩ := Option.map_eq_some'.mp h
    exact ⟨s2, by rw [hs]; simp only at ho; rw [ho]⟩
  · intro hge
    rw [if_neg (by omega)] at h
    exact h

/-- C4: on every reachable window one rotation makes the slot that was current the new
previous-1, the slot that was previous-1 the new previous-2 and the slot that was previous-2 the
new current; the new roles are the row of `ROLLING_BG_IDX` selected by the counter modulo 3, and
the buffers themselves are not changed. -/
theorem rotation_maps_roles (r : RollingImages) (h : Reachable r) :
    (rollImages r).pImgInputPrev1 = r.pImgInput ∧
    (rollImages r).pImgInputPrev2 = r.pImgInputPrev1 ∧
    (rollImages r).pImgInput = r.pImgInputPrev2 ∧
    (rollImages r).pImgInput
      = some (ROLLING_BG_IDX ⟨r.currentRollingIdx % 3, Nat.mod_lt _ (by decide)⟩ 0) ∧
    (rollImages r).pImgInputPrev1
      = some (ROLLING_BG_IDX ⟨r.currentRollingIdx % 3, Nat.mod_lt _ (by decide)⟩ 1) ∧
    (rollImages r).pImgInputPrev2
      = some (ROLLING_BG_IDX ⟨r.currentRollingIdx % 3, Nat.mod_lt _ (by decide)⟩ 2) ∧
    (rollImages r).pImgMem = r.pImgMem := by
  obtain ⟨c, hc, h0, h1, h2⟩ := h.roles
  obtain ⟨s0, s1, s2⟩ := rollingRow_succ c
  obtain ⟨_, e0, e1, e2, em, _, _⟩ := rollImages_fields r
  rw [hc] at e0 e1 e2
  refine ⟨?_, ?_, ?_, rfl, rfl, rfl, em⟩
  · rw [e1, s1, h0]
  · rw [e2, s2, h1]
  · rw [e0, s0, h2]

/-- C1 (witness): three frames submitted to the one stream of `demoBgs`; the third call runs the
kernel on the third, second and first frame. -/
theorem process_uses_three_latest_frames_witness :
    ∃ self self1 outs, initialise demoBgs = some self ∧
      processAll sqrtFloor 0 self
        [(demoFrame [1, 2, 3, 4], emptyMat), (demoFrame [10, 10, 10, 10], emptyMat)]
        = some (self1, outs) ∧
      (process sqrtFloor self1 (demoFrame [50, 10, 10, 10]) emptyMat 0).map Prod.snd =
        (runKernel sqrtFloor demoSize demoParams
          ((demoFrame [50, 10, 10, 10]).data.take demoSize.sizeInBytes)
          ((demoFrame [10, 10, 10, 10]).data.take demoSize.sizeInBytes)
          ((demoFrame [1, 2, 3, 4]).data.take demoSize.sizeInBytes)
          (outputFor (demoFrame [50, 10, 10, 10]) emptyMat).data).map
          (fun d => { outputFor (demoFrame [50, 10, 10, 10]) emptyMat with data := d }) := by
  have h : ((initialise demoBgs).bind fun s => processAll sqrtFloor 0 s
      [(demoFrame [1, 2, 3, 4], emptyMat), (demoFrame [10, 10, 10, 10], emptyMat)]).isSome
      = true := by rfl
  obtain ⟨⟨self1, outs⟩, hb⟩ := Option.isSome_iff_exists.mp h
  obtain ⟨self, hself, hrun⟩ := Option.bind_eq_some.mp hb
  exact ⟨self, self1, outs, hself, hrun,
    process_uses_three_latest_frames sqrtFloor demoBgs self self1 0 demoSize hself (by decide)
      rfl [] _ _ _ _ outs hrun _ _ (by decide)⟩

/-- C2 (witness): the first call on the stream of `demoBgs` returns the freshly created,
unwritten output image. -/
theorem warm_up_two_calls_witness :
    ∃ self, initialise demoBgs = some self ∧
      ∃ self2, process sqrtFloor self (demoFrame [10, 10, 10, 10]) emptyMat 0
        = some (self2, outputFor (demoFrame [10, 10, 10, 10]) emptyMat) := by
  have h : (initialise demoBgs).isSome = true := by rfl
  obtain ⟨self, hself⟩ := Option.isSome_iff_exists.mp h
  exact ⟨self, hself,
    (warm_up_two_calls sqrtFloor demoBgs self self 0 demoSize hself (by decide) rfl [] [] rfl
      (demoFrame [10, 10, 10, 10]) emptyMat (by decide)).1 (by decide)⟩

/-- C3 (witness): the window obtained by one more rotation after `initialize`. -/
theorem roles_are_permutation_witness :
    Reachable (rollImages (initRollingImages demoSize)) ∧
      ∃ a b c : Fin 3, (rollImages (initRollingImages demoSize)).pImgInput = some a ∧
        (rollImages (initRollingImages demoSize)).pImgInputPrev1 = some b ∧
        (rollImages (initRollingImages demoSize)).pImgInputPrev2 = some c ∧
        a ≠ b ∧ a ≠ c ∧ b ≠ c ∧ ∀ slot : Fin 3, slot = a ∨ slot = b ∨ slot = c :=
  ⟨Reachable.roll _ (Reachable.init demoSize),
    roles_are_permutation _ (Reachable.roll _ (Reachable.init demoSize))⟩

/-- C4 (witness): the rotation of the freshly initialised window, whose roles are slots 0, 1, 2,
makes slot 0 previous-1, slot 1 previous-2 and slot 2 current. -/
theorem rotation_maps_roles_witness :
    Reachable (initRollingImages demoSize) ∧
      (rollImages (initRollingImages demoSize)).pImgInputPrev1 = some 0 ∧
      (rollImages (initRollingImages demoSize)).pImgInputPrev2 = some 1 ∧
      (rollImages (initRollingImages demoSize)).pImgInput = some 2 := by
  have h := rotation_maps_roles (initRollingImages demoSize) (Reachable.init demoSize)
  exact ⟨Reachable.init demoSize, h.1.trans rfl, h.2.1.trans rfl, h.2.2.1.trans rfl⟩

theorem sqrtFloor_zero : sqrtFloor 0 = 0 := by
  rw [sqrtFloor_sq 0 0 (by norm_num)]; norm_num

theorem demoWeight_sum : demoWeight 0 + demoWeight 1 + demoWeight 2 = 1 := by
  norm_num [demoWeight]

/-- C9 (witness): the thresholds 100 and 500 on a two-pixel mono window. -/
theorem threshold_monotone_witness :
    ∃ out1 out2,
      calcWeightedVarianceMonoThreshold [some 50, some 10] [some 10, some 10] [some 10, some 10]
        [none, none] 2 demoWeight 100 = some out1 ∧
      calcWeightedVarianceMonoThreshold [some 50, some 10] [some 10, some 10] [some 10, some 10]
        [none, none] 2 demoWeight 500 = some out2 ∧
      ∀ i, i < 2 → out1.get? i = some (some 0) → out2.get? i = some (some 0) :=
  (threshold_monotone [50, 10] [10, 10] [10, 10] [none, none] 2 demoWeight 100 500
    (by norm_num) (by simp)).1 (by simp) (by simp) (by simp)

theorem process_snd (fsqrt : ℚ → ℚ) (self : WeightedMovingVariance) (f o : Mat)
    (numProcess : Nat) :
    (process fsqrt self f o numProcess).map Prod.snd =
      (self.imgInputPrev.get? numProcess).bind (fun window =>
        (processRollingImages fsqrt f (outputFor f o) window self.m_params).map Prod.fst) := by
  unfold process
  cases self.imgInputPrev.get? numProcess with
  | none => rfl
  | some window =>
    simp only [Option.bind_eq_bind, Option.some_bind]
    change Option.map Prod.snd
      ((processRollingImages fsqrt f (outputFor f o) window self.m_params).bind _) = _
    cases processRollingImages fsqrt f (outputFor f o) window self.m_params <;> rfl

theorem process_frame (fsqrt : ℚ → ℚ) (self self1 : WeightedMovingVariance) (f o out : Mat)
    (numProcess : Nat) (h : process fsqrt self f o numProcess = some (self1, out)) :
    self1.m_params = self.m_params ∧
      self1.m_numProcessesParallel = self.m_numProcessesParallel ∧
      self1.m_imgSizesParallel = self.m_imgSizesParallel ∧
      ∃ window, self1.imgInputPrev = self.imgInputPrev.set numProcess window := by
  simp only [process, Option.bind_eq_bind, Option.bind_eq_some] at h
  obtain ⟨window, _, ⟨out1, window1⟩, _, h⟩ := h
  simp only [Option.some.injEq, Prod.mk.injEq] at h
  obtain ⟨rfl, _⟩ := h
  exact ⟨rfl, rfl, rfl, _, rfl⟩

theorem processAll_frame (fsqrt : ℚ → ℚ) (numProcess : Nat) :
    ∀ (calls : List (Mat × Mat)) (self self1 : WeightedMovingVariance) (outs : List Mat),
      processAll fsqrt numProcess self calls = some (self1, outs) →
      self1.m_params = self.m_params ∧
        ∀ other, other ≠ numProcess →
          self1.imgInputPrev.get? other = self.imgInputPrev.get? other := by
  intro calls
  induction calls with
  | nil =>
    intro self self1 outs h
    simp only [processAll, Option.some.injEq, Prod.mk.injEq] at h
    obtain ⟨rfl, _⟩ := h
    exact ⟨rfl, fun _ _ => rfl⟩
  | cons c rest ih =>
    intro self self1 outs h
    obtain ⟨f, o⟩ := c
    simp only [processAll, Option.bind_eq_bind, Option.bind_eq_some, Prod.exists] at h
    obtain ⟨s1, o1, h1, s2, outs2, h2, hfin⟩ := h
    simp only [Option.some.injEq, Prod.mk.injEq] at hfin
    obtain ⟨rfl, _⟩ := hfin
    obtain ⟨hp1, _, _, w, hw⟩ := process_frame fsqrt self s1 f o o1 numProcess h1
    obtain ⟨hp2, hother⟩ := ih s1 s2 outs2 h2
    refine ⟨hp2.trans hp1, fun other hne => ?_⟩
    rw [hother other hne, hw, List.get?_eq_getElem?, List.get?_eq_getElem?,
      List.getElem?_set_ne (Ne.symm hne)]

/-- C13: a `process` call on stream `i` leaves the whole window of every other stream `j` (its
three buffers, its rotation counter, its warm-up counter and its role pointers) as it was, and
the output it produces for stream `i` is the one it would produce after any run of frames
submitted to stream `j`. -/
theorem streams_are_isolated (fsqrt : ℚ → ℚ) (self self1 : WeightedMovingVariance) (i j : Nat)
    (hij : i ≠ j) (f o out : Mat) (h : process fsqrt self f o i = some (self1, out)) :
    self1.imgInputPrev.get? j = self.imgInputPrev.get? j ∧
    ∀ (calls : List (Mat × Mat)) (self2 : WeightedMovingVariance) (outs : List Mat),
      processAll fsqrt j self calls = some (self2, outs) →
      (process fsqrt self2 f o i).map Prod.snd = some out := by
  obtain ⟨_, _, _, w, hw⟩ := process_frame fsqrt self self1 f o out i h
  constructor
  · rw [hw, List.get?_eq_getElem?, List.get?_eq_getElem?, List.getElem?_set_ne hij]
  · intro calls self2 outs hrun
    obtain ⟨hp, hother⟩ := processAll_frame fsqrt j calls self self2 outs hrun
    rw [process_snd, hother i hij, hp, ← process_snd, h]
    rfl

theorem processAll_snoc (fsqrt : ℚ → ℚ) (numProcess : Nat) (f o out : Mat) :
    ∀ (calls : List (Mat × Mat)) (self self1 self2 : WeightedMovingVariance) (outs : List Mat),
      processAll fsqrt numProcess self calls = some (self1, outs) →
      process fsqrt self1 f o numProcess = some (self2, out) →
      processAll fsqrt numProcess self (calls ++ [(f, o)]) = some (self2, outs ++ [out]) := by
  intro calls
  induction calls with
  | nil =>
    intro self self1 self2 outs h hp
    simp only [processAll, Option.some.injEq, Prod.mk.injEq] at h
    obtain ⟨rfl, rfl⟩ := h
    simp [processAll, hp]
  | cons c rest ih =>
    intro self self1 self2 outs h hp
    obtain ⟨g, og⟩ := c
    simp only [processAll, Option.bind_eq_bind, Option.bind_eq_some, Prod.exists] at h
    obtain ⟨s1, o1, h1, s2, outs2, h2, hfin⟩ := h
    simp only [Option.some.injEq, Prod.mk.injEq] at hfin
    obtain ⟨rfl, rfl⟩ := hfin
    have := ih s1 s2 self2 outs2 h2 hp
    simp [processAll, h1, this]

theorem process_of_snd (fsqrt : ℚ → ℚ) (self : WeightedMovingVariance) (f o out : Mat)
    (numProcess : Nat) (h : (process fsqrt self f o numProcess).map Prod.snd = some out) :
    ∃ self1, process fsqrt self f o numProcess = some (self1, out) := by
  obtain ⟨⟨s1, o1⟩, hs, ho⟩ := Option.map_eq_some'.mp h
  simp only at ho
  exact ⟨s1, by rw [hs, ho]⟩

/-- A run can be extended by one warm-up call: the call is defined and its output is the image
handed in, unwritten. -/
theorem processAll_snoc_warm (fsqrt : ℚ → ℚ) (self0 self self1 : WeightedMovingVariance)
    (numProcess : Nat) (imgSize : ImgSize)
    (hinit : initialise self0 = some self)
    (hlt : numProcess < self0.m_numProcessesParallel)
    (hsz : self0.m_imgSizesParallel.get? numProcess = some imgSize)
    (calls : List (Mat × Mat)) (outs : List Mat)
    (hrun : processAll fsqrt numProcess self calls = some (self1, outs))
    (hlen : calls.length < 2) (f o : Mat) (hf : imgSize.sizeInBytes ≤ f.data.length) :
    ∃ self2, processAll fsqrt numProcess self (calls ++ [(f, o)])
      = some (self2, outs ++ [outputFor f o]) := by
  have h := process_after_run fsqrt self0 self self1 numProcess imgSize hinit hlt hsz calls outs
    hrun f o hf
  rw [if_pos hlen] at h
  obtain ⟨s2, hs2⟩ := process_of_snd fsqrt self1 f o _ numProcess h
  exact ⟨s2, processAll_snoc fsqrt numProcess f o _ calls self self1 s2 outs hrun hs2⟩

/-- A run of at least two calls can be extended by one call whose kernel run is defined: the
output of the call carries the kernel result. -/
theorem processAll_snoc_ready (fsqrt : ℚ → ℚ) (self0 self self1 : WeightedMovingVariance)
    (numProcess : Nat) (imgSize : ImgSize)
    (hinit : initialise self0 = some self)
    (hlt : numProcess < self0.m_numProcessesParallel)
    (hsz : self0.m_imgSizesParallel.get? numProcess = some imgSize)
    (calls : List (Mat × Mat)) (outs : List Mat)
    (hrun : processAll fsqrt numProcess self calls = some (self1, outs))
    (hlen : 2 ≤ calls.length) (f o : Mat) (hf : imgSize.sizeInBytes ≤ f.data.length)
    (d : Buffer)
    (hk : runKernel fsqrt imgSize self0.m_params (f.data.take imgSize.sizeInBytes)
      ((storedFrames imgSize.sizeInBytes calls).getD 0 [])
      ((storedFrames imgSize.sizeInBytes calls).getD 1 []) (outputFor f o).data = some d) :
    ∃ self2, processAll fsqrt numProcess self (calls ++ [(f, o)])
      = some (self2, outs ++ [{ outputFor f o with data := d }]) := by
  have h := process_after_run fsqrt self0 self self1 numProcess imgSize hinit hlt hsz calls outs
    hrun f o hf
  rw [if_neg (by omega), hk] at h
  obtain ⟨s2, hs2⟩ := process_of_snd fsqrt self1 f o _ numProcess h
  exact ⟨s2, processAll_snoc fsqrt numProcess f o _ calls self self1 s2 outs hrun hs2⟩

/-- C17: on every ready call (at least two frames submitted before it) the kernel and the
threshold are picked from the geometry of the stream alone: the mono kernel exactly when
`numChannels` is 1, the colour kernel otherwise; the 8-bit views with `thresholdSquared` exactly
when `bytesPerPixel` is 1, the 16-bit views with `thresholdSquared16` otherwise. -/
theorem kernel_selected_by_geometry (fsqrt : ℚ → ℚ) (self0 self self1 : WeightedMovingVariance)
    (numProcess : Nat) (imgSize : ImgSize)
    (hinit : initialise self0 = some self)
    (hlt : numProcess < self0.m_numProcessesParallel)
    (hsz : self0.m_imgSizesParallel.get? numProcess = some imgSize)
    (earlier : List (Mat × Mat)) (frame2 out2 frame1 out1 : Mat) (outs : List Mat)
    (hrun : processAll fsqrt numProcess self (earlier ++ [(frame2, out2), (frame1, out1)])
      = some (self1, outs))
    (frame out : Mat) (hf : imgSize.sizeInBytes ≤ frame.data.length) :
    (imgSize.numChannels = 1 → imgSize.bytesPerPixel = 1 →
      (process fsqrt self1 frame out numProcess).map Prod.snd =
        (weightedVarianceMono fsqrt (frame.data.take imgSize.sizeInBytes)
          (frame1.data.take imgSize.sizeInBytes) (frame2.data.take imgSize.sizeInBytes)
          (outputFor frame out).data (imgSize.numPixels % 2 ^ 64) self0.m_params.weight
          self0.m_params.enableThreshold self0.m_params.thresholdSquared).map
          (fun d => { outputFor frame out with data := d })) ∧
    (imgSize.numChannels = 1 → imgSize.bytesPerPixel ≠ 1 →
      (process fsqrt self1 frame out numProcess).map Prod.snd =
        (weightedVarianceMono fsqrt (asUInt16 (frame.data.take imgSize.sizeInBytes))
          (asUInt16 (frame1.data.take imgSize.sizeInBytes))
          (asUInt16 (frame2.data.take imgSize.sizeInBytes))
          (outputFor frame out).data (imgSize.numPixels % 2 ^ 64) self0.m_params.weight
          self0.m_params.enableThreshold self0.m_params.thresholdSquared16).map
          (fun d => { outputFor frame out with data := d })) ∧
    (imgSize.numChannels ≠ 1 → imgSize.bytesPerPixel = 1 →
      (process fsqrt self1 frame out numProcess).map Prod.snd =
        (weightedVarianceColor fsqrt (frame.data.take imgSize.sizeInBytes)
          (frame1.data.take imgSize.sizeInBytes) (frame2.data.take imgSize.sizeInBytes)
          (outputFor frame out).data (imgSize.numPixels % 2 ^ 64) self0.m_params.weight
          self0.m_params.enableThreshold self0.m_params.thresholdSquared).map
          (fun d => { outputFor frame out with data := d })) ∧
    (imgSize.numChannels ≠ 1 → imgSize.bytesPerPixel ≠ 1 →
      (process fsqrt self1 frame out numProcess).map Prod.snd =
        (weightedVarianceColor fsqrt (asUInt16 (frame.data.take imgSize.sizeInBytes))
          (asUInt16 (frame1.data.take imgSize.sizeInBytes))
          (asUInt16 (frame2.data.take imgSize.sizeInBytes))
          (outputFor frame out).data (imgSize.numPixels % 2 ^ 64) self0.m_params.weight
          self0.m_params.enableThreshold self0.m_params.thresholdSquared16).map
          (fun d => { outputFor frame out with data := d })) := by
  have h := process_after_run fsqrt self0 self self1 numProcess imgSize hinit hlt hsz _ outs hrun
    frame out hf
  rw [if_neg (by simp)] at h
  have e0 : (storedFrames imgSize.sizeInBytes (earlier ++ [(frame2, out2), (frame1, out1)])).getD
      0 [] = frame1.data.take imgSize.sizeInBytes := by simp [storedFrames]
  have e1 : (storedFrames imgSize.sizeInBytes (earlier ++ [(frame2, out2), (frame1, out1)])).getD
      1 [] = frame2.data.take imgSize.sizeInBytes := by simp [storedFrames]
  rw [e0, e1] at h
  refine ⟨fun hc hb => ?_, fun hc hb => ?_, fun hc hb => ?_, fun hc hb => ?_⟩ <;>
    rw [h] <;> simp only [runKernel, hc, hb, if_true, if_false]

theorem runKernel_demoSize (fsqrt : ℚ → ℚ) (params : WeightedMovingVarianceParams)
    (cur prev1 prev2 o : Buffer) :
    runKernel fsqrt demoSize params cur prev1 prev2 o
      = weightedVarianceMono fsqrt cur prev1 prev2 o 4 params.weight params.enableThreshold
          params.thresholdSquared := by
  simp [runKernel, demoSize, ImgSize.numPixels]

theorem demo_variance_jump :
    specVariance (demoWeight 0) (demoWeight 1) (demoWeight 2) 50 10 10 = 400 := by
  norm_num [specVariance, demoWeight]

theorem demo_variance_flat :
    specVariance (demoWeight 0) (demoWeight 1) (demoWeight 2) 10 10 10 = 0 := by
  norm_num [specVariance, demoWeight]

theorem demo_continuous_flat (fsqrt : ℚ → ℚ) (hsqrt0 : fsqrt 0 = 0)
    (params : WeightedMovingVarianceParams) (hw : params.weight = demoWeight)
    (hen : params.enableThreshold = false) :
    runKernel fsqrt demoSize params ([10, 10, 10, 10].map some) ([10, 10, 10, 10].map some)
        ([10, 10, 10, 10].map some) [none, none, none, none]
      = some [some 0, some 0, some 0, some 0] := by
  have hv : ∀ i, i < 4 → specVariance (demoWeight 0) (demoWeight 1) (demoWeight 2)
      ((([10, 10, 10, 10] : List Nat).getD i 0 : Nat) : ℚ)
      ((([10, 10, 10, 10] : List Nat).getD i 0 : Nat) : ℚ)
      ((([10, 10, 10, 10] : List Nat).getD i 0 : Nat) : ℚ) = 0 := by
    intro i hi
    interval_cases i <;> simpa using demo_variance_flat
  rw [runKernel_demoSize, hw, hen,
    weightedVarianceMono_continuous_eq fsqrt [10, 10, 10, 10] [10, 10, 10, 10] [10, 10, 10, 10]
      [none, none, none, none] 4 demoWeight params.thresholdSquared (by norm_num) (by simp)
      (by simp) (by simp) (by simp) (fun i hi => by rw [hv i hi, hsqrt0]; norm_num)]
  have hl : (List.range 4).map (fun i => some (Int.toNat ⌊fsqrt (specVariance (demoWeight 0)
      (demoWeight 1) (demoWeight 2) ((([10, 10, 10, 10] : List Nat).getD i 0 : Nat) : ℚ)
      ((([10, 10, 10, 10] : List Nat).getD i 0 : Nat) : ℚ)
      ((([10, 10, 10, 10] : List Nat).getD i 0 : Nat) : ℚ))⌋))
      = (List.range 4).map (fun _ => some 0) := by
    apply List.map_congr_left
    intro i hi
    rw [hv i (List.mem_range.mp hi), hsqrt0]
    simp
  rw [hl]
  rfl

theorem demo_continuous_jump (fsqrt : ℚ → ℚ) (hsqrt0 : fsqrt 0 = 0) (hsqrt400 : fsqrt 400 = 20)
    (params : WeightedMovingVarianceParams) (hw : params.weight = demoWeight)
    (hen : params.enableThreshold = false) :
    runKernel fsqrt demoSize params ([50, 10, 10, 10].map some) ([10, 10, 10, 10].map some)
        ([10, 10, 10, 10].map some) [none, none, none, none]
      = some [some 20, some 0, some 0, some 0] := by
  have hv : ∀ i, i < 4 → fsqrt (specVariance (demoWeight 0) (demoWeight 1) (demoWeight 2)
      ((([50, 10, 10, 10] : List Nat).getD i 0 : Nat) : ℚ)
      ((([10, 10, 10, 10] : List Nat).getD i 0 : Nat) : ℚ)
      ((([10, 10, 10, 10] : List Nat).getD i 0 : Nat) : ℚ))
      = (([20, 0, 0, 0] : List Nat).getD i 0 : Nat) := by
    intro i hi
    interval_cases i
    · have := demo_variance_jump
      simp only [List.getD_cons_zero, Nat.cast_ofNat]
      rw [this, hsqrt400]
    all_goals
      have := demo_variance_flat
      simp only [List.getD_cons_succ, List.getD_cons_zero, Nat.cast_ofNat, Nat.cast_zero]
      rw [this, hsqrt0]
  rw [runKernel_demoSize, hw, hen,
    weightedVarianceMono_continuous_eq fsqrt [50, 10, 10, 10] [10, 10, 10, 10] [10, 10, 10, 10]
      [none, none, none, none] 4 demoWeight params.thresholdSquared (by norm_num) (by simp)
      (by simp) (by simp) (by simp) (fun i hi => by
        rw [hv i hi]; interval_cases i <;> norm_num)]
  have hl : (List.range 4).map (fun i => some (Int.toNat ⌊fsqrt (specVariance (demoWeight 0)
      (demoWeight 1) (demoWeight 2) ((([50, 10, 10, 10] : List Nat).getD i 0 : Nat) : ℚ)
      ((([10, 10, 10, 10] : List Nat).getD i 0 : Nat) : ℚ)
      ((([10, 10, 10, 10] : List Nat).getD i 0 : Nat) : ℚ))⌋))
      = (List.range 4).map (fun i => some (([20, 0, 0, 0] : List Nat).getD i 0)) := by
    apply List.map_congr_left
    intro i hi
    rw [hv i (List.mem_range.mp hi)]
    simp
  rw [hl]
  rfl

/-- C11: on a 4×1 mono 8-bit stream with the weights (0.5, 0.3, 0.2) and thresholding disabled,
three submissions of [10,10,10,10] leave the output unwritten on the first two calls and give
[0,0,0,0] on the third; the submission of [50,10,10,10] that follows gives 20 at the first
position, a positive value, and 0 at the other three. -/
theorem scenario_continuous (fsqrt : ℚ → ℚ) (hsqrt0 : fsqrt 0 = 0) (hsqrt400 : fsqrt 400 = 20)
    (self0 self : WeightedMovingVariance) (numProcess : Nat)
    (hinit : initialise self0 = some self)
    (hlt : numProcess < self0.m_numProcessesParallel)
    (hsz : self0.m_imgSizesParallel.get? numProcess = some demoSize)
    (hw : self0.m_params.weight = demoWeight)
    (hen : self0.m_params.enableThreshold = false) :
    ∃ self4, processAll fsqrt numProcess self
        [(demoFrame [10, 10, 10, 10], emptyMat), (demoFrame [10, 10, 10, 10], emptyMat),
          (demoFrame [10, 10, 10, 10], emptyMat), (demoFrame [50, 10, 10, 10], emptyMat)]
      = some (self4,
        [{ size := 4, data := [none, none, none, none] },
          { size := 4, data := [none, none, none, none] },
          { size := 4, data := [some 0, some 0, some 0, some 0] },
          { size := 4, data := [some 20, some 0, some 0, some 0] }]) := by
  have hsize : demoSize.sizeInBytes = 4 := rfl
  obtain ⟨s1, h1⟩ := processAll_snoc_warm fsqrt self0 self self numProcess demoSize hinit hlt hsz
    [] [] rfl (by decide) (demoFrame [10, 10, 10, 10]) emptyMat (by decide)
  obtain ⟨s2, h2⟩ := processAll_snoc_warm fsqrt self0 self s1 numProcess demoSize hinit hlt hsz
    _ _ h1 (by decide) (demoFrame [10, 10, 10, 10]) emptyMat (by decide)
  obtain ⟨s3, h3⟩ := processAll_snoc_ready fsqrt self0 self s2 numProcess demoSize hinit hlt hsz
    _ _ h2 (by decide) (demoFrame [10, 10, 10, 10]) emptyMat (by decide) _
    (demo_continuous_flat fsqrt hsqrt0 self0.m_params hw hen)
  obtain ⟨s4, h4⟩ := processAll_snoc_ready fsqrt self0 self s3 numProcess demoSize hinit hlt hsz
    _ _ h3 (by decide) (demoFrame [50, 10, 10, 10]) emptyMat (by decide) _
    (demo_continuous_jump fsqrt hsqrt0 hsqrt400 self0.m_params hw hen)
  exact ⟨s4, h4⟩

theorem demo_threshold_mask (fsqrt : ℚ → ℚ) (params : WeightedMovingVarianceParams)
    (hw : params.weight = demoWeight) (hen : params.enableThreshold = true) :
    runKernel fsqrt demoSize params ([50, 10, 10, 10].map some) ([10, 10, 10, 10].map some)
        ([10, 10, 10, 10].map some) [none, none, none, none]
      = some [some (specMask 400 params.thresholdSquared),
          some (specMask 0 params.thresholdSquared), some (specMask 0 params.thresholdSquared),
          some (specMask 0 params.thresholdSquared)] := by
  have hv : ∀ i, i < 4 → monoResult demoWeight
      ((([50, 10, 10, 10] : List Nat).getD i 0 : Nat) : ℚ)
      ((([10, 10, 10, 10] : List Nat).getD i 0 : Nat) : ℚ)
      ((([10, 10, 10, 10] : List Nat).getD i 0 : Nat) : ℚ)
      = (([400, 0, 0, 0] : List Nat).getD i 0 : Nat) := by
    intro i hi
    rw [monoResult_eq_specVariance]
    interval_cases i
    · simpa using demo_variance_jump
    all_goals simpa using demo_variance_flat
  rw [runKernel_demoSize, hw, hen]
  simp only [weightedVarianceMono, if_true]
  rw [show 4 % 2 ^ 32 = 4 from rfl,
    calcWeightedVarianceMonoThreshold_eq [50, 10, 10, 10] [10, 10, 10, 10] [10, 10, 10, 10]
      [none, none, none, none] 4 demoWeight params.thresholdSquared (by simp) (by simp) (by simp)
      (by simp)]
  have hl : (List.range 4).map (fun i => some (specMask (monoResult demoWeight
      ((([50, 10, 10, 10] : List Nat).getD i 0 : Nat) : ℚ)
      ((([10, 10, 10, 10] : List Nat).getD i 0 : Nat) : ℚ)
      ((([10, 10, 10, 10] : List Nat).getD i 0 : Nat) : ℚ)) params.thresholdSquared))
      = (List.range 4).map (fun i => some (specMask
          ((([400, 0, 0, 0] : List Nat).getD i 0 : Nat) : ℚ) params.thresholdSquared)) := by
    apply List.map_congr_left
    intro i hi
    rw [hv i (List.mem_range.mp hi)]
  rw [hl]
  simp [List.range_succ]

theorem jumpCalls_run (fsqrt : ℚ → ℚ) (self0 self : WeightedMovingVariance) (numProcess : Nat)
    (hinit : initialise self0 = some self)
    (hlt : numProcess < self0.m_numProcessesParallel)
    (hsz : self0.m_imgSizesParallel.get? numProcess = some demoSize)
    (hw : self0.m_params.weight = demoWeight)
    (hen : self0.m_params.enableThreshold = true) :
    ∃ self3, processAll fsqrt numProcess self jumpCalls
      = some (self3,
        [{ size := 4, data := [none, none, none, none] },
          { size := 4, data := [none, none, none, none] },
          { size := 4, data := [some (specMask 400 self0.m_params.thresholdSquared),
              some (specMask 0 self0.m_params.thresholdSquared),
              some (specMask 0 self0.m_params.thresholdSquared),
              some (specMask 0 self0.m_params.thresholdSquared)] }]) := by
  obtain ⟨s1, h1⟩ := processAll_snoc_warm fsqrt self0 self self numProcess demoSize hinit hlt hsz
    [] [] rfl (by decide) (demoFrame [10, 10, 10, 10]) emptyMat (by decide)
  obtain ⟨s2, h2⟩ := processAll_snoc_warm fsqrt self0 self s1 numProcess demoSize hinit hlt hsz
    _ _ h1 (by decide) (demoFrame [10, 10, 10, 10]) emptyMat (by decide)
  obtain ⟨s3, h3⟩ := processAll_snoc_ready fsqrt self0 self s2 numProcess demoSize hinit hlt hsz
    _ _ h2 (by decide) (demoFrame [50, 10, 10, 10]) emptyMat (by decide) _
    (demo_threshold_mask fsqrt self0.m_params hw hen)
  exact ⟨s3, h3⟩

theorem specMask_of_gt (r t : ℚ) (h : r > t) : specMask r t = 255 := by
  unfold specMask; rw [if_pos h]

theorem specMask_of_le (r t : ℚ) (h : r ≤ t) : specMask r t = 0 :=
  (specMask_eq_zero_iff r t).mpr h

/-- C12 (amended): on the 4×1 mono 8-bit stream with weights (0.5, 0.3, 0.2) whose window holds
[10,10,10,10] twice followed by [50,10,10,10], the variance at the first pixel is `V = 400`; with
thresholding enabled and `thresholdSquared = V - eps` just below it (`0 < eps ≤ V`) the mask is
255 at that pixel and 0 at the other three, and with `thresholdSquared = V + eps` at or above it
(`eps ≥ 0`) the mask is 0 at all four pixels. -/
theorem scenario_threshold (fsqrt : ℚ → ℚ) (self0 self : WeightedMovingVariance)
    (numProcess : Nat) (hinit : initialise self0 = some self)
    (hlt : numProcess < self0.m_numProcessesParallel)
    (hsz : self0.m_imgSizesParallel.get? numProcess = some demoSize)
    (hw : self0.m_params.weight = demoWeight)
    (hen : self0.m_params.enableThreshold = true) (eps : ℚ) :
    specVariance (demoWeight 0) (demoWeight 1) (demoWeight 2) 50 10 10 = 400 ∧
    (0 < eps → eps ≤ 400 → self0.m_params.thresholdSquared = 400 - eps →
      ∃ self3, processAll fsqrt numProcess self jumpCalls
        = some (self3,
          [{ size := 4, data := [none, none, none, none] },
            { size := 4, data := [none, none, none, none] },
            { size := 4, data := [some 255, some 0, some 0, some 0] }])) ∧
    (0 ≤ eps → self0.m_params.thresholdSquared = 400 + eps →
      ∃ self3, processAll fsqrt numProcess self jumpCalls
        = some (self3,
          [{ size := 4, data := [none, none, none, none] },
            { size := 4, data := [none, none, none, none] },
            { size := 4, data := [some 0, some 0, some 0, some 0] }])) := by
  obtain ⟨s3, h3⟩ := jumpCalls_run fsqrt self0 self numProcess hinit hlt hsz hw hen
  refine ⟨demo_variance_jump, fun h0 h1 ht => ⟨s3, ?_⟩, fun h0 ht => ⟨s3, ?_⟩⟩
  · rw [h3, ht, specMask_of_gt 400 (400 - eps) (by linarith),
      specMask_of_le 0 (400 - eps) (by linarith)]
  · rw [h3, ht, specMask_of_le 400 (400 + eps) (by linarith),
      specMask_of_le 0 (400 + eps) (by linarith)]

/-- C12 (counterexample): with `thresholdSquared = 401`, just above the variance 400 of the
first pixel, the third call of the scenario returns the mask [0,0,0,0]: the first pixel is 0,
not 255. -/
theorem scenario_threshold_above_gives_zero :
    ((initialise (demoBgsThreshold 401)).bind
        (fun self => processAll sqrtFloor 0 self jumpCalls)).map Prod.snd
      = some [{ size := 4, data := [none, none, none, none] },
          { size := 4, data := [none, none, none, none] },
          { size := 4, data := [some 0, some 0, some 0, some 0] }] := by
  have hi : (initialise (demoBgsThreshold 401)).isSome = true := rfl
  obtain ⟨self, hself⟩ := Option.isSome_iff_exists.mp hi
  obtain ⟨s3, h3⟩ := jumpCalls_run sqrtFloor (demoBgsThreshold 401) self 0 hself (by decide) rfl
    rfl rfl
  rw [hself, Option.some_bind, h3]
  have e1 : specMask 400 (demoBgsThreshold 401).m_params.thresholdSquared = 0 :=
    specMask_of_le _ _ (by norm_num [demoBgsThreshold, demoParamsThreshold])
  have e2 : specMask 0 (demoBgsThreshold 401).m_params.thresholdSquared = 0 :=
    specMask_of_le _ _ (by norm_num [demoBgsThreshold, demoParamsThreshold])
  rw [e1, e2]
  rfl

theorem initialise_defined (self0 : WeightedMovingVariance)
    (hle : self0.m_numProcessesParallel ≤ self0.m_imgSizesParallel.length) :
    ∃ self, initialise self0 = some self := by
  unfold initialise
  rw [if_pos hle]
  exact ⟨_, rfl⟩

/-- C14 (amended): `initialize` rejects no geometry descriptor, whatever its channel count and
bytes per sample; once two frames have been submitted every `process` call runs a kernel for the
descriptor: the colour kernel for every channel count other than 1, and the 16-bit views with
`thresholdSquared16` for every bytes-per-sample other than 1. -/
theorem unsupported_geometry_not_rejected (fsqrt : ℚ → ℚ) (self0 : WeightedMovingVariance)
    (numProcess : Nat) (imgSize : ImgSize)
    (hle : self0.m_numProcessesParallel ≤ self0.m_imgSizesParallel.length)
    (hlt : numProcess < self0.m_numProcessesParallel)
    (hsz : self0.m_imgSizesParallel.get? numProcess = some imgSize) :
    ∃ self, initialise self0 = some self ∧
      ∀ (calls : List (Mat × Mat)) (self1 : WeightedMovingVariance) (outs : List Mat),
        2 ≤ calls.length → processAll fsqrt numProcess self calls = some (self1, outs) →
        ∀ f o : Mat, imgSize.sizeInBytes ≤ f.data.length →
          (imgSize.numChannels ≠ 1 → imgSize.bytesPerPixel = 1 →
            (process fsqrt self1 f o numProcess).map Prod.snd =
              (weightedVarianceColor fsqrt (f.data.take imgSize.sizeInBytes)
                ((storedFrames imgSize.sizeInBytes calls).getD 0 [])
                ((storedFrames imgSize.sizeInBytes calls).getD 1 [])
                (outputFor f o).data (imgSize.numPixels % 2 ^ 64) self0.m_params.weight
                self0.m_params.enableThreshold self0.m_params.thresholdSquared).map
                (fun d => { outputFor f o with data := d })) ∧
          (imgSize.numChannels ≠ 1 → imgSize.bytesPerPixel ≠ 1 →
            (process fsqrt self1 f o numProcess).map Prod.snd =
              (weightedVarianceColor fsqrt (asUInt16 (f.data.take imgSize.sizeInBytes))
                (asUInt16 ((storedFrames imgSize.sizeInBytes calls).getD 0 []))
                (asUInt16 ((storedFrames imgSize.sizeInBytes calls).getD 1 []))
                (outputFor f o).data (imgSize.numPixels % 2 ^ 64) self0.m_params.weight
                self0.m_params.enableThreshold self0.m_params.thresholdSquared16).map
                (fun d => { outputFor f o with data := d })) ∧
          (imgSize.numChannels = 1 → imgSize.bytesPerPixel ≠ 1 →
            (process fsqrt self1 f o numProcess).map Prod.snd =
              (weightedVarianceMono fsqrt (asUInt16 (f.data.take imgSize.sizeInBytes))
                (asUInt16 ((storedFrames imgSize.sizeInBytes calls).getD 0 []))
                (asUInt16 ((storedFrames imgSize.sizeInBytes calls).getD 1 []))
                (outputFor f o).data (imgSize.numPixels % 2 ^ 64) self0.m_params.weight
                self0.m_params.enableThreshold self0.m_params.thresholdSquared16).map
                (fun d => { outputFor f o with data := d })) := by
  obtain ⟨self, hself⟩ := initialise_defined self0 hle
  refine ⟨self, hself, ?_⟩
  intro calls self1 outs hlen hrun f o hf
  have h := process_after_run fsqrt self0 self self1 numProcess imgSize hself hlt hsz calls outs
    hrun f o hf
  rw [if_neg (by omega)] at h
  refine ⟨fun hc hb => ?_, fun hc hb => ?_, fun hc hb => ?_⟩ <;>
    rw [h] <;> simp only [runKernel, hc, hb, if_true, if_false]

theorem fourChannel_kernel (fsqrt : ℚ → ℚ) :
    runKernel fsqrt fourChannelSize demoParams ([250, 10, 10, 10].map some)
        ([10, 10, 10, 10].map some) ([10, 10, 10, 10].map some) [none]
      = some [some 255] := by
  have hr : ∀ l : List Nat, l.length = 4 → ColorReadable l 1 := fun l hl =>
    colorReadable_of_length l 1 (by omega) (by norm_num)
  have e : runKernel fsqrt fourChannelSize demoParams ([250, 10, 10, 10].map some)
      ([10, 10, 10, 10].map some) ([10, 10, 10, 10].map some) [none]
      = calcWeightedVarianceColorThreshold ([250, 10, 10, 10].map some)
          ([10, 10, 10, 10].map some) ([10, 10, 10, 10].map some) [none] 1 demoWeight 399 := by
    simp [runKernel, fourChannelSize, ImgSize.numPixels, weightedVarianceColor, demoParams]
  rw [e, calcWeightedVarianceColorThreshold_eq [250, 10, 10, 10] [10, 10, 10, 10]
    [10, 10, 10, 10] [none] 1 demoWeight 399 (hr _ rfl) (hr _ rfl) (hr _ rfl) (by simp)]
  norm_num [List.range_succ, specMask, colorThresholdResult, colorChannelResult, pixel3At,
    channelAt, colorIndex, demoWeight]

/-- C14 (counterexample): a stream registered with four channels per pixel is accepted by
`initialize`, and its third `process` call runs the colour kernel and writes the mask 255 into
the output. -/
theorem four_channels_are_processed :
    ((initialise fourChannelBgs).bind (fun self => processAll sqrtFloor 0 self
        [(fourChannelFrame [10, 10, 10, 10], emptyMat),
          (fourChannelFrame [10, 10, 10, 10], emptyMat),
          (fourChannelFrame [250, 10, 10, 10], emptyMat)])).map Prod.snd
      = some [{ size := 1, data := [none] }, { size := 1, data := [none] },
          { size := 1, data := [some 255] }] := by
  obtain ⟨self, hself⟩ := initialise_defined fourChannelBgs (by decide)
  obtain ⟨s1, h1⟩ := processAll_snoc_warm sqrtFloor fourChannelBgs self self 0 fourChannelSize
    hself (by decide) rfl [] [] rfl (by decide) (fourChannelFrame [10, 10, 10, 10]) emptyMat
    (by decide)
  obtain ⟨s2, h2⟩ := processAll_snoc_warm sqrtFloor fourChannelBgs self s1 0 fourChannelSize
    hself (by decide) rfl _ _ h1 (by decide) (fourChannelFrame [10, 10, 10, 10]) emptyMat
    (by decide)
  obtain ⟨s3, h3⟩ := processAll_snoc_ready sqrtFloor fourChannelBgs self s2 0 fourChannelSize
    hself (by decide) rfl _ _ h2 (by decide) (fourChannelFrame [250, 10, 10, 10]) emptyMat
    (by decide) _ (fourChannel_kernel sqrtFloor)
  rw [hself, Option.some_bind]
  exact congrArg (Option.map Prod.snd) h3

/-- C14 (witness): the four-channel stream of `fourChannelBgs`. -/
theorem unsupported_geometry_not_rejected_witness :
    ∃ self, initialise fourChannelBgs = some self ∧
      ∀ (calls : List (Mat × Mat)) (self1 : WeightedMovingVariance) (outs : List Mat),
        2 ≤ calls.length → processAll sqrtFloor 0 self calls = some (self1, outs) →
        ∀ f o : Mat, fourChannelSize.sizeInBytes ≤ f.data.length →
          (process sqrtFloor self1 f o 0).map Prod.snd =
            (weightedVarianceColor sqrtFloor (f.data.take fourChannelSize.sizeInBytes)
              ((storedFrames fourChannelSize.sizeInBytes calls).getD 0 [])
              ((storedFrames fourChannelSize.sizeInBytes calls).getD 1 [])
              (outputFor f o).data (fourChannelSize.numPixels % 2 ^ 64)
              fourChannelBgs.m_params.weight fourChannelBgs.m_params.enableThreshold
              fourChannelBgs.m_params.thresholdSquared).map
              (fun d => { outputFor f o with data := d }) := by
  obtain ⟨self, hself, h⟩ := unsupported_geometry_not_rejected sqrtFloor fourChannelBgs 0
    fourChannelSize (by decide) (by decide) rfl
  exact ⟨self, hself, fun calls self1 outs hlen hrun f o hf =>
    (h calls self1 outs hlen hrun f o hf).1 (by decide) rfl⟩

/-- C11 (witness): the scenario on the one stream of `demoBgsContinuous`, with the integer
square root standing for `std::sqrt`. -/
theorem scenario_continuous_witness :
    ∃ self self4, initialise demoBgsContinuous = some self ∧
      processAll sqrtFloor 0 self
        [(demoFrame [10, 10, 10, 10], emptyMat), (demoFrame [10, 10, 10, 10], emptyMat),
          (demoFrame [10, 10, 10, 10], emptyMat), (demoFrame [50, 10, 10, 10], emptyMat)]
      = some (self4,
        [{ size := 4, data := [none, none, none, none] },
          { size := 4, data := [none, none, none, none] },
          { size := 4, data := [some 0, some 0, some 0, some 0] },
          { size := 4, data := [some 20, some 0, some 0, some 0] }]) := by
  obtain ⟨self, hself⟩ := initialise_defined demoBgsContinuous (by decide)
  obtain ⟨s4, h4⟩ := scenario_continuous sqrtFloor sqrtFloor_zero
    (by rw [sqrtFloor_sq 400 20 (by norm_num)]; norm_num) demoBgsContinuous self 0 hself
    (by decide) rfl rfl rfl
  exact ⟨self, s4, hself, h4⟩

/-- C12 (witness): the scenario with `thresholdSquared = 399`, one below the variance 400. -/
theorem scenario_threshold_witness :
    ∃ self self3, initialise (demoBgsThreshold 399) = some self ∧
      processAll sqrtFloor 0 self jumpCalls
        = some (self3,
          [{ size := 4, data := [none, none, none, none] },
            { size := 4, data := [none, none, none, none] },
            { size := 4, data := [some 255, some 0, some 0, some 0] }]) := by
  obtain ⟨self, hself⟩ := initialise_defined (demoBgsThreshold 399) (by decide)
  obtain ⟨s3, h3⟩ := (scenario_threshold sqrtFloor (demoBgsThreshold 399) self 0 hself
    (by decide) rfl rfl rfl 1).2.1 (by norm_num) (by norm_num)
    (by norm_num [demoBgsThreshold, demoParamsThreshold])
  exact ⟨self, s3, hself, h3⟩

/-- C13 (witness): a first frame submitted to stream 0 of the two-stream object `demoBgsTwo`
leaves stream 1 as it was. -/
theorem streams_are_isolated_witness :
    ∃ self self1 out, initialise demoBgsTwo = some self ∧
      process sqrtFloor self (demoFrame [10, 10, 10, 10]) emptyMat 0 = some (self1, out) ∧
      self1.imgInputPrev.get? 1 = self.imgInputPrev.get? 1 ∧
      ∀ (calls : List (Mat × Mat)) (self2 : WeightedMovingVariance) (outs : List Mat),
        processAll sqrtFloor 1 self calls = some (self2, outs) →
        (process sqrtFloor self2 (demoFrame [10, 10, 10, 10]) emptyMat 0).map Prod.snd
          = some out := by
  obtain ⟨self, hself⟩ := initialise_defined demoBgsTwo (by decide)
  have ha := process_after_run sqrtFloor demoBgsTwo self self 0 demoSize hself (by decide) rfl
    [] [] rfl (demoFrame [10, 10, 10, 10]) emptyMat (by decide)
  rw [if_pos (by decide)] at ha
  obtain ⟨s1, hout⟩ := process_of_snd sqrtFloor self _ _ _ 0 ha
  have h := streams_are_isolated sqrtFloor self s1 0 1 (by decide) _ _ _ hout
  exact ⟨self, s1, _, hself, hout, h.1, h.2⟩

/-- C17 (witness): the third call on the 4×1 mono 8-bit stream of `demoBgs` runs the mono
kernel on the 8-bit views with `thresholdSquared`. -/
theorem kernel_selected_by_geometry_witness :
    ∃ self self1 outs, initialise demoBgs = some self ∧
      processAll sqrtFloor 0 self
        [(demoFrame [1, 2, 3, 4], emptyMat), (demoFrame [10, 10, 10, 10], emptyMat)]
        = some (self1, outs) ∧
      (process sqrtFloor self1 (demoFrame [50, 10, 10, 10]) emptyMat 0).map Prod.snd =
        (weightedVarianceMono sqrtFloor
          ((demoFrame [50, 10, 10, 10]).data.take demoSize.sizeInBytes)
          ((demoFrame [10, 10, 10, 10]).data.take demoSize.sizeInBytes)
          ((demoFrame [1, 2, 3, 4]).data.take demoSize.sizeInBytes)
          (outputFor (demoFrame [50, 10, 10, 10]) emptyMat).data (demoSize.numPixels % 2 ^ 64)
          demoBgs.m_params.weight demoBgs.m_params.enableThreshold
          demoBgs.m_params.thresholdSquared).map
          (fun d => { outputFor (demoFrame [50, 10, 10, 10]) emptyMat with data := d }) := by
  obtain ⟨self, hself⟩ := initialise_defined demoBgs (by decide)
  obtain ⟨s1, h1⟩ := processAll_snoc_warm sqrtFloor demoBgs self self 0 demoSize hself
    (by decide) rfl [] [] rfl (by decide) (demoFrame [1, 2, 3, 4]) emptyMat (by decide)
  obtain ⟨s2, h2⟩ := processAll_snoc_warm sqrtFloor demoBgs self s1 0 demoSize hself
    (by decide) rfl _ _ h1 (by decide) (demoFrame [10, 10, 10, 10]) emptyMat (by decide)
  exact ⟨self, s2, _, hself, h2,
    (kernel_selected_by_geometry sqrtFloor demoBgs self s2 0 demoSize hself (by decide) rfl []
      _ _ _ _ _ h2 _ _ (by decide)).1 rfl rfl⟩

theorem specVariance_nonneg (w0 w1 w2 a b c : ℚ) (h0 : 0 ≤ w0) (h1 : 0 ≤ w1) (h2 : 0 ≤ w2) :
    0 ≤ specVariance w0 w1 w2 a b c := by
  simp only [specVariance]
  exact add_nonneg (add_nonneg (mul_nonneg h0 (sq_nonneg _)) (mul_nonneg h1 (sq_nonneg _)))
    (mul_nonneg h2 (sq_nonneg _))

theorem specVariance_le (w0 w1 w2 a b c : ℚ) (h0 : 0 ≤ w0) (h1 : 0 ≤ w1) (h2 : 0 ≤ w2)
    (hsum : w0 + w1 + w2 = 1) (ha0 : 0 ≤ a) (ha : a ≤ 255) (hb0 : 0 ≤ b) (hb : b ≤ 255)
    (hc0 : 0 ≤ c) (hc : c ≤ 255) :
    specVariance w0 w1 w2 a b c ≤ 255 ^ 2 / 4 := by
  have e : w2 = 1 - w0 - w1 := by linarith
  subst e
  have t0 : 0 ≤ w0 * a * (255 - a) := mul_nonneg (mul_nonneg h0 ha0) (by linarith)
  have t1 : 0 ≤ w1 * b * (255 - b) := mul_nonneg (mul_nonneg h1 hb0) (by linarith)
  have t2 : 0 ≤ (1 - w0 - w1) * c * (255 - c) := mul_nonneg (mul_nonneg h2 hc0) (by linarith)
  have t3 := sq_nonneg (a * w0 + b * w1 + c * (1 - w0 - w1) - 255 / 2)
  simp only [specVariance]
  nlinarith [t0, t1, t2, t3]

theorem fsqrt_le_of_sq_le (s v B : ℚ) (hB : 0 ≤ B) (hsq : s * s ≤ v)
    (hv : v ≤ B * B) : s ≤ B := by
  by_contra h
  push_neg at h
  nlinarith

/-- C19: for non-negative weights summing to 1 and 8-bit samples (each in 0..255) the mono
weighted variance lies between 0 and 255^2/4, so its square root is at most 127.5; hence the
continuous mono kernel on such a window is defined at every pixel and every value it stores is
at most 127, inside the range of an 8-bit value. -/
theorem mono_variance_bounded (fsqrt : ℚ → ℚ) (hnn : ∀ x, 0 ≤ x → 0 ≤ fsqrt x)
    (hsq : ∀ x, 0 ≤ x → fsqrt x * fsqrt x ≤ x)
    (weight : Fin 3 → ℚ) (h0 : 0 ≤ weight 0) (h1 : 0 ≤ weight 1) (h2 : 0 ≤ weight 2)
    (hsum : weight 0 + weight 1 + weight 2 = 1)
    (cur prev1 prev2 : List Nat) (o : Buffer) (totalPixels : Nat) (thresholdSquared : ℚ)
    (hn : totalPixels < 2 ^ 32) (l1 : totalPixels ≤ cur.length)
    (l2 : totalPixels ≤ prev1.length) (l3 : totalPixels ≤ prev2.length)
    (lo : totalPixels ≤ o.length)
    (b1 : ∀ i, i < totalPixels → cur.getD i 0 ≤ 255)
    (b2 : ∀ i, i < totalPixels → prev1.getD i 0 ≤ 255)
    (b3 : ∀ i, i < totalPixels → prev2.getD i 0 ≤ 255) :
    (∀ i, i < totalPixels →
      0 ≤ specVariance (weight 0) (weight 1) (weight 2)
        (cur.getD i 0) (prev1.getD i 0) (prev2.getD i 0) ∧
      specVariance (weight 0) (weight 1) (weight 2)
        (cur.getD i 0) (prev1.getD i 0) (prev2.getD i 0) ≤ 255 ^ 2 / 4 ∧
      fsqrt (specVariance (weight 0) (weight 1) (weight 2)
        (cur.getD i 0) (prev1.getD i 0) (prev2.getD i 0)) ≤ 255 / 2) ∧
    ∃ out, weightedVarianceMono fsqrt (cur.map some) (prev1.map some) (prev2.map some) o
        totalPixels weight false thresholdSquared = some out ∧
      ∀ i, i < totalPixels → ∃ v, out.get? i = some (some v) ∧ v ≤ 127 := by
  have hb : ∀ i, i < totalPixels →
      0 ≤ specVariance (weight 0) (weight 1) (weight 2)
        (cur.getD i 0) (prev1.getD i 0) (prev2.getD i 0) ∧
      specVariance (weight 0) (weight 1) (weight 2)
        (cur.getD i 0) (prev1.getD i 0) (prev2.getD i 0) ≤ 255 ^ 2 / 4 ∧
      fsqrt (specVariance (weight 0) (weight 1) (weight 2)
        (cur.getD i 0) (prev1.getD i 0) (prev2.getD i 0)) ≤ 255 / 2 := by
    intro i hi
    have v0 := specVariance_nonneg (weight 0) (weight 1) (weight 2) (cur.getD i 0)
      (prev1.getD i 0) (prev2.getD i 0) h0 h1 h2
    have v1 := specVariance_le (weight 0) (weight 1) (weight 2) (cur.getD i 0)
      (prev1.getD i 0) (prev2.getD i 0) h0 h1 h2 hsum (Nat.cast_nonneg _)
      (by exact_mod_cast b1 i hi) (Nat.cast_nonneg _) (by exact_mod_cast b2 i hi)
      (Nat.cast_nonneg _) (by exact_mod_cast b3 i hi)
    exact ⟨v0, v1, fsqrt_le_of_sq_le _ _ (255 / 2) (by norm_num) (hsq _ v0)
      (by linarith)⟩
  refine ⟨hb, _, weightedVarianceMono_continuous_eq fsqrt cur prev1 prev2 o totalPixels weight
    thresholdSquared hn l1 l2 l3 lo (fun i hi => ⟨hnn _ (hb i hi).1, by
      linarith [(hb i hi).2.2]⟩), ?_⟩
  intro i hi
  refine ⟨_, get?_range_map_append _ _ totalPixels i hi, ?_⟩
  have hfl : ⌊fsqrt (specVariance (weight 0) (weight 1) (weight 2)
      (cur.getD i 0) (prev1.getD i 0) (prev2.getD i 0))⌋ < 128 :=
    Int.floor_lt.mpr (by push_cast; linarith [(hb i hi).2.2])
  omega

theorem sqrtFloor_nonneg (x : ℚ) : 0 ≤ sqrtFloor x := by
  unfold sqrtFloor
  exact Nat.cast_nonneg _

theorem sqrtFloor_sq_le (x : ℚ) (hx : 0 ≤ x) : sqrtFloor x * sqrtFloor x ≤ x := by
  unfold sqrtFloor
  have h1 : (Nat.sqrt (Int.toNat ⌊x⌋)) * (Nat.sqrt (Int.toNat ⌊x⌋)) ≤ Int.toNat ⌊x⌋ :=
    Nat.sqrt_le _
  have h2 : ((Int.toNat ⌊x⌋ : Nat) : ℚ) ≤ x := by
    have hf : 0 ≤ ⌊x⌋ := Int.floor_nonneg.mpr hx
    have : ((Int.toNat ⌊x⌋ : Nat) : ℤ) = ⌊x⌋ := Int.toNat_of_nonneg hf
    calc ((Int.toNat ⌊x⌋ : Nat) : ℚ) = ((⌊x⌋ : ℤ) : ℚ) := by exact_mod_cast this
      _ ≤ x := Int.floor_le x
  calc ((Nat.sqrt (Int.toNat ⌊x⌋) : Nat) : ℚ) * (Nat.sqrt (Int.toNat ⌊x⌋) : Nat)
      = ((Nat.sqrt (Int.toNat ⌊x⌋) * Nat.sqrt (Int.toNat ⌊x⌋) : Nat) : ℚ) := by push_cast; ring
    _ ≤ ((Int.toNat ⌊x⌋ : Nat) : ℚ) := by exact_mod_cast h1
    _ ≤ x := h2

/-- C19 (witness): the two-pixel window 255, 0 / 0, 0 / 0, 255 with the weights
(0.5, 0.3, 0.2). -/
theorem mono_variance_bounded_witness :
    ∃ out, weightedVarianceMono sqrtFloor [some 255, some 0] [some 0, some 0]
        [some 0, some 255] [none, none] 2 demoWeight false 0 = some out ∧
      ∀ i, i < 2 → ∃ v, out.get? i = some (some v) ∧ v ≤ 127 :=
  (mono_variance_bounded sqrtFloor (fun x _ => sqrtFloor_nonneg x) sqrtFloor_sq_le demoWeight
    (by norm_num [demoWeight]) (by norm_num [demoWeight]) (by norm_num [demoWeight])
    demoWeight_sum [255, 0] [0, 0] [0, 255] [none, none] 2 0 (by norm_num) (by simp) (by simp)
    (by simp) (by simp)
    (fun i hi => by interval_cases i <;> simp)
    (fun i hi => by interval_cases i <;> simp)
    (fun i hi => by interval_cases i <;> simp)).2

theorem asUInt16_map_some : ∀ (n : Nat) (b : List Nat), b.length ≤ n →
    asUInt16 (b.map some) = (decode16 b).map some ∧ (decode16 b).length = b.length / 2 := by
  intro n
  induction n using Nat.strong_induction_on with
  | _ n ih =>
    intro b hb
    match b, hb with
    | [], _ => exact ⟨rfl, rfl⟩
    | [_], _ => exact ⟨rfl, by simp [decode16]⟩
    | lo :: hi :: rest, hb =>
      simp only [List.length_cons] at hb
      obtain ⟨e, l⟩ := ih rest.length (by omega) rest (Nat.le_refl _)
      constructor
      · simp only [List.map_cons, asUInt16, decode16, e]
      · simp only [decode16, List.length_cons, l]
        omega

theorem forLoop_write_tail (px : Nat → Option Nat) (o : Buffer) :
    ∀ n out, forLoop n (fun i o => (px i).bind (writeUChar o i)) o = some out →
      out.drop n = o.drop n := by
  intro n
  induction n with
  | zero =>
    intro out h
    simp only [forLoop, Option.some.injEq] at h
    rw [h]
  | succ k ih =>
    intro out h
    rw [forLoop_succ] at h
    simp only [Option.bind_eq_some] at h
    obtain ⟨mid, hmid, v, _, hw⟩ := h
    have hm := ih mid hmid
    unfold writeUChar at hw
    split at hw
    · simp only [Option.some.injEq] at hw
      subst hw
      rw [List.drop_set_of_lt _ _ (Nat.lt_succ_self k), ← List.drop_drop 1 k mid, hm,
        List.drop_drop]
    · exact Option.noConfusion hw

theorem floatToUChar_le (x : ℚ) (v : Nat) (h : floatToUChar x = some v) : v ≤ 255 := by
  unfold floatToUChar at h
  split at h
  · rename_i hx
    simp only [Option.some.injEq] at h
    have hfl : ⌊x⌋ < 256 := Int.floor_lt.mpr (by exact_mod_cast hx.2)
    omega
  · exact Option.noConfusion h

theorem pixelMono_le (fsqrt : ℚ → ℚ) (i1 i2 i3 : List Cell) (weight : Fin 3 → ℚ) (i v : Nat)
    (h : pixelMono fsqrt i1 i2 i3 weight i = some v) : v ≤ 255 := by
  simp only [pixelMono, Option.bind_eq_bind, Option.bind_eq_some] at h
  obtain ⟨a, _, b, _, c, _, h⟩ := h
  exact floatToUChar_le _ v h

theorem pixelColor_le (fsqrt : ℚ → ℚ) (i1 i2 i3 : List Cell) (weight : Fin 3 → ℚ) (j v : Nat)
    (h : pixelColor fsqrt i1 i2 i3 weight j = some v) : v ≤ 255 := by
  simp only [pixelColor, Option.bind_eq_bind, Option.bind_eq_some] at h
  obtain ⟨a, _, b, _, c, _, h⟩ := h
  exact floatToUChar_le _ v h

theorem pixelMonoThreshold_le (i1 i2 i3 : List Cell) (weight : Fin 3 → ℚ) (t : ℚ) (i v : Nat)
    (h : pixelMonoThreshold i1 i2 i3 weight t i = some v) : v ≤ 255 := by
  simp only [pixelMonoThreshold, Option.bind_eq_bind, Option.bind_eq_some, Option.some.injEq]
    at h
  obtain ⟨a, _, b, _, c, _, h⟩ := h
  rw [← h]
  split <;> simp [UCHAR_MAX, ZERO_UC]

theorem pixelColorThreshold_le (i1 i2 i3 : List Cell) (weight : Fin 3 → ℚ) (t : ℚ) (j v : Nat)
    (h : pixelColorThreshold i1 i2 i3 weight t j = some v) : v ≤ 255 := by
  simp only [pixelColorThreshold, Option.bind_eq_bind, Option.bind_eq_some, Option.some.injEq]
    at h
  obtain ⟨a, _, b, _, c, _, h⟩ := h
  rw [← h]
  split <;> simp [UCHAR_MAX, ZERO_UC]

/-- What a loop that stores one byte per pixel leaves behind when it returns: the buffer keeps
its length, each of the first `n` cells holds a byte, and the cells past them are untouched. -/
theorem forLoop_write_exact (px : Nat → Option Nat) (o : Buffer) (n : Nat) (out : Buffer)
    (hle : ∀ i v, px i = some v → v ≤ 255)
    (h : forLoop n (fun i o => (px i).bind (writeUChar o i)) o = some out) :
    out.length = o.length ∧ (∀ i, i < n → ∃ v, out.get? i = some (some v) ∧ v ≤ 255) ∧
      out.drop n = o.drop n := by
  obtain ⟨_, hl, hpix⟩ := forLoop_write_inv px o n out h
  refine ⟨hl, fun i hi => ?_, forLoop_write_tail px o n out h⟩
  obtain ⟨v, hv, hg⟩ := hpix i hi
  exact ⟨v, hg, hle i v hv⟩

theorem weightedVarianceMono_exact (fsqrt : ℚ → ℚ) (i1 i2 i3 : List Cell) (o : Buffer)
    (n : Nat) (hn : n < 2 ^ 32) (weight : Fin 3 → ℚ) (en : Bool) (t : ℚ) (out : Buffer)
    (h : weightedVarianceMono fsqrt i1 i2 i3 o n weight en t = some out) :
    out.length = o.length ∧ (∀ i, i < n → ∃ v, out.get? i = some (some v) ∧ v ≤ 255) ∧
      out.drop n = o.drop n := by
  unfold weightedVarianceMono at h
  rw [Nat.mod_eq_of_lt hn] at h
  split at h
  · exact forLoop_write_exact _ o n out (pixelMonoThreshold_le i1 i2 i3 weight t) h
  · exact forLoop_write_exact _ o n out (pixelMono_le fsqrt i1 i2 i3 weight) h

theorem weightedVarianceColor_exact (fsqrt : ℚ → ℚ) (i1 i2 i3 : List Cell) (o : Buffer)
    (n : Nat) (hn : n < 2 ^ 32) (weight : Fin 3 → ℚ) (en : Bool) (t : ℚ) (out : Buffer)
    (h : weightedVarianceColor fsqrt i1 i2 i3 o n weight en t = some out) :
    out.length = o.length ∧ (∀ i, i < n → ∃ v, out.get? i = some (some v) ∧ v ≤ 255) ∧
      out.drop n = o.drop n := by
  unfold weightedVarianceColor at h
  rw [Nat.mod_eq_of_lt hn] at h
  split at h
  · exact forLoop_write_exact _ o n out (pixelColorThreshold_le i1 i2 i3 weight t) h
  · exact forLoop_write_exact _ o n out (pixelColor_le fsqrt i1 i2 i3 weight) h

theorem colorReadable_of_le (p : List Nat) (n : Nat) (h : 3 * n ≤ p.length) :
    ColorReadable p n := by
  intro j hj c hc
  by_cases hw : 3 * j + c < 2 ^ 32
  · rw [colorIndex_of_lt j c hw]; omega
  · have : (colorIndex j + c) % 2 ^ 32 < 2 ^ 32 := Nat.mod_lt _ (by norm_num)
    omega

/-- C16: on a ready call for a stream of `P` pixels (`P` below 2^32, the range of the kernels'
pixel counter) the selected kernel, whenever it returns, has written exactly `P` output cells,
each an 8-bit value: the first `P` cells of the output hold a byte, the cells past them and the
length of the output are as before, for one channel and for more alike; and with thresholding
enabled it does return on every fully written window of a supported geometry (1 or 3 channels,
1 or 2 bytes per sample) whose buffers hold `sizeInBytes` bytes. -/
theorem kernel_writes_pixel_count (fsqrt : ℚ → ℚ) (imgSize : ImgSize)
    (params : WeightedMovingVarianceParams) (hP : imgSize.numPixels < 2 ^ 32) (o : Buffer) :
    (∀ (cur prev1 prev2 out : Buffer),
      runKernel fsqrt imgSize params cur prev1 prev2 o = some out →
      out.length = o.length ∧
      (∀ i, i < imgSize.numPixels → ∃ v, out.get? i = some (some v) ∧ v ≤ 255) ∧
      out.drop imgSize.numPixels = o.drop imgSize.numPixels) ∧
    (∀ (cur prev1 prev2 : List Nat), params.enableThreshold = true →
      (imgSize.numChannels = 1 ∨ imgSize.numChannels = 3) →
      (imgSize.bytesPerPixel = 1 ∨ imgSize.bytesPerPixel = 2) →
      cur.length = imgSize.sizeInBytes → prev1.length = imgSize.sizeInBytes →
      prev2.length = imgSize.sizeInBytes → imgSize.numPixels ≤ o.length →
      ∃ out, runKernel fsqrt imgSize params (cur.map some) (prev1.map some) (prev2.map some) o
        = some out) := by
  have hmod : imgSize.numPixels % 2 ^ 64 = imgSize.numPixels :=
    Nat.mod_eq_of_lt (lt_trans hP (by norm_num))
  constructor
  · intro cur prev1 prev2 out h
    unfold runKernel at h
    rw [hmod] at h
    split at h
    · split at h
      · exact weightedVarianceMono_exact fsqrt _ _ _ o _ hP _ _ _ out h
      · exact weightedVarianceMono_exact fsqrt _ _ _ o _ hP _ _ _ out h
    · split at h
      · exact weightedVarianceColor_exact fsqrt _ _ _ o _ hP _ _ _ out h
      · exact weightedVarianceColor_exact fsqrt _ _ _ o _ hP _ _ _ out h
  · intro cur prev1 prev2 hen hch hbpp l1 l2 l3 lo
    have hmod32 : imgSize.numPixels % 2 ^ 32 = imgSize.numPixels := Nat.mod_eq_of_lt hP
    obtain ⟨e1, d1⟩ := asUInt16_map_some _ cur (Nat.le_refl _)
    obtain ⟨e2, d2⟩ := asUInt16_map_some _ prev1 (Nat.le_refl _)
    obtain ⟨e3, d3⟩ := asUInt16_map_some _ prev2 (Nat.le_refl _)
    simp only [ImgSize.sizeInBytes] at l1 l2 l3
    rcases hch with hc | hc <;> rcases hbpp with hb | hb
    · simp only [runKernel, hc, hb, if_true, weightedVarianceMono, hen, hmod, hmod32]
      rw [hc, hb] at l1 l2 l3
      exact ⟨_, calcWeightedVarianceMonoThreshold_eq cur prev1 prev2 o _ _ _ (by omega)
        (by omega) (by omega) lo⟩
    · simp only [runKernel, hc, hb, if_true, OfNat.ofNat_ne_one, if_false, weightedVarianceMono,
        hen, hmod, hmod32, e1, e2, e3]
      rw [hc, hb] at l1 l2 l3
      exact ⟨_, calcWeightedVarianceMonoThreshold_eq _ _ _ o _ _ _ (by omega) (by omega)
        (by omega) lo⟩
    · simp only [runKernel, hc, hb, if_true, OfNat.ofNat_ne_one, if_false,
        weightedVarianceColor, hen, hmod, hmod32]
      rw [hc, hb] at l1 l2 l3
      exact ⟨_, calcWeightedVarianceColorThreshold_eq cur prev1 prev2 o _ _ _
        (colorReadable_of_le _ _ (by omega)) (colorReadable_of_le _ _ (by omega))
        (colorReadable_of_le _ _ (by omega)) lo⟩
    · simp only [runKernel, hc, hb, OfNat.ofNat_ne_one, if_false, weightedVarianceColor, hen,
        if_true, hmod, hmod32, e1, e2, e3]
      rw [hc, hb] at l1 l2 l3
      exact ⟨_, calcWeightedVarianceColorThreshold_eq _ _ _ o _ _ _
        (colorReadable_of_le _ _ (by omega)) (colorReadable_of_le _ _ (by omega))
        (colorReadable_of_le _ _ (by omega)) lo⟩

theorem writeUChar_append (front rest : Buffer) (m v : Nat) :
    writeUChar (front ++ rest) (front.length + m) v
      = (writeUChar rest m v).map (fun r => front ++ r) := by
  unfold writeUChar
  by_cases h : m < rest.length
  · rw [if_pos (by simp; omega), if_pos h, List.set_append]
    simp
  · rw [if_neg (by simp; omega), if_neg h]
    rfl

theorem forLoop_write_split (px : Nat → Option Nat) (o : Buffer) (k : Nat) :
    ∀ m, forLoop (k + m) (fun i o => (px i).bind (writeUChar o i)) o
      = (forLoop k (fun i o => (px i).bind (writeUChar o i)) o).bind (fun first =>
          (forLoop m (fun i o => (px (k + i)).bind (writeUChar o i)) (o.drop k)).map
            (fun rest => first.take k ++ rest)) := by
  intro m
  induction m with
  | zero =>
    cases hf : forLoop k (fun i o => (px i).bind (writeUChar o i)) o with
    | none => simp [hf]
    | some first =>
      have ht := forLoop_write_tail px o k first hf
      simp only [Nat.add_zero, hf, Option.some_bind, forLoop, Option.map_some', ← ht,
        List.take_append_drop]
  | succ m ih =>
    rw [← Nat.add_assoc, forLoop_succ, ih, forLoop_succ]
    cases hf : forLoop k (fun i o => (px i).bind (writeUChar o i)) o with
    | none => rfl
    | some first =>
      obtain ⟨hk, hl, _⟩ := forLoop_write_inv px o k first hf
      simp only [Option.some_bind]
      cases forLoop m (fun i o => (px (k + i)).bind (writeUChar o i)) (o.drop k) with
      | none => rfl
      | some rest =>
        simp only [Option.map_some', Option.some_bind]
        cases px (k + m) with
        | none => rfl
        | some v =>
          simp only [Option.some_bind]
          have hlen : (first.take k).length = k := by
            rw [List.length_take]; omega
          have := writeUChar_append (first.take k) rest m v
          rw [hlen] at this
          exact this

theorem readSample_drop (p : List Cell) (k i : Nat) :
    readSample (p.drop k) i = readSample p (k + i) := by
  unfold readSample
  rw [List.get?_eq_getElem?, List.get?_eq_getElem?, List.getElem?_drop]

theorem pixelMono_drop (fsqrt : ℚ → ℚ) (i1 i2 i3 : List Cell) (weight : Fin 3 → ℚ) (k i : Nat) :
    pixelMono fsqrt (i1.drop k) (i2.drop k) (i3.drop k) weight i
      = pixelMono fsqrt i1 i2 i3 weight (k + i) := by
  simp only [pixelMono, readSample_drop]

theorem pixelMonoThreshold_drop (i1 i2 i3 : List Cell) (weight : Fin 3 → ℚ) (t : ℚ) (k i : Nat) :
    pixelMonoThreshold (i1.drop k) (i2.drop k) (i3.drop k) weight t i
      = pixelMonoThreshold i1 i2 i3 weight t (k + i) := by
  simp only [pixelMonoThreshold, readSample_drop]

theorem readPixel3_drop (p : List Cell) (k j : Nat) (h : 3 * (k + j) + 2 < 2 ^ 32) :
    readPixel3 (p.drop (3 * k)) (colorIndex j) = readPixel3 p (colorIndex (k + j)) := by
  have e0 : colorIndex j = 3 * j := Nat.mod_eq_of_lt (by omega)
  have e1 : colorIndex (k + j) = 3 * k + 3 * j := by
    unfold colorIndex; rw [Nat.mod_eq_of_lt (by omega)]; ring
  have a1 : (3 * j + 1) % 2 ^ 32 = 3 * j + 1 := Nat.mod_eq_of_lt (by omega)
  have a2 : (3 * j + 2) % 2 ^ 32 = 3 * j + 2 := Nat.mod_eq_of_lt (by omega)
  have b1 : (3 * k + 3 * j + 1) % 2 ^ 32 = 3 * k + (3 * j + 1) :=
    by rw [Nat.mod_eq_of_lt (by omega)]; ring
  have b2 : (3 * k + 3 * j + 2) % 2 ^ 32 = 3 * k + (3 * j + 2) :=
    by rw [Nat.mod_eq_of_lt (by omega)]; ring
  simp only [readPixel3, e0, e1, a1, a2, b1, b2, readSample_drop]

theorem pixelColor_drop (fsqrt : ℚ → ℚ) (i1 i2 i3 : List Cell) (weight : Fin 3 → ℚ) (k j : Nat)
    (h : 3 * (k + j) + 2 < 2 ^ 32) :
    pixelColor fsqrt (i1.drop (3 * k)) (i2.drop (3 * k)) (i3.drop (3 * k)) weight j
      = pixelColor fsqrt i1 i2 i3 weight (k + j) := by
  simp only [pixelColor, readPixel3_drop _ k j h]

theorem pixelColorThreshold_drop (i1 i2 i3 : List Cell) (weight : Fin 3 → ℚ) (t : ℚ)
    (k j : Nat) (h : 3 * (k + j) + 2 < 2 ^ 32) :
    pixelColorThreshold (i1.drop (3 * k)) (i2.drop (3 * k)) (i3.drop (3 * k)) weight t j
      = pixelColorThreshold i1 i2 i3 weight t (k + j) := by
  simp only [pixelColorThreshold, readPixel3_drop _ k j h]

/-- The split of a pixel loop, for a kernel whose pixel function on the advanced pointers is the
pixel function on the original ones at the shifted index. -/
theorem splitRun_eq (px : Nat → Option Nat) (pxRest : Nat → Option Nat) (o : Buffer)
    (n k : Nat) (hk : k ≤ n) (hshift : ∀ i, i < n - k → pxRest i = px (k + i)) :
    forLoop n (fun i o => (px i).bind (writeUChar o i)) o
      = (forLoop k (fun i o => (px i).bind (writeUChar o i)) o).bind (fun first =>
          (forLoop (n - k) (fun i o => (pxRest i).bind (writeUChar o i)) (o.drop k)).map
            (fun rest => first.take k ++ rest)) := by
  have hn : n = k + (n - k) := by omega
  rw [forLoop_congr (fun i o => (pxRest i).bind (writeUChar o i))
    (fun i o => (px (k + i)).bind (writeUChar o i)) (o.drop k) (n - k)
    (fun i t hi => by simp only [hshift i hi])]
  conv_lhs => rw [hn]
  exact forLoop_write_split px o k (n - k)

theorem readPixel3_same (p q : List Cell) (j : Nat) (hj : 3 * j + 2 < 2 ^ 32)
    (h : SamePixel 3 p q j) : readPixel3 p (colorIndex j) = readPixel3 q (colorIndex j) := by
  have e0 : colorIndex j = 3 * j := Nat.mod_eq_of_lt (by omega)
  have a1 : (3 * j + 1) % 2 ^ 32 = 3 * j + 1 := Nat.mod_eq_of_lt (by omega)
  have a2 : (3 * j + 2) % 2 ^ 32 = 3 * j + 2 := Nat.mod_eq_of_lt (by omega)
  have h0 := h 0 (by norm_num)
  have h1 := h 1 (by norm_num)
  have h2 := h 2 (by norm_num)
  rw [Nat.add_zero] at h0
  simp only [readPixel3, e0, a1, a2, h0, h1, h2]

theorem forLoop_write_same (px qx : Nat → Option Nat) (o o1 out out1 : Buffer) (n j : Nat)
    (hj : j < n) (hpx : px j = qx j)
    (h : forLoop n (fun i o => (px i).bind (writeUChar o i)) o = some out)
    (h1 : forLoop n (fun i o => (qx i).bind (writeUChar o i)) o1 = some out1) :
    out.get? j = out1.get? j := by
  obtain ⟨_, _, hp⟩ := forLoop_write_inv px o n out h
  obtain ⟨_, _, hq⟩ := forLoop_write_inv qx o1 n out1 h1
  obtain ⟨v, hv, hg⟩ := hp j hj
  obtain ⟨u, hu, hg1⟩ := hq j hj
  rw [hg, hg1]
  rw [hpx, hu] at hv
  rw [Option.some.inj hv]

/-- C15: for each of the four kernels, running it on the first `k` pixels and on the remaining
`n - k` pixels (pointers advanced by `k` pixels) and putting the two outputs one after the other
gives exactly the run on all `n` pixels, undefined cases included; and the cell written for
pixel `j` is the same for any two windows that hold the same samples at pixel `j`. For the colour
kernels this is within `3 * n ≤ 2^32`, the range in which their 32-bit sample index `j3` is
`3 * j`. -/
theorem kernel_split (fsqrt : ℚ → ℚ) (weight : Fin 3 → ℚ) (thresholdSquared : ℚ)
    (i1 i2 i3 : List Cell) (o : Buffer) (n k : Nat) (hk : k ≤ n) :
    calcWeightedVarianceMono fsqrt i1 i2 i3 o n weight
      = splitRun (fun a b c out m => calcWeightedVarianceMono fsqrt a b c out m weight)
          1 i1 i2 i3 o n k ∧
    calcWeightedVarianceMonoThreshold i1 i2 i3 o n weight thresholdSquared
      = splitRun (fun a b c out m =>
          calcWeightedVarianceMonoThreshold a b c out m weight thresholdSquared)
          1 i1 i2 i3 o n k ∧
    (3 * n ≤ 2 ^ 32 →
      calcWeightedVarianceColor fsqrt i1 i2 i3 o n weight
        = splitRun (fun a b c out m => calcWeightedVarianceColor fsqrt a b c out m weight)
            3 i1 i2 i3 o n k ∧
      calcWeightedVarianceColorThreshold i1 i2 i3 o n weight thresholdSquared
        = splitRun (fun a b c out m =>
            calcWeightedVarianceColorThreshold a b c out m weight thresholdSquared)
            3 i1 i2 i3 o n k) ∧
    (∀ (q1 q2 q3 : List Cell) (o1 out out1 : Buffer) (j : Nat), j < n →
      (SamePixel 1 i1 q1 j → SamePixel 1 i2 q2 j → SamePixel 1 i3 q3 j →
        (calcWeightedVarianceMono fsqrt i1 i2 i3 o n weight = some out →
          calcWeightedVarianceMono fsqrt q1 q2 q3 o1 n weight = some out1 →
          out.get? j = out1.get? j) ∧
        (calcWeightedVarianceMonoThreshold i1 i2 i3 o n weight thresholdSquared = some out →
          calcWeightedVarianceMonoThreshold q1 q2 q3 o1 n weight thresholdSquared = some out1 →
          out.get? j = out1.get? j)) ∧
      (3 * n ≤ 2 ^ 32 →
        SamePixel 3 i1 q1 j → SamePixel 3 i2 q2 j → SamePixel 3 i3 q3 j →
        (calcWeightedVarianceColor fsqrt i1 i2 i3 o n weight = some out →
          calcWeightedVarianceColor fsqrt q1 q2 q3 o1 n weight = some out1 →
          out.get? j = out1.get? j) ∧
        (calcWeightedVarianceColorThreshold i1 i2 i3 o n weight thresholdSquared = some out →
          calcWeightedVarianceColorThreshold q1 q2 q3 o1 n weight thresholdSquared
            = some out1 →
          out.get? j = out1.get? j))) := by
  refine ⟨?_, ?_, fun h3 => ⟨?_, ?_⟩, ?_⟩
  · simp only [splitRun, Nat.one_mul]
    exact splitRun_eq _ _ o n k hk (fun i _ => pixelMono_drop fsqrt i1 i2 i3 weight k i)
  · simp only [splitRun, Nat.one_mul]
    exact splitRun_eq _ _ o n k hk
      (fun i _ => pixelMonoThreshold_drop i1 i2 i3 weight thresholdSquared k i)
  · simp only [splitRun]
    exact splitRun_eq _ _ o n k hk
      (fun i hi => pixelColor_drop fsqrt i1 i2 i3 weight k i (by omega))
  · simp only [splitRun]
    exact splitRun_eq _ _ o n k hk
      (fun i hi => pixelColorThreshold_drop i1 i2 i3 weight thresholdSquared k i (by omega))
  · intro q1 q2 q3 o1 out out1 j hj
    constructor
    · intro s1 s2 s3
      have r1 := s1 0 (by norm_num)
      have r2 := s2 0 (by norm_num)
      have r3 := s3 0 (by norm_num)
      simp only [Nat.one_mul, Nat.add_zero] at r1 r2 r3
      constructor
      · intro h h1
        exact forLoop_write_same _ _ o o1 out out1 n j hj
          (by simp only [pixelMono, r1, r2, r3]) h h1
      · intro h h1
        exact forLoop_write_same _ _ o o1 out out1 n j hj
          (by simp only [pixelMonoThreshold, r1, r2, r3]) h h1
    · intro h3 s1 s2 s3
      have r1 := readPixel3_same i1 q1 j (by omega) s1
      have r2 := readPixel3_same i2 q2 j (by omega) s2
      have r3 := readPixel3_same i3 q3 j (by omega) s3
      constructor
      · intro h h1
        exact forLoop_write_same _ _ o o1 out out1 n j hj
          (by simp only [pixelColor, r1, r2, r3]) h h1
      · intro h h1
        exact forLoop_write_same _ _ o o1 out out1 n j hj
          (by simp only [pixelColorThreshold, r1, r2, r3]) h h1

/-- C15 (witness): a window of two mono pixels, or of two colour pixels of three samples each
(the buffers below serve both readings), split after the first pixel. -/
theorem kernel_split_witness :
    calcWeightedVarianceMonoThreshold [some 50, some 10, some 10, some 10, some 10, some 10]
        [some 10, some 10, some 10, some 10, some 10, some 10]
        [some 10, some 10, some 10, some 10, some 10, some 10] [none, none] 2 demoWeight 399
      = splitRun (fun a b c out m => calcWeightedVarianceMonoThreshold a b c out m demoWeight 399)
          1 [some 50, some 10, some 10, some 10, some 10, some 10]
          [some 10, some 10, some 10, some 10, some 10, some 10]
          [some 10, some 10, some 10, some 10, some 10, some 10] [none, none] 2 1 ∧
    calcWeightedVarianceColorThreshold [some 50, some 10, some 10, some 10, some 10, some 10]
        [some 10, some 10, some 10, some 10, some 10, some 10]
        [some 10, some 10, some 10, some 10, some 10, some 10] [none, none] 2 demoWeight 399
      = splitRun (fun a b c out m =>
          calcWeightedVarianceColorThreshold a b c out m demoWeight 399)
          3 [some 50, some 10, some 10, some 10, some 10, some 10]
          [some 10, some 10, some 10, some 10, some 10, some 10]
          [some 10, some 10, some 10, some 10, some 10, some 10] [none, none] 2 1 := by
  have h := kernel_split sqrtFloor demoWeight 399
    [some 50, some 10, some 10, some 10, some 10, some 10]
    [some 10, some 10, some 10, some 10, some 10, some 10]
    [some 10, some 10, some 10, some 10, some 10, some 10] [none, none] 2 1 (by norm_num)
  exact ⟨h.2.1, (h.2.2.1 (by norm_num)).2⟩

/-- C16 (witness): the 4×1 stream of the examples with an output of five cells: the mask takes
the first four, the fifth keeps its content. -/
theorem kernel_writes_pixel_count_witness :
    ∃ out, runKernel sqrtFloor demoSize demoParams [some 50, some 10, some 10, some 10]
        [some 10, some 10, some 10, some 10] [some 10, some 10, some 10, some 10]
        [none, none, none, none, some 7] = some out ∧
      out.length = 5 ∧ (∀ i, i < 4 → ∃ v, out.get? i = some (some v) ∧ v ≤ 255) ∧
      out.drop 4 = [some 7] := by
  have h := kernel_writes_pixel_count sqrtFloor demoSize demoParams (by decide)
    [none, none, none, none, some 7]
  obtain ⟨out, hout⟩ := h.2 [50, 10, 10, 10] [10, 10, 10, 10] [10, 10, 10, 10] rfl
    (Or.inl rfl) (Or.inl rfl) rfl rfl rfl (by decide)
  exact ⟨out, hout, h.1 _ _ _ out hout⟩

/-! ## The kernels in binary32 arithmetic: lemmas and theorems -/

theorem log2Fuel_spec : ∀ fuel n : Nat, n ≤ fuel → 0 < n →
    2 ^ log2Fuel fuel n ≤ n ∧ n < 2 ^ (log2Fuel fuel n + 1) := by
  intro fuel
  induction fuel with
  | zero => intro n h1 h2; omega
  | succ k ih =>
    intro n h1 h2
    unfold log2Fuel
    split
    · rename_i hlt
      constructor <;> norm_num <;> omega
    · rename_i hge
      obtain ⟨a, b⟩ := ih (n / 2) (by omega) (by omega)
      rw [pow_succ, pow_succ]
      constructor <;> omega

theorem abs_eq_natAbs_div_den (q : ℚ) : |q| = (q.num.natAbs : ℚ) / (q.den : ℚ) := by
  have h1 : |(q.num : ℚ)| = (q.num.natAbs : ℚ) := by
    rw [Nat.cast_natAbs, Int.cast_abs]
  conv_lhs => rw [← Rat.num_div_den q]
  rw [abs_div, Nat.abs_cast, h1]

theorem floorLog2_spec (q : ℚ) (hq : q ≠ 0) :
    (2 : ℚ) ^ floorLog2 q ≤ |q| ∧ |q| < (2 : ℚ) ^ (floorLog2 q + 1) := by
  have hn : 0 < q.num.natAbs := Int.natAbs_pos.mpr (Rat.num_ne_zero.mpr hq)
  have hd : 0 < q.den := q.den_pos
  obtain ⟨a1, a2⟩ := log2Fuel_spec _ _ (le_refl _) hn
  obtain ⟨b1, b2⟩ := log2Fuel_spec _ _ (le_refl _) hd
  have habs := abs_eq_natAbs_div_den q
  have hdq : (0 : ℚ) < (q.den : ℚ) := by exact_mod_cast hd
  have a1q : (2 : ℚ) ^ (log2Fuel q.num.natAbs q.num.natAbs) ≤ (q.num.natAbs : ℚ) := by
    exact_mod_cast a1
  have a2q : (q.num.natAbs : ℚ) < (2 : ℚ) ^ (log2Fuel q.num.natAbs q.num.natAbs + 1) := by
    exact_mod_cast a2
  have b1q : (2 : ℚ) ^ (log2Fuel q.den q.den) ≤ (q.den : ℚ) := by exact_mod_cast b1
  have b2q : (q.den : ℚ) < (2 : ℚ) ^ (log2Fuel q.den q.den + 1) := by exact_mod_cast b2
  generalize ha : log2Fuel q.num.natAbs q.num.natAbs = a at a1q a2q
  generalize hb : log2Fuel q.den q.den = b at b1q b2q
  have hlow : (2 : ℚ) ^ ((a : Int) - (b : Int) - 1) ≤ |q| := by
    rw [habs, le_div_iff₀ hdq]
    have e : (2 : ℚ) ^ ((a : Int) - (b : Int) - 1) * (2 : ℚ) ^ (b + 1) = (2 : ℚ) ^ a := by
      rw [← zpow_natCast, ← zpow_natCast, ← zpow_add₀ (by norm_num : (2 : ℚ) ≠ 0)]
      congr 1
      push_cast
      ring
    have hpos : (0 : ℚ) < (2 : ℚ) ^ ((a : Int) - (b : Int) - 1) := by positivity
    calc (2 : ℚ) ^ ((a : Int) - (b : Int) - 1) * (q.den : ℚ)
        ≤ (2 : ℚ) ^ ((a : Int) - (b : Int) - 1) * (2 : ℚ) ^ (b + 1) :=
          mul_le_mul_of_nonneg_left (le_of_lt b2q) (le_of_lt hpos)
      _ = (2 : ℚ) ^ a := e
      _ ≤ _ := a1q
  have hhigh : |q| < (2 : ℚ) ^ ((a : Int) - (b : Int) + 1) := by
    rw [habs, div_lt_iff₀ hdq]
    have e : (2 : ℚ) ^ ((a : Int) - (b : Int) + 1) * (2 : ℚ) ^ b = (2 : ℚ) ^ (a + 1) := by
      rw [← zpow_natCast, ← zpow_natCast, ← zpow_add₀ (by norm_num : (2 : ℚ) ≠ 0)]
      congr 1
      push_cast
      ring
    have hpos : (0 : ℚ) < (2 : ℚ) ^ ((a : Int) - (b : Int) + 1) := by positivity
    calc (q.num.natAbs : ℚ) < (2 : ℚ) ^ (a + 1) := a2q
      _ = (2 : ℚ) ^ ((a : Int) - (b : Int) + 1) * (2 : ℚ) ^ b := e.symm
      _ ≤ _ := mul_le_mul_of_nonneg_left b1q (le_of_lt hpos)
  unfold floorLog2
  simp only [ha, hb]
  split
  · rename_i h
    exact ⟨h, hhigh⟩
  · rename_i h
    refine ⟨hlow, ?_⟩
    rw [sub_add_cancel]
    exact not_le.mp h

theorem floorLog2_unique (q : ℚ) (e : Int) (h1 : (2 : ℚ) ^ e ≤ |q|)
    (h2 : |q| < (2 : ℚ) ^ (e + 1)) : floorLog2 q = e := by
  have hq : q ≠ 0 := by
    intro h0
    rw [h0, abs_zero] at h1
    have : (0 : ℚ) < (2 : ℚ) ^ e := by positivity
    linarith
  obtain ⟨s1, s2⟩ := floorLog2_spec q hq
  have l1 : (2 : ℚ) ^ e < (2 : ℚ) ^ (floorLog2 q + 1) := lt_of_le_of_lt h1 s2
  have l2 : (2 : ℚ) ^ floorLog2 q < (2 : ℚ) ^ (e + 1) := lt_of_le_of_lt s1 h2
  have k1 := (zpow_lt_zpow_iff_right₀ (by norm_num : (1 : ℚ) < 2)).mp l1
  have k2 := (zpow_lt_zpow_iff_right₀ (by norm_num : (1 : ℚ) < 2)).mp l2
  omega

theorem roundHalfEven_intCast (n : Int) : roundHalfEven (n : ℚ) = n := by
  unfold roundHalfEven
  simp

theorem roundHalfEven_bounds (x : ℚ) : ⌊x⌋ ≤ roundHalfEven x ∧ roundHalfEven x ≤ ⌈x⌉ := by
  have hce : ⌊x⌋ ≤ ⌈x⌉ := Int.floor_le_ceil x
  have hup : (⌊x⌋ : ℚ) < x → ⌊x⌋ + 1 ≤ ⌈x⌉ := fun h => Int.add_one_le_iff.mpr (Int.lt_ceil.mpr h)
  unfold roundHalfEven
  simp only
  split_ifs with h1 h2 h3
  · exact ⟨le_refl _, hce⟩
  · exact ⟨by omega, hup (by linarith)⟩
  · exact ⟨le_refl _, hce⟩
  · exact ⟨by omega, hup (by linarith)⟩

theorem roundHalfEven_abs_le (x : ℚ) (N : Int) (h : |x| ≤ (N : ℚ)) :
    |(roundHalfEven x : ℚ)| ≤ (N : ℚ) := by
  obtain ⟨b1, b2⟩ := roundHalfEven_bounds x
  obtain ⟨h1, h2⟩ := abs_le.mp h
  have c1 : -N ≤ ⌊x⌋ := Int.le_floor.mpr (by push_cast; exact h1)
  have c2 : ⌈x⌉ ≤ N := Int.ceil_le.mpr h2
  rw [abs_le]
  constructor
  · exact_mod_cast (by omega : -N ≤ roundHalfEven x)
  · exact_mod_cast (by omega : roundHalfEven x ≤ N)

theorem two_zpow_pos (e : Int) : (0 : ℚ) < (2 : ℚ) ^ e := by positivity

theorem two_zpow_ne (e : Int) : (2 : ℚ) ^ e ≠ 0 := ne_of_gt (two_zpow_pos e)

theorem two_zpow_eq_intCast (e : Int) (he : 0 ≤ e) :
    (2 : ℚ) ^ e = (((2 : Int) ^ e.toNat : Int) : ℚ) := by
  conv_lhs => rw [← Int.toNat_of_nonneg he]
  rw [zpow_natCast]
  push_cast
  rfl

theorem roundToGrid_exact (q : ℚ) (n : Int) (h : q = (n : ℚ) * (2 : ℚ) ^ ulpExponent q) :
    roundToGrid q = q := by
  unfold roundToGrid
  have e : q / (2 : ℚ) ^ ulpExponent q = (n : ℚ) := by
    rw [div_eq_iff (two_zpow_ne _)]
    exact h
  rw [e, roundHalfEven_intCast]
  exact h.symm

theorem roundToGrid_zero : roundToGrid 0 = 0 := by
  unfold roundToGrid
  rw [zero_div]
  have : roundHalfEven 0 = 0 := by
    have := roundHalfEven_intCast 0
    simpa using this
  rw [this]
  simp

theorem floorLog2_le (q : ℚ) (B : Int) (hq : q ≠ 0) (hB : |q| ≤ (2 : ℚ) ^ B) :
    floorLog2 q ≤ B := by
  obtain ⟨s1, _⟩ := floorLog2_spec q hq
  exact (zpow_le_zpow_iff_right₀ (by norm_num : (1 : ℚ) < 2)).mp (le_trans s1 hB)

theorem ulpExponent_le (q : ℚ) (B : Int) (hq : q ≠ 0) (hB : |q| ≤ (2 : ℚ) ^ B)
    (hB0 : -149 ≤ B) : ulpExponent q ≤ B := by
  have := floorLog2_le q B hq hB
  unfold ulpExponent
  omega

theorem roundToGrid_abs_le (q : ℚ) (B : Int) (hq : q ≠ 0) (hB : |q| ≤ (2 : ℚ) ^ B)
    (hB0 : -149 ≤ B) : |roundToGrid q| ≤ (2 : ℚ) ^ B := by
  have hp := ulpExponent_le q B hq hB hB0
  have hpos := two_zpow_pos (ulpExponent q)
  have hN : (2 : ℚ) ^ (B - ulpExponent q)
      = (((2 : Int) ^ (B - ulpExponent q).toNat : Int) : ℚ) :=
    two_zpow_eq_intCast _ (by omega)
  have hsplit : (2 : ℚ) ^ B = (2 : ℚ) ^ (B - ulpExponent q) * (2 : ℚ) ^ ulpExponent q := by
    rw [← zpow_add₀ (by norm_num : (2 : ℚ) ≠ 0)]
    congr 1
    ring
  have hx : |q / (2 : ℚ) ^ ulpExponent q| ≤ (((2 : Int) ^ (B - ulpExponent q).toNat : Int) : ℚ) := by
    rw [abs_div, abs_of_pos hpos, div_le_iff₀ hpos, ← hN, ← hsplit]
    exact hB
  have hm := roundHalfEven_abs_le _ _ hx
  unfold roundToGrid
  rw [abs_mul, abs_of_pos hpos, hsplit, hN]
  exact mul_le_mul_of_nonneg_right hm (le_of_lt hpos)

theorem roundF32_of_bound (q : ℚ) (B : Int) (hB : |q| ≤ (2 : ℚ) ^ B) (hB0 : -149 ≤ B)
    (hB1 : B ≤ 127) : roundF32 q = F32.finite (roundToGrid q) := by
  unfold roundF32
  by_cases hq : q = 0
  · rw [if_pos hq, hq, roundToGrid_zero]
  · rw [if_neg hq]
    have hr := roundToGrid_abs_le q B hq hB hB0
    have hlt : (2 : ℚ) ^ B < (2 : ℚ) ^ (128 : Nat) := by
      rw [← zpow_natCast]
      exact (zpow_lt_zpow_iff_right₀ (by norm_num : (1 : ℚ) < 2)).mpr (by push_cast; omega)
    obtain ⟨r1, r2⟩ := abs_le.mp hr
    rw [if_neg (by linarith), if_neg (by linarith)]

theorem roundToGrid_onGrid (q : ℚ) (g : Nat) (n : Int)
    (hq : q = (n : ℚ) / (2 : ℚ) ^ g) : ∃ k : Int, roundToGrid q = (k : ℚ) / (2 : ℚ) ^ g := by
  have hgpos : (0 : ℚ) < (2 : ℚ) ^ g := by positivity
  by_cases hp : -(g : Int) ≤ ulpExponent q
  · refine ⟨roundHalfEven (q / (2 : ℚ) ^ ulpExponent q) * (2 : Int) ^ (ulpExponent q + g).toNat, ?_⟩
    unfold roundToGrid
    rw [eq_div_iff (ne_of_gt hgpos)]
    push_cast
    rw [mul_assoc]
    congr 1
    have h1 := two_zpow_eq_intCast (ulpExponent q + g) (by omega)
    push_cast at h1
    rw [← h1, ← zpow_natCast, ← zpow_add₀ (by norm_num : (2 : ℚ) ≠ 0)]
  · refine ⟨n, ?_⟩
    have hlow : -149 ≤ ulpExponent q := by unfold ulpExponent; omega
    rw [roundToGrid_exact q (n * (2 : Int) ^ (-(g : Int) - ulpExponent q).toNat) ?_]
    · exact hq
    · have h1 := two_zpow_eq_intCast (-(g : Int) - ulpExponent q) (by omega)
      push_cast at h1
      push_cast
      rw [← h1, mul_assoc, ← zpow_add₀ (by norm_num : (2 : ℚ) ≠ 0)]
      rw [hq, div_eq_mul_inv, ← zpow_natCast, ← zpow_neg]
      congr 2
      ring

theorem floorLog2_scale (q : ℚ) (s : Nat) (hq : q ≠ 0) :
    floorLog2 ((2 : ℚ) ^ s * q) = floorLog2 q + s := by
  obtain ⟨s1, s2⟩ := floorLog2_spec q hq
  have hpos : (0 : ℚ) < (2 : ℚ) ^ s := by positivity
  apply floorLog2_unique
  · rw [abs_mul, abs_of_pos hpos, zpow_add₀ (by norm_num : (2 : ℚ) ≠ 0), zpow_natCast, mul_comm]
    exact mul_le_mul_of_nonneg_left s1 (le_of_lt hpos)
  · rw [abs_mul, abs_of_pos hpos,
      show floorLog2 q + (s : Int) + 1 = (floorLog2 q + 1) + (s : Int) by ring,
      zpow_add₀ (by norm_num : (2 : ℚ) ≠ 0), zpow_natCast, mul_comm]
    exact mul_lt_mul_of_pos_right s2 hpos

theorem roundToGrid_scale (q : ℚ) (s : Nat) (n : Int) (hq : q = (n : ℚ) / (2 : ℚ) ^ (149 : Nat)) :
    roundToGrid ((2 : ℚ) ^ s * q) = (2 : ℚ) ^ s * roundToGrid q := by
  by_cases h0 : q = 0
  · rw [h0, mul_zero, roundToGrid_zero, mul_zero]
  have hspos : (0 : ℚ) < (2 : ℚ) ^ s := by positivity
  have hsq : (2 : ℚ) ^ s * q ≠ 0 := mul_ne_zero (ne_of_gt hspos) h0
  have hfl := floorLog2_scale q s h0
  by_cases hnorm : -126 ≤ floorLog2 q
  · have hp : ulpExponent ((2 : ℚ) ^ s * q) = ulpExponent q + s := by
      unfold ulpExponent
      rw [hfl]
      omega
    unfold roundToGrid
    rw [hp, zpow_add₀ (by norm_num : (2 : ℚ) ≠ 0), zpow_natCast]
    have e : (2 : ℚ) ^ s * q / ((2 : ℚ) ^ ulpExponent q * (2 : ℚ) ^ s)
        = q / (2 : ℚ) ^ ulpExponent q := by
      field_simp
      ring
    rw [e]
    ring
  · have hp : ulpExponent q = -149 := by
      unfold ulpExponent
      omega
    have hq' : q = (n : ℚ) * (2 : ℚ) ^ ulpExponent q := by
      rw [hp, hq, div_eq_mul_inv, ← zpow_natCast, ← zpow_neg]
      rfl
    rw [roundToGrid_exact q n hq']
    have hp2 : -149 ≤ ulpExponent ((2 : ℚ) ^ s * q) ∧
        ulpExponent ((2 : ℚ) ^ s * q) ≤ (s : Int) - 149 := by
      unfold ulpExponent
      rw [hfl]
      omega
    refine roundToGrid_exact _
      (n * (2 : Int) ^ ((s : Int) - 149 - ulpExponent ((2 : ℚ) ^ s * q)).toNat) ?_
    have h1 := two_zpow_eq_intCast ((s : Int) - 149 - ulpExponent ((2 : ℚ) ^ s * q)) (by omega)
    push_cast at h1
    push_cast
    rw [← h1, mul_assoc, ← zpow_add₀ (by norm_num : (2 : ℚ) ≠ 0)]
    rw [show (s : Int) - 149 - ulpExponent ((2 : ℚ) ^ s * q) + ulpExponent ((2 : ℚ) ^ s * q)
      = (s : Int) + (-149) by ring, zpow_add₀ (by norm_num : (2 : ℚ) ≠ 0), zpow_natCast, hq]
    have e149 : (2 : ℚ) ^ (-149 : Int) = ((2 : ℚ) ^ (149 : Nat))⁻¹ := by
      rw [zpow_neg]
      norm_cast
    rw [e149]
    ring

theorem roundF32_exact (n : Int) (g : Nat) (hg : g ≤ 149)
    (hn : |(n : ℚ)| < (2 : ℚ) ^ (24 : Nat)) :
    roundF32 ((n : ℚ) / (2 : ℚ) ^ g) = F32.finite ((n : ℚ) / (2 : ℚ) ^ g) := by
  have hgpos : (0 : ℚ) < (2 : ℚ) ^ g := by positivity
  have hg1 : (1 : ℚ) ≤ (2 : ℚ) ^ g := one_le_pow₀ (by norm_num)
  generalize hq : (n : ℚ) / (2 : ℚ) ^ g = q
  have habs : |q| = |(n : ℚ)| / (2 : ℚ) ^ g := by
    rw [← hq, abs_div, abs_of_pos hgpos]
  have hlt : |q| < (2 : ℚ) ^ ((24 : Int) - (g : Int)) := by
    rw [habs, div_lt_iff₀ hgpos, ← zpow_natCast (2 : ℚ) g,
      ← zpow_add₀ (by norm_num : (2 : ℚ) ≠ 0), sub_add_cancel]
    exact_mod_cast hn
  have hle : |q| ≤ (2 : ℚ) ^ (24 : Int) := by
    rw [habs]
    have h24 : (2 : ℚ) ^ (24 : Int) = (2 : ℚ) ^ (24 : Nat) := by norm_cast
    rw [h24]
    exact le_trans (div_le_self (abs_nonneg _) hg1) (le_of_lt hn)
  rw [roundF32_of_bound q 24 hle (by norm_num) (by norm_num)]
  congr 1
  by_cases h0 : q = 0
  · rw [h0, roundToGrid_zero]
  obtain ⟨s1, _⟩ := floorLog2_spec q h0
  have he : floorLog2 q < 24 - (g : Int) :=
    (zpow_lt_zpow_iff_right₀ (by norm_num : (1 : ℚ) < 2)).mp (lt_of_le_of_lt s1 hlt)
  have hp : ulpExponent q ≤ -(g : Int) := by
    unfold ulpExponent
    omega
  refine roundToGrid_exact q (n * (2 : Int) ^ (-(g : Int) - ulpExponent q).toNat) ?_
  have h1 := two_zpow_eq_intCast (-(g : Int) - ulpExponent q) (by omega)
  push_cast at h1
  push_cast
  rw [← h1, mul_assoc, ← zpow_add₀ (by norm_num : (2 : ℚ) ≠ 0)]
  rw [← hq, div_eq_mul_inv, ← zpow_natCast, ← zpow_neg]
  congr 2
  ring

theorem f32_mul_comm (a b : F32) : a * b = b * a := by
  show F32.mul a b = F32.mul b a
  cases a <;> cases b <;> simp [F32.mul, mul_comm]

theorem binary32_monoResult_eq (weight : Fin 3 → F32) (d0 d1 d2 : F32) :
    binary32.monoResult weight d0 d1 d2
      = binary32.specVariance (weight 0) (weight 1) (weight 2) d0 d1 d2 := by
  simp only [binary32.monoResult, binary32.specVariance]
  generalize d0 * weight 0 + d1 * weight 1 + d2 * weight 2 = mean
  rw [f32_mul_comm ((d0 - mean) * (d0 - mean)), f32_mul_comm ((d1 - mean) * (d1 - mean)),
    f32_mul_comm ((d2 - mean) * (d2 - mean))]

theorem binary32_pixelMonoThreshold_of_lt (cur prev1 prev2 : List Nat) (weight : Fin 3 → F32)
    (thresholdSquared : F32) (i : Nat) (h1 : i < cur.length) (h2 : i < prev1.length)
    (h3 : i < prev2.length) :
    binary32.pixelMonoThreshold (cur.map some) (prev1.map some) (prev2.map some) weight
        thresholdSquared i
      = some (binary32.specMask (binary32.monoResult weight (F32.ofSample (cur.getD i 0))
          (F32.ofSample (prev1.getD i 0)) (F32.ofSample (prev2.getD i 0))) thresholdSquared) := by
  simp [binary32.pixelMonoThreshold, readSample_of_lt, h1, h2, h3, binary32.specMask, UCHAR_MAX,
    ZERO_UC]

/-- C5 (counterexample): with the weights `0.5f`, `0.3f`, `0.2f` the exact value of the formula
and the value the kernel computes in `float` fall on different sides of a threshold. For the
samples 7, 7, 7 and `thresholdSquared = 1e-13f` the exact variance is below the threshold (the
claim gives 0) and the kernel stores 255; for the samples 11, 43, 18 and the threshold
`195.99998f` the exact variance is above the threshold (the claim gives 255) and the kernel
stores 0. -/
theorem mono_threshold_exact_formula_fails :
    binary32.demoWeight = ![F32.finite (1 / 2), F32.finite (5033165 / 16777216),
      F32.finite (13421773 / 67108864)] ∧
    (roundF32 (1 / 10 ^ 13) = F32.finite (14757395 / 147573952589676412928) ∧
      specMask (specVariance (1 / 2) (5033165 / 16777216) (13421773 / 67108864) 7 7 7)
        (14757395 / 147573952589676412928) = 0 ∧
      binary32.weightedVarianceMono sqrtFloor [some 7] [some 7] [some 7] [none] 1
        binary32.demoWeight true (roundF32 (1 / 10 ^ 13)) = some [some 255]) ∧
    (roundF32 (12845055 / 65536) = F32.finite (12845055 / 65536) ∧
      specMask (specVariance (1 / 2) (5033165 / 16777216) (13421773 / 67108864) 11 43 18)
        (12845055 / 65536) = 255 ∧
      binary32.weightedVarianceMono sqrtFloor [some 11] [some 43] [some 18] [none] 1
        binary32.demoWeight true (F32.finite (12845055 / 65536)) = some [some 0]) := by
  refine ⟨by decide!, ⟨by decide!, by decide!, by decide!⟩, by decide!, by decide!, by decide!⟩

/-- C5 (amended): with thresholding enabled the mono kernel (8-bit or 16-bit samples alike)
stores at each pixel `255` when the `float` value of
`w0*(current-mean)^2 + w1*(prev1-mean)^2 + w2*(prev2-mean)^2`, with
`mean = current*w0 + prev1*w1 + prev2*w2` and every product, sum and difference rounded to
binary32, exceeds `thresholdSquared`, and `0` otherwise: `weight[0]` goes with the newest
sample, `weight[1]` with previous-1, `weight[2]` with previous-2, and the variance itself (no
square root) is compared. Cells of the output past the pixel count are left as they were. -/
theorem mono_threshold_formula (fsqrt : ℚ → ℚ) (cur prev1 prev2 : List Nat) (o : Buffer)
    (totalPixels : Nat) (weight : Fin 3 → F32) (thresholdSquared : F32)
    (hn : totalPixels < 2 ^ 32) (h1 : totalPixels ≤ cur.length)
    (h2 : totalPixels ≤ prev1.length) (h3 : totalPixels ≤ prev2.length)
    (ho : totalPixels ≤ o.length) :
    binary32.weightedVarianceMono fsqrt (cur.map some) (prev1.map some) (prev2.map some) o
        totalPixels weight true thresholdSquared
      = some ((List.range totalPixels).map (fun i => some (binary32.specMask
          (binary32.specVariance (weight 0) (weight 1) (weight 2)
            (F32.ofSample (cur.getD i 0)) (F32.ofSample (prev1.getD i 0))
            (F32.ofSample (prev2.getD i 0))) thresholdSquared))
          ++ o.drop totalPixels) := by
  simp only [binary32.weightedVarianceMono, if_true, Nat.mod_eq_of_lt hn,
    binary32.calcWeightedVarianceMonoThreshold]
  rw [forLoop_write _ _ o totalPixels ho (fun i hi =>
    binary32_pixelMonoThreshold_of_lt cur prev1 prev2 weight thresholdSquared i (by omega)
      (by omega) (by omega))]
  simp only [binary32_monoResult_eq]

/-- C5 (witness): the samples 0, 100, 10 and 10, 10, 10 of two pixels with the weights `0.5f`,
`0.3f`, `0.2f` and the threshold 1996: the `float` variances are 1996.00012 and 0, the mask is
255, 0, and the third output cell is left alone. -/
theorem mono_threshold_formula_witness :
    binary32.weightedVarianceMono sqrtFloor [some 0, some 10] [some 100, some 10]
        [some 10, some 10] [none, none, some 7] 2 binary32.demoWeight true (F32.finite 1996)
      = some [some 255, some 0, some 7] := by
  have h := mono_threshold_formula sqrtFloor [0, 10] [100, 10] [10, 10] [none, none, some 7] 2
    binary32.demoWeight (F32.finite 1996) (by norm_num) (by simp) (by simp) (by simp) (by simp)
  rw [show ([0, 10] : List Nat).map some = [some 0, some 10] from rfl,
    show ([100, 10] : List Nat).map some = [some 100, some 10] from rfl,
    show ([10, 10] : List Nat).map some = [some 10, some 10] from rfl] at h
  rw [h]
  decide!

theorem binary32_readPixel3_of_readable (p : List Nat) (n j : Nat) (h : ColorReadable p n)
    (hj : j < n) :
    binary32.readPixel3 (p.map some) (colorIndex j) = some (binary32.pixel3At p j) := by
  have h0 := h j hj 0 (by norm_num)
  have h1 := h j hj 1 (by norm_num)
  have h2 := h j hj 2 (by norm_num)
  have e0 : (colorIndex j + 0) % 2 ^ 32 = colorIndex j := Nat.mod_eq_of_lt (colorIndex_lt j)
  rw [e0] at h0
  simp only [binary32.readPixel3, readSample_of_lt _ _ h0, readSample_of_lt _ _ h1,
    readSample_of_lt _ _ h2, Option.bind_eq_bind, Option.some_bind, binary32.pixel3At, channelAt,
    e0]

theorem binary32_colorChannelResult_eq (weight : Fin 3 → F32) (c1 c2 c3 : F32) :
    binary32.colorChannelResult weight c1 c2 c3
      = binary32.anomalousVariance (weight 0) (weight 1) (weight 2) c1 c2 c3 := by
  simp only [binary32.colorChannelResult, binary32.anomalousVariance]
  generalize c1 * weight 0 + c2 * weight 1 + c3 * weight 2 = mean
  rw [f32_mul_comm ((c1 - mean) * (c1 - mean)) (weight 0),
    f32_mul_comm ((c2 - mean) * (c2 - mean)) (weight 1),
    f32_mul_comm ((c2 - mean) * (c2 - mean)) (weight 2)]

theorem binary32_pixelColorThreshold_of_readable (cur prev1 prev2 : List Nat) (n : Nat)
    (weight : Fin 3 → F32) (thresholdSquared : F32) (j : Nat) (hj : j < n)
    (h1 : ColorReadable cur n) (h2 : ColorReadable prev1 n) (h3 : ColorReadable prev2 n) :
    binary32.pixelColorThreshold (cur.map some) (prev1.map some) (prev2.map some) weight
        thresholdSquared j
      = some (binary32.specMask (binary32.colorThresholdResult weight (binary32.pixel3At cur j)
          (binary32.pixel3At prev1 j) (binary32.pixel3At prev2 j)) thresholdSquared) := by
  simp [binary32.pixelColorThreshold, binary32_readPixel3_of_readable _ n j h1 hj,
    binary32_readPixel3_of_readable _ n j h2 hj, binary32_readPixel3_of_readable _ n j h3 hj,
    binary32.specMask, UCHAR_MAX, ZERO_UC]

/-- C7 (counterexample): for the grey pixel 0 / 6 / 21 (current, previous-1, previous-2 in all
three channels), the weights `0.5f`, `0.3f`, `0.2f` and the threshold `18.0000019f`, the exact
value of `0.299*v_0 + 0.587*v_1 + 0.114*v_2` is below the threshold (the claim gives 0), while
the kernel, whose `float` result is 18.0000038, stores 255. -/
theorem color_threshold_exact_formula_fails :
    binary32.demoWeight = ![F32.finite (1 / 2), F32.finite (5033165 / 16777216),
      F32.finite (13421773 / 67108864)] ∧
    roundF32 (9437185 / 524288) = F32.finite (9437185 / 524288) ∧
    specMask
      (0.299 * anomalousVariance (1 / 2) (5033165 / 16777216) (13421773 / 67108864) 0 6 21
        + 0.587 * anomalousVariance (1 / 2) (5033165 / 16777216) (13421773 / 67108864) 0 6 21
        + 0.114 * anomalousVariance (1 / 2) (5033165 / 16777216) (13421773 / 67108864) 0 6 21)
      (9437185 / 524288) = 0 ∧
    binary32.weightedVarianceColor sqrtFloor [some 0, some 0, some 0] [some 6, some 6, some 6]
        [some 21, some 21, some 21] [none] 1 binary32.demoWeight true
        (F32.finite (9437185 / 524288)) = some [some 255] := by
  refine ⟨by decide!, by decide!, ?_, by decide!⟩
  norm_num [specMask, anomalousVariance]

/-- C7 (amended): with thresholding enabled the colour kernel forms, for every channel `c` of a
pixel, the mean `m_c = cur_c*w0 + prev1_c*w1 + prev2_c*w2` and the sum
`v_c = w0*(cur_c-m_c)^2 + w1*(prev1_c-m_c)^2 + w2*(prev1_c-m_c)^2`, whose third term uses the
previous-1 sample, and stores `255` exactly when `0.299f*v_0 + 0.587f*v_1 + 0.114f*v_2` exceeds
`thresholdSquared`, `0` otherwise, every product, sum and difference being a `float` operation
rounded to binary32. -/
theorem color_threshold_formula (fsqrt : ℚ → ℚ) (cur prev1 prev2 : List Nat) (o : Buffer)
    (totalPixels : Nat) (weight : Fin 3 → F32) (thresholdSquared : F32)
    (hn : totalPixels < 2 ^ 32) (h1 : ColorReadable cur totalPixels)
    (h2 : ColorReadable prev1 totalPixels) (h3 : ColorReadable prev2 totalPixels)
    (ho : totalPixels ≤ o.length) :
    binary32.weightedVarianceColor fsqrt (cur.map some) (prev1.map some) (prev2.map some) o
        totalPixels weight true thresholdSquared
      = some ((List.range totalPixels).map (fun j => some (binary32.specMask
          (binary32.lumaR * binary32.anomalousVariance (weight 0) (weight 1) (weight 2)
              (F32.ofSample (channelAt cur j 0)) (F32.ofSample (channelAt prev1 j 0))
              (F32.ofSample (channelAt prev2 j 0))
            + binary32.lumaG * binary32.anomalousVariance (weight 0) (weight 1) (weight 2)
              (F32.ofSample (channelAt cur j 1)) (F32.ofSample (channelAt prev1 j 1))
              (F32.ofSample (channelAt prev2 j 1))
            + binary32.lumaB * binary32.anomalousVariance (weight 0) (weight 1) (weight 2)
              (F32.ofSample (channelAt cur j 2)) (F32.ofSample (channelAt prev1 j 2))
              (F32.ofSample (channelAt prev2 j 2)))
          thresholdSquared)) ++ o.drop totalPixels) := by
  simp only [binary32.weightedVarianceColor, if_true, Nat.mod_eq_of_lt hn,
    binary32.calcWeightedVarianceColorThreshold]
  rw [forLoop_write _ _ o totalPixels ho (fun j hj =>
    binary32_pixelColorThreshold_of_readable cur prev1 prev2 totalPixels weight thresholdSquared
      j hj h1 h2 h3)]
  simp only [binary32.colorThresholdResult, binary32_colorChannelResult_eq, binary32.pixel3At]

/-- C7 (witness): one colour pixel whose first channel is 50, 10, 90 in the current, previous-1
and previous-2 views: the sum formed with the previous-1 sample in third position gives about
0.299 * 656 = 196.144, below the threshold 200, so the mask is 0. -/
theorem color_threshold_formula_witness :
    binary32.weightedVarianceColor sqrtFloor [some 50, some 10, some 10]
        [some 10, some 10, some 10] [some 90, some 10, some 10] [none, some 7] 1
        binary32.demoWeight true (F32.finite 200)
      = some [some 0, some 7] := by
  have h := color_threshold_formula sqrtFloor [50, 10, 10] [10, 10, 10] [90, 10, 10]
    [none, some 7] 1 binary32.demoWeight (F32.finite 200) (by norm_num)
    (colorReadable_of_length _ _ (by simp) (by norm_num))
    (colorReadable_of_length _ _ (by simp) (by norm_num))
    (colorReadable_of_length _ _ (by simp) (by norm_num)) (by simp)
  rw [show ([50, 10, 10] : List Nat).map some = [some 50, some 10, some 10] from rfl,
    show ([10, 10, 10] : List Nat).map some = [some 10, some 10, some 10] from rfl,
    show ([90, 10, 10] : List Nat).map some = [some 90, some 10, some 10] from rfl] at h
  rw [h]
  decide!

theorem binary32_scenario_variances :
    binary32.monoResult binary32.demoWeight (F32.ofSample 50) (F32.ofSample 10) (F32.ofSample 10)
      = F32.finite 400 ∧
    binary32.monoResult binary32.demoWeight (F32.ofSample 10) (F32.ofSample 10) (F32.ofSample 10)
      = F32.finite 0 := by
  refine ⟨by decide!, by decide!⟩

theorem roundF32_zero : roundF32 0 = F32.finite 0 := by
  unfold roundF32
  rw [if_pos rfl]

theorem f32_finite_mul (a b : ℚ) : F32.finite a * F32.finite b = roundF32 (a * b) := rfl

theorem f32_finite_add (a b : ℚ) : F32.finite a + F32.finite b = roundF32 (a + b) := rfl

theorem f32_finite_sub (a b : ℚ) : F32.finite a - F32.finite b = roundF32 (a + -b) := rfl

theorem infinityTimes_ne_finite (p : Bool) (x q : ℚ) : infinityTimes p x ≠ F32.finite q := by
  unfold infinityTimes
  split_ifs <;> exact F32.noConfusion

theorem f32_mul_eq_finite (a b : F32) (q : ℚ) (h : a * b = F32.finite q) :
    (∃ x, a = F32.finite x) ∧ (∃ y, b = F32.finite y) := by
  change F32.mul a b = F32.finite q at h
  cases a <;> cases b <;> simp only [F32.mul] at h <;>
    first
    | exact ⟨⟨_, rfl⟩, ⟨_, rfl⟩⟩
    | exact absurd h (infinityTimes_ne_finite _ _ _)
    | exact F32.noConfusion h

theorem f32_add_eq_finite (a b : F32) (q : ℚ) (h : a + b = F32.finite q) :
    (∃ x, a = F32.finite x) ∧ (∃ y, b = F32.finite y) := by
  change F32.add a b = F32.finite q at h
  cases a <;> cases b <;> simp only [F32.add] at h <;>
    first
    | exact ⟨⟨_, rfl⟩, ⟨_, rfl⟩⟩
    | exact F32.noConfusion h

theorem ofSample_finite (v : Nat) (hv : v ≤ 65535) : ∃ q, F32.ofSample v = F32.finite q := by
  refine ⟨_, roundF32_of_bound (v : ℚ) 16 ?_ (by norm_num) (by norm_num)⟩
  rw [abs_of_nonneg (by positivity)]
  have : (v : ℚ) ≤ 65535 := by exact_mod_cast hv
  norm_num
  linarith

theorem meanIsValue_weights (weight : Fin 3 → F32) (v : Nat) (hv : v ≤ 65535)
    (h : binary32.MeanIsValue weight v) :
    ∃ q x0 x1 x2, F32.ofSample v = F32.finite q ∧ weight 0 = F32.finite x0 ∧
      weight 1 = F32.finite x1 ∧ weight 2 = F32.finite x2 := by
  obtain ⟨q, hq⟩ := ofSample_finite v hv
  unfold binary32.MeanIsValue at h
  rw [hq] at h
  obtain ⟨⟨s01, hs01⟩, ⟨p2, hp2⟩⟩ := f32_add_eq_finite _ _ _ h
  obtain ⟨⟨p0, hp0⟩, ⟨p1, hp1⟩⟩ := f32_add_eq_finite _ _ _ hs01
  obtain ⟨_, ⟨x0, h0⟩⟩ := f32_mul_eq_finite _ _ _ hp0
  obtain ⟨_, ⟨x1, h1⟩⟩ := f32_mul_eq_finite _ _ _ hp1
  obtain ⟨_, ⟨x2, h2⟩⟩ := f32_mul_eq_finite _ _ _ hp2
  exact ⟨q, x0, x1, x2, hq, h0, h1, h2⟩

theorem binary32_monoResult_same (weight : Fin 3 → F32) (v : Nat) (hv : v ≤ 65535)
    (h : binary32.MeanIsValue weight v) :
    binary32.monoResult weight (F32.ofSample v) (F32.ofSample v) (F32.ofSample v)
      = F32.finite 0 := by
  obtain ⟨q, x0, x1, x2, hq, h0, h1, h2⟩ := meanIsValue_weights weight v hv h
  unfold binary32.MeanIsValue at h
  simp only [binary32.monoResult, h]
  simp only [hq, h0, h1, h2, f32_finite_sub, add_neg_cancel, roundF32_zero, f32_finite_mul,
    mul_zero, zero_mul, f32_finite_add, add_zero]

theorem binary32_colorChannelResult_same (weight : Fin 3 → F32) (v : Nat) (hv : v ≤ 65535)
    (h : binary32.MeanIsValue weight v) :
    binary32.colorChannelResult weight (F32.ofSample v) (F32.ofSample v) (F32.ofSample v)
      = F32.finite 0 := by
  obtain ⟨q, x0, x1, x2, hq, h0, h1, h2⟩ := meanIsValue_weights weight v hv h
  unfold binary32.MeanIsValue at h
  simp only [binary32.colorChannelResult, h]
  simp only [hq, h0, h1, h2, f32_finite_sub, add_neg_cancel, roundF32_zero, f32_finite_mul,
    mul_zero, zero_mul, f32_finite_add, add_zero]

theorem binary32_specMask_zero (t : F32) (ht : F32.gt t (F32.finite 0) = true) :
    binary32.specMask (F32.finite 0) t = 0 := by
  unfold binary32.specMask
  cases t with
  | finite x =>
    simp only [F32.gt, decide_eq_true_eq] at ht
    have : ¬ x < 0 := not_lt.mpr (le_of_lt ht)
    simp [F32.gt, this]
  | posInf => simp [F32.gt]
  | negInf => simp [F32.gt] at ht
  | nan => simp [F32.gt] at ht

theorem binary32_pixelMono_of_lt (fsqrt : ℚ → ℚ) (cur prev1 prev2 : List Nat)
    (weight : Fin 3 → F32) (i : Nat) (h1 : i < cur.length) (h2 : i < prev1.length)
    (h3 : i < prev2.length) :
    binary32.pixelMono fsqrt (cur.map some) (prev1.map some) (prev2.map some) weight i
      = F32.toUChar (F32.sqrt fsqrt (binary32.monoResult weight (F32.ofSample (cur.getD i 0))
          (F32.ofSample (prev1.getD i 0)) (F32.ofSample (prev2.getD i 0)))) := by
  simp [binary32.pixelMono, readSample_of_lt, h1, h2, h3]

theorem binary32_pixelColor_of_readable (fsqrt : ℚ → ℚ) (cur prev1 prev2 : List Nat) (n : Nat)
    (weight : Fin 3 → F32) (j : Nat) (hj : j < n)
    (h1 : ColorReadable cur n) (h2 : ColorReadable prev1 n) (h3 : ColorReadable prev2 n) :
    binary32.pixelColor fsqrt (cur.map some) (prev1.map some) (prev2.map some) weight j
      = F32.toUChar
          (binary32.lumaR * F32.sqrt fsqrt (binary32.colorChannelResult weight
              (F32.ofSample (channelAt cur j 0)) (F32.ofSample (channelAt prev1 j 0))
              (F32.ofSample (channelAt prev2 j 0)))
            + binary32.lumaG * F32.sqrt fsqrt (binary32.colorChannelResult weight
              (F32.ofSample (channelAt cur j 1)) (F32.ofSample (channelAt prev1 j 1))
              (F32.ofSample (channelAt prev2 j 1)))
            + binary32.lumaB * F32.sqrt fsqrt (binary32.colorChannelResult weight
              (F32.ofSample (channelAt cur j 2)) (F32.ofSample (channelAt prev1 j 2))
              (F32.ofSample (channelAt prev2 j 2)))) := by
  simp [binary32.pixelColor, binary32_readPixel3_of_readable _ n j h1 hj,
    binary32_readPixel3_of_readable _ n j h2 hj, binary32_readPixel3_of_readable _ n j h3 hj,
    binary32.pixel3At]

theorem luma_values :
    binary32.lumaR = F32.finite (10032775 / 33554432) ∧
      binary32.lumaG = F32.finite (4924113 / 8388608) ∧
      binary32.lumaB = F32.finite (15300821 / 134217728) := by
  refine ⟨by decide!, by decide!, by decide!⟩

theorem f32_toUChar_of_range (x : F32) (r : ℚ) (hx : x = F32.finite r) (h0 : 0 ≤ r)
    (h1 : r < 256) : F32.toUChar x = some (F32.truncate x) ∧ F32.truncate x ≤ 255 := by
  subst hx
  exact floatToUChar_of_range r h0 h1

theorem f32_toUChar_of_large (x : F32) (h : ∀ r, x = F32.finite r → 256 ≤ r) :
    F32.toUChar x = none := by
  cases x with
  | finite q => exact floatToUChar_of_large q (h q rfl)
  | posInf => rfl
  | negInf => rfl
  | nan => rfl

theorem binary32_pixelMono_deviation (fsqrt : ℚ → ℚ) (cur prev1 prev2 : List Nat)
    (weight : Fin 3 → F32) (i : Nat) (h1 : i < cur.length) (h2 : i < prev1.length)
    (h3 : i < prev2.length) :
    binary32.pixelMono fsqrt (cur.map some) (prev1.map some) (prev2.map some) weight i
      = F32.toUChar (binary32.specDeviation fsqrt (weight 0) (weight 1) (weight 2)
          (F32.ofSample (cur.getD i 0)) (F32.ofSample (prev1.getD i 0))
          (F32.ofSample (prev2.getD i 0))) := by
  rw [binary32_pixelMono_of_lt fsqrt cur prev1 prev2 weight i h1 h2 h3, binary32_monoResult_eq]
  rfl

theorem binary32_continuous_eq (fsqrt : ℚ → ℚ) (cur prev1 prev2 : List Nat) (o : Buffer)
    (totalPixels : Nat) (weight : Fin 3 → F32) (thresholdSquared : F32)
    (hn : totalPixels < 2 ^ 32) (h1 : totalPixels ≤ cur.length)
    (h2 : totalPixels ≤ prev1.length) (h3 : totalPixels ≤ prev2.length)
    (ho : totalPixels ≤ o.length)
    (hr : ∀ i, i < totalPixels → ∃ r,
        binary32.specDeviation fsqrt (weight 0) (weight 1) (weight 2)
          (F32.ofSample (cur.getD i 0)) (F32.ofSample (prev1.getD i 0))
          (F32.ofSample (prev2.getD i 0)) = F32.finite r ∧ 0 ≤ r ∧ r < 256) :
    binary32.weightedVarianceMono fsqrt (cur.map some) (prev1.map some) (prev2.map some) o
        totalPixels weight false thresholdSquared
      = some ((List.range totalPixels).map (fun i => some (F32.truncate
          (binary32.specDeviation fsqrt (weight 0) (weight 1) (weight 2)
            (F32.ofSample (cur.getD i 0)) (F32.ofSample (prev1.getD i 0))
            (F32.ofSample (prev2.getD i 0))))) ++ o.drop totalPixels) := by
  simp only [binary32.weightedVarianceMono, Bool.false_eq_true, if_false,
    Nat.mod_eq_of_lt hn, binary32.calcWeightedVarianceMono]
  exact forLoop_write _ _ o totalPixels ho (fun i hi => by
    obtain ⟨r, e, r0, r1⟩ := hr i hi
    rw [binary32_pixelMono_deviation fsqrt cur prev1 prev2 weight i (by omega) (by omega)
      (by omega)]
    exact (f32_toUChar_of_range _ r e r0 r1).1)

theorem binary32_continuous_undefined (fsqrt : ℚ → ℚ) (cur prev1 prev2 : List Nat)
    (o : Buffer) (totalPixels : Nat) (weight : Fin 3 → F32) (thresholdSquared : F32)
    (hn : totalPixels < 2 ^ 32) (h1 : totalPixels ≤ cur.length)
    (h2 : totalPixels ≤ prev1.length) (h3 : totalPixels ≤ prev2.length)
    (i : Nat) (hi : i < totalPixels)
    (hbig : ∀ r, binary32.specDeviation fsqrt (weight 0) (weight 1) (weight 2)
        (F32.ofSample (cur.getD i 0)) (F32.ofSample (prev1.getD i 0))
        (F32.ofSample (prev2.getD i 0)) = F32.finite r → 256 ≤ r) :
    binary32.weightedVarianceMono fsqrt (cur.map some) (prev1.map some) (prev2.map some) o
        totalPixels weight false thresholdSquared = none := by
  simp only [binary32.weightedVarianceMono, Bool.false_eq_true, if_false,
    Nat.mod_eq_of_lt hn, binary32.calcWeightedVarianceMono]
  cases hres : forLoop totalPixels (fun i o =>
      (binary32.pixelMono fsqrt (cur.map some) (prev1.map some) (prev2.map some) weight i).bind
        (writeUChar o i)) o with
  | none => rfl
  | some out =>
    obtain ⟨_, _, hpix⟩ := forLoop_write_inv _ o totalPixels out hres
    obtain ⟨v, hv, _⟩ := hpix i hi
    rw [binary32_pixelMono_deviation fsqrt cur prev1 prev2 weight i (by omega) (by omega)
      (by omega), f32_toUChar_of_large _ hbig] at hv
    exact Option.noConfusion hv

/-- C6 (counterexample): for the 16-bit samples 1000, 0, 0 and the weights `0.5f`, `0.3f`,
`0.2f` the `float` variance is 250000 and its root 500; saturation would store 255, but the
kernel's conversion of 500 to `uint8_t` is undefined, and no 255 is produced. -/
theorem mono_continuous_no_saturation :
    binary32.specDeviation sqrtFloor (binary32.demoWeight 0) (binary32.demoWeight 1)
        (binary32.demoWeight 2) (F32.ofSample 1000) (F32.ofSample 0) (F32.ofSample 0)
      = F32.finite 500 ∧
    specSaturate 500 = 255 ∧
    binary32.weightedVarianceMono sqrtFloor [some 1000] [some 0] [some 0] [none] 1
      binary32.demoWeight false (F32.finite 0) = none := by
  have hv : binary32.specVariance (binary32.demoWeight 0) (binary32.demoWeight 1)
      (binary32.demoWeight 2) (F32.ofSample 1000) (F32.ofSample 0) (F32.ofSample 0)
      = F32.finite 250000 := by decide!
  have hd : binary32.specDeviation sqrtFloor (binary32.demoWeight 0) (binary32.demoWeight 1)
      (binary32.demoWeight 2) (F32.ofSample 1000) (F32.ofSample 0) (F32.ofSample 0)
      = F32.finite 500 := by
    unfold binary32.specDeviation
    rw [hv]
    simp only [F32.sqrt]
    rw [if_neg (by norm_num), sqrtFloor_sq 250000 500 (by norm_num)]
    norm_num
  refine ⟨hd, by decide!, ?_⟩
  exact binary32_continuous_undefined sqrtFloor [1000] [0] [0] [none] 1 binary32.demoWeight
    (F32.finite 0) (by norm_num) (by simp) (by simp) (by simp) 0 (by norm_num) (by
      intro r hr
      have e : ([1000] : List Nat).getD 0 0 = 1000 := rfl
      have e0 : ([0] : List Nat).getD 0 0 = 0 := rfl
      rw [e, e0, hd] at hr
      have := F32.finite.inj hr
      rw [← this]
      norm_num)

/-- C6 (amended): with thresholding disabled the mono kernel stores at each pixel the square
root of the variance, the variance being computed in `float` arithmetic (every product, sum and
difference rounded to binary32), with its fraction dropped, a value in `0..255`, provided every
root is a finite number below 256; the code has no saturation step, and as soon as one root
reaches 256 (or is infinite or a NaN) the conversion to `uint8_t`, and with it the result of the
kernel, is undefined. -/
theorem mono_continuous_truncates (fsqrt : ℚ → ℚ) (cur prev1 prev2 : List Nat) (o : Buffer)
    (totalPixels : Nat) (weight : Fin 3 → F32) (thresholdSquared : F32)
    (hn : totalPixels < 2 ^ 32) (h1 : totalPixels ≤ cur.length)
    (h2 : totalPixels ≤ prev1.length) (h3 : totalPixels ≤ prev2.length)
    (ho : totalPixels ≤ o.length) :
    ((∀ i, i < totalPixels → ∃ r,
        binary32.specDeviation fsqrt (weight 0) (weight 1) (weight 2)
          (F32.ofSample (cur.getD i 0)) (F32.ofSample (prev1.getD i 0))
          (F32.ofSample (prev2.getD i 0)) = F32.finite r ∧ 0 ≤ r ∧ r < 256) →
      binary32.weightedVarianceMono fsqrt (cur.map some) (prev1.map some) (prev2.map some) o
          totalPixels weight false thresholdSquared
        = some ((List.range totalPixels).map (fun i => some (F32.truncate
            (binary32.specDeviation fsqrt (weight 0) (weight 1) (weight 2)
              (F32.ofSample (cur.getD i 0)) (F32.ofSample (prev1.getD i 0))
              (F32.ofSample (prev2.getD i 0))))) ++ o.drop totalPixels) ∧
      ∀ i, i < totalPixels → F32.truncate
        (binary32.specDeviation fsqrt (weight 0) (weight 1) (weight 2)
          (F32.ofSample (cur.getD i 0)) (F32.ofSample (prev1.getD i 0))
          (F32.ofSample (prev2.getD i 0))) ≤ 255) ∧
    ((∃ i, i < totalPixels ∧ ∀ r,
        binary32.specDeviation fsqrt (weight 0) (weight 1) (weight 2)
          (F32.ofSample (cur.getD i 0)) (F32.ofSample (prev1.getD i 0))
          (F32.ofSample (prev2.getD i 0)) = F32.finite r → 256 ≤ r) →
      binary32.weightedVarianceMono fsqrt (cur.map some) (prev1.map some) (prev2.map some) o
          totalPixels weight false thresholdSquared = none) := by
  refine ⟨fun hr => ⟨binary32_continuous_eq fsqrt cur prev1 prev2 o totalPixels weight
    thresholdSquared hn h1 h2 h3 ho hr, fun i hi => ?_⟩, ?_⟩
  · obtain ⟨r, e, r0, r1⟩ := hr i hi
    exact (f32_toUChar_of_range _ r e r0 r1).2
  · rintro ⟨i, hi, hbig⟩
    exact binary32_continuous_undefined fsqrt cur prev1 prev2 o totalPixels weight
      thresholdSquared hn h1 h2 h3 i hi hbig

/-- C6 (witness): the samples 11, 43, 18 and 38, 10, 10 of two pixels both have the exact
variance 196 for the weights 0.5, 0.3, 0.2; with the weights `0.5f`, `0.3f`, `0.2f` the `float`
variances are 195.99998 and 196, and the kernel stores 13 and 14. -/
theorem mono_continuous_truncates_witness :
    binary32.weightedVarianceMono sqrtFloor [some 11, some 38] [some 43, some 10]
        [some 18, some 10] [none, none, some 7] 2 binary32.demoWeight false (F32.finite 0)
      = some [some 13, some 14, some 7] := by
  have h := (mono_continuous_truncates sqrtFloor [11, 38] [43, 10] [18, 10]
    [none, none, some 7] 2 binary32.demoWeight (F32.finite 0) (by norm_num) (by simp) (by simp)
    (by simp) (by simp)).1 (by
      intro i hi
      interval_cases i
      · exact ⟨13, by decide!, by norm_num, by norm_num⟩
      · exact ⟨14, by decide!, by norm_num, by norm_num⟩)
  rw [show ([11, 38] : List Nat).map some = [some 11, some 38] from rfl,
    show ([43, 10] : List Nat).map some = [some 43, some 10] from rfl,
    show ([18, 10] : List Nat).map some = [some 18, some 10] from rfl] at h
  rw [h.1]
  decide!

theorem ofSample_exact (v : Nat) (hv : v ≤ 65535) : F32.ofSample v = F32.finite (v : ℚ) := by
  have h := roundF32_exact (v : Int) 0 (by norm_num) (by
    rw [Int.cast_natCast, abs_of_nonneg (by positivity)]
    have : (v : ℚ) ≤ 65535 := by exact_mod_cast hv
    norm_num
    linarith)
  rw [pow_zero, div_one, Int.cast_natCast] at h
  exact h

theorem roundF32_exact_nat (m : Nat) (hm : m ≤ 16776960) :
    roundF32 ((m : ℚ) / 256) = F32.finite ((m : ℚ) / 256) := by
  have h := roundF32_exact (m : Int) 8 (by norm_num) (by
    rw [Int.cast_natCast, abs_of_nonneg (by positivity)]
    have : (m : ℚ) ≤ 16776960 := by exact_mod_cast hm
    norm_num
    linarith)
  rw [Int.cast_natCast] at h
  norm_num at h ⊢
  exact h

theorem meanIsValue_of_dyadic (weight : Fin 3 → F32) (a0 a1 a2 : Nat)
    (hsum : a0 + a1 + a2 = 256) (h0 : weight 0 = F32.finite ((a0 : ℚ) / 256))
    (h1 : weight 1 = F32.finite ((a1 : ℚ) / 256)) (h2 : weight 2 = F32.finite ((a2 : ℚ) / 256))
    (v : Nat) (hv : v ≤ 65535) : binary32.MeanIsValue weight v := by
  have b0 : v * a0 ≤ 16776960 := by nlinarith
  have b01 : v * a0 + v * a1 ≤ 16776960 := by nlinarith
  have b012 : v * a0 + v * a1 + v * a2 = v * 256 := by rw [← hsum]; ring
  have e0 : (v : ℚ) * ((a0 : ℚ) / 256) = ((v * a0 : Nat) : ℚ) / 256 := by push_cast; ring
  have e1 : (v : ℚ) * ((a1 : ℚ) / 256) = ((v * a1 : Nat) : ℚ) / 256 := by push_cast; ring
  have e2 : (v : ℚ) * ((a2 : ℚ) / 256) = ((v * a2 : Nat) : ℚ) / 256 := by push_cast; ring
  have s1 : ((v * a0 : Nat) : ℚ) / 256 + ((v * a1 : Nat) : ℚ) / 256
      = ((v * a0 + v * a1 : Nat) : ℚ) / 256 := by push_cast; ring
  have s2 : ((v * a0 + v * a1 : Nat) : ℚ) / 256 + ((v * a2 : Nat) : ℚ) / 256
      = ((v * 256 : Nat) : ℚ) / 256 := by rw [← b012]; push_cast; ring
  have e3 : ((v * 256 : Nat) : ℚ) / 256 = (v : ℚ) := by push_cast; field_simp
  unfold binary32.MeanIsValue
  rw [ofSample_exact v hv, h0, h1, h2, f32_finite_mul, f32_finite_mul, f32_finite_mul, e0, e1,
    e2, roundF32_exact_nat _ b0, roundF32_exact_nat (v * a1) (by nlinarith),
    roundF32_exact_nat (v * a2) (by nlinarith), f32_finite_add, s1, roundF32_exact_nat _ b01,
    f32_finite_add, s2, roundF32_exact_nat _ (by omega), e3]

/-- C8 (counterexample): with the non-negative weights 1, 1, 1 and the value 10 in all three
views, the variance is 1200: the continuous mono kernel stores 34 and the thresholded one, for
the positive threshold 1, stores 255. With the non-negative weights `0.5f`, `0.3f`, `0.2f` and
the value 7 in all three views the `float` mean is 7.0000005 and the `float` variance 2.27e-13:
for the positive threshold `1e-13f` the thresholded kernel stores 255. -/
theorem zero_variance_fails_for_unnormalised_weights :
    binary32.unitWeight = ![F32.finite 1, F32.finite 1, F32.finite 1] ∧
    binary32.weightedVarianceMono sqrtFloor [some 10] [some 10] [some 10] [none] 1
      binary32.unitWeight false (F32.finite 1) = some [some 34] ∧
    binary32.weightedVarianceMono sqrtFloor [some 10] [some 10] [some 10] [none] 1
      binary32.unitWeight true (F32.finite 1) = some [some 255] ∧
    F32.gt (roundF32 (1 / 10 ^ 13)) (F32.finite 0) = true ∧
    binary32.weightedVarianceMono sqrtFloor [some 7] [some 7] [some 7] [none] 1
      binary32.demoWeight true (roundF32 (1 / 10 ^ 13)) = some [some 255] := by
  refine ⟨by decide!, by decide!, by decide!, by decide!, by decide!⟩

/-- C8 (amended): when the weights are such that the kernels' `float` mean
`v*w0 + v*w1 + v*w2` of a sample `v` is `v` itself (in exact arithmetic: when they sum to 1),
and a pixel holds the same 8-bit or 16-bit value in the current, previous-1 and previous-2 views
(channel by channel on the colour path), the mono and the colour kernel store exactly 0 at that
pixel in continuous mode, and the mask 0 in thresholded mode for every positive threshold. The
condition on the mean holds for every 8-bit or 16-bit `v` when the weights are non-negative
multiples of 1/256 that sum to 1. -/
theorem zero_variance_gives_zero (fsqrt : ℚ → ℚ) (hsqrt : fsqrt 0 = 0) (weight : Fin 3 → F32)
    (thresholdSquared : F32) (ht : F32.gt thresholdSquared (F32.finite 0) = true)
    (cur prev1 prev2 : List Nat) (o : Buffer) (n i : Nat) (hi : i < n) (ho : n ≤ o.length) :
    (n ≤ cur.length → n ≤ prev1.length → n ≤ prev2.length →
      prev1.getD i 0 = cur.getD i 0 → prev2.getD i 0 = cur.getD i 0 →
      cur.getD i 0 ≤ 65535 → binary32.MeanIsValue weight (cur.getD i 0) →
      (∃ out, binary32.calcWeightedVarianceMonoThreshold (cur.map some) (prev1.map some)
          (prev2.map some) o n weight thresholdSquared = some out ∧
          out.get? i = some (some 0)) ∧
      binary32.pixelMono fsqrt (cur.map some) (prev1.map some) (prev2.map some) weight i
        = some 0 ∧
      (∀ out, binary32.calcWeightedVarianceMono fsqrt (cur.map some) (prev1.map some)
          (prev2.map some) o n weight = some out → out.get? i = some (some 0))) ∧
    (ColorReadable cur n → ColorReadable prev1 n → ColorReadable prev2 n →
      (∀ c, c < 3 → channelAt prev1 i c = channelAt cur i c ∧
        channelAt prev2 i c = channelAt cur i c ∧ channelAt cur i c ≤ 65535 ∧
        binary32.MeanIsValue weight (channelAt cur i c)) →
      (∃ out, binary32.calcWeightedVarianceColorThreshold (cur.map some) (prev1.map some)
          (prev2.map some) o n weight thresholdSquared = some out ∧
          out.get? i = some (some 0)) ∧
      binary32.pixelColor fsqrt (cur.map some) (prev1.map some) (prev2.map some) weight i
        = some 0 ∧
      (∀ out, binary32.calcWeightedVarianceColor fsqrt (cur.map some) (prev1.map some)
          (prev2.map some) o n weight = some out → out.get? i = some (some 0))) ∧
    (∀ a0 a1 a2 : Nat, a0 + a1 + a2 = 256 → weight 0 = F32.finite ((a0 : ℚ) / 256) →
      weight 1 = F32.finite ((a1 : ℚ) / 256) → weight 2 = F32.finite ((a2 : ℚ) / 256) →
      ∀ v, v ≤ 65535 → binary32.MeanIsValue weight v) := by
  have hroot : F32.sqrt fsqrt (F32.finite 0) = F32.finite 0 := by
    simp [F32.sqrt, hsqrt]
  have htou : F32.toUChar (F32.finite 0) = some 0 := floatToUChar_zero
  refine ⟨?_, ?_, fun a0 a1 a2 hsum h0 h1 h2 v hv =>
    meanIsValue_of_dyadic weight a0 a1 a2 hsum h0 h1 h2 v hv⟩
  · intro h1 h2 h3 e1 e2 hv hm
    have hpx : binary32.pixelMono fsqrt (cur.map some) (prev1.map some) (prev2.map some)
        weight i = some 0 := by
      rw [binary32_pixelMono_of_lt fsqrt cur prev1 prev2 weight i (by omega) (by omega)
        (by omega), e1, e2, binary32_monoResult_same weight _ hv hm, hroot, htou]
    refine ⟨⟨_, forLoop_write _ _ o n ho (fun k hk =>
      binary32_pixelMonoThreshold_of_lt cur prev1 prev2 weight thresholdSquared k (by omega)
        (by omega) (by omega)), ?_⟩, hpx, ?_⟩
    · rw [get?_range_map_append _ _ n i hi, e1, e2, binary32_monoResult_same weight _ hv hm,
        binary32_specMask_zero thresholdSquared ht]
    · intro out hout
      obtain ⟨_, _, hpix⟩ := forLoop_write_inv _ o n out hout
      obtain ⟨v, hv', hget⟩ := hpix i hi
      rw [hpx] at hv'
      rw [hget, ← Option.some.inj hv']
  · intro h1 h2 h3 he
    have hres : ∀ c, c < 3 → binary32.colorChannelResult weight
        (F32.ofSample (channelAt cur i c)) (F32.ofSample (channelAt prev1 i c))
        (F32.ofSample (channelAt prev2 i c)) = F32.finite 0 := by
      intro c hc
      obtain ⟨a1, a2, a3, a4⟩ := he c hc
      rw [a1, a2, binary32_colorChannelResult_same weight _ a3 a4]
    have hsum : binary32.lumaR * F32.finite 0 + binary32.lumaG * F32.finite 0
        + binary32.lumaB * F32.finite 0 = F32.finite 0 := by
      rw [luma_values.1, luma_values.2.1, luma_values.2.2]
      simp only [f32_finite_mul, mul_zero, roundF32_zero, f32_finite_add, add_zero]
    have hpx : binary32.pixelColor fsqrt (cur.map some) (prev1.map some) (prev2.map some)
        weight i = some 0 := by
      rw [binary32_pixelColor_of_readable fsqrt cur prev1 prev2 n weight i hi h1 h2 h3,
        hres 0 (by norm_num), hres 1 (by norm_num), hres 2 (by norm_num), hroot, hsum, htou]
    refine ⟨⟨_, forLoop_write _ _ o n ho (fun k hk =>
      binary32_pixelColorThreshold_of_readable cur prev1 prev2 n weight thresholdSquared k hk
        h1 h2 h3), ?_⟩, hpx, ?_⟩
    · rw [get?_range_map_append _ _ n i hi]
      simp only [binary32.colorThresholdResult, binary32.pixel3At, hres 0 (by norm_num),
        hres 1 (by norm_num), hres 2 (by norm_num), hsum,
        binary32_specMask_zero thresholdSquared ht]
    · intro out hout
      obtain ⟨_, _, hpix⟩ := forLoop_write_inv _ o n out hout
      obtain ⟨v, hv', hget⟩ := hpix i hi
      rw [hpx] at hv'
      rw [hget, ← Option.some.inj hv']

/-- C8 (witness): a pixel that holds 7 (mono), or 7, 8, 9 in its three channels (colour), in all
three views, with the weights 0.5, 0.25, 0.25 and the threshold 1. -/
theorem zero_variance_gives_zero_witness :
    (∃ out, binary32.calcWeightedVarianceMonoThreshold [some 7, some 8, some 9]
        [some 7, some 8, some 9] [some 7, some 8, some 9] [none] 1 binary32.dyadicWeight
        (F32.finite 1) = some out ∧ out.get? 0 = some (some 0)) ∧
    binary32.pixelMono sqrtFloor [some 7, some 8, some 9] [some 7, some 8, some 9]
      [some 7, some 8, some 9] binary32.dyadicWeight 0 = some 0 ∧
    (∃ out, binary32.calcWeightedVarianceColorThreshold [some 7, some 8, some 9]
        [some 7, some 8, some 9] [some 7, some 8, some 9] [none] 1 binary32.dyadicWeight
        (F32.finite 1) = some out ∧ out.get? 0 = some (some 0)) ∧
    binary32.pixelColor sqrtFloor [some 7, some 8, some 9] [some 7, some 8, some 9]
      [some 7, some 8, some 9] binary32.dyadicWeight 0 = some 0 := by
  have h := zero_variance_gives_zero sqrtFloor sqrtFloor_zero binary32.dyadicWeight
    (F32.finite 1) (by decide!) [7, 8, 9] [7, 8, 9] [7, 8, 9] [none] 1 0 (by norm_num) (by simp)
  have hm := h.1 (by simp) (by simp) (by simp) rfl rfl (by decide) (by decide!)
  have hr : ColorReadable [7, 8, 9] 1 := colorReadable_of_length _ _ (by simp) (by norm_num)
  have hc := h.2.1 hr hr hr (fun c hc => by
    interval_cases c
    · exact ⟨rfl, rfl, by decide, by decide!⟩
    · exact ⟨rfl, rfl, by decide, by decide!⟩
    · exact ⟨rfl, rfl, by decide, by decide!⟩)
  exact ⟨hm.1, hm.2.1, hc.1, hc.2.1⟩

theorem scaledBy_round (s g B : Nat) (n : Int) (hg : g ≤ 149)
    (hb : |(n : ℚ) / (2 : ℚ) ^ g| ≤ (2 : ℚ) ^ B) (hs : B + s ≤ 127) :
    ScaledBy s g B (roundF32 ((n : ℚ) / (2 : ℚ) ^ g))
      (roundF32 ((2 : ℚ) ^ s * ((n : ℚ) / (2 : ℚ) ^ g))) := by
  generalize hq : (n : ℚ) / (2 : ℚ) ^ g = q at hb
  have hspos : (0 : ℚ) < (2 : ℚ) ^ s := by positivity
  have hbz : |q| ≤ (2 : ℚ) ^ (B : Int) := by rw [zpow_natCast]; exact hb
  have hbz2 : |(2 : ℚ) ^ s * q| ≤ (2 : ℚ) ^ ((B + s : Nat) : Int) := by
    rw [zpow_natCast, abs_mul, abs_of_pos hspos, pow_add, mul_comm]
    exact mul_le_mul_of_nonneg_right hb (le_of_lt hspos)
  have e1 := roundF32_of_bound q B hbz (by omega) (by omega)
  have e2 := roundF32_of_bound ((2 : ℚ) ^ s * q) (B + s : Nat) hbz2 (by omega) (by omega)
  have h149 : q = ((n * (2 : Int) ^ (149 - g) : Int) : ℚ) / (2 : ℚ) ^ (149 : Nat) := by
    rw [← hq]
    push_cast
    rw [show (149 : Nat) = g + (149 - g) by omega, pow_add]
    field_simp
    ring
  have e3 := roundToGrid_scale q s _ h149
  obtain ⟨k, hk⟩ := roundToGrid_onGrid q g n hq.symm
  have hbound : |roundToGrid q| ≤ (2 : ℚ) ^ B := by
    by_cases h0 : q = 0
    · rw [h0, roundToGrid_zero, abs_zero]
      positivity
    · have := roundToGrid_abs_le q B h0 hbz (by omega)
      rwa [zpow_natCast] at this
  refine ⟨k, ?_, ?_, ?_⟩
  · rw [e1, hk]
  · rw [e2, e3, hk]
  · rw [← hk]
    exact hbound

theorem scaledBy_mul (s1 g1 B1 s2 g2 B2 : Nat) (x x1 y y1 : F32)
    (hx : ScaledBy s1 g1 B1 x x1) (hy : ScaledBy s2 g2 B2 y y1)
    (hg : g1 + g2 ≤ 149) (hb : B1 + B2 + (s1 + s2) ≤ 127) :
    ScaledBy (s1 + s2) (g1 + g2) (B1 + B2) (x * y) (x1 * y1) := by
  obtain ⟨n1, rfl, rfl, b1⟩ := hx
  obtain ⟨n2, rfl, rfl, b2⟩ := hy
  have e1 : (n1 : ℚ) / (2 : ℚ) ^ g1 * ((n2 : ℚ) / (2 : ℚ) ^ g2)
      = ((n1 * n2 : Int) : ℚ) / (2 : ℚ) ^ (g1 + g2) := by
    push_cast
    rw [pow_add]
    field_simp
  have e2 : (2 : ℚ) ^ s1 * ((n1 : ℚ) / (2 : ℚ) ^ g1) * ((2 : ℚ) ^ s2 * ((n2 : ℚ) / (2 : ℚ) ^ g2))
      = (2 : ℚ) ^ (s1 + s2) * (((n1 * n2 : Int) : ℚ) / (2 : ℚ) ^ (g1 + g2)) := by
    rw [← e1, pow_add]
    ring
  have hbound : |((n1 * n2 : Int) : ℚ) / (2 : ℚ) ^ (g1 + g2)| ≤ (2 : ℚ) ^ (B1 + B2) := by
    rw [← e1, abs_mul, pow_add]
    exact mul_le_mul b1 b2 (abs_nonneg _) (by positivity)
  rw [f32_finite_mul, f32_finite_mul, e1, e2]
  exact scaledBy_round _ _ _ _ hg hbound hb

theorem scaledBy_add (s g B : Nat) (x x1 y y1 : F32)
    (hx : ScaledBy s g B x x1) (hy : ScaledBy s g B y y1)
    (hg : g ≤ 149) (hb : B + 1 + s ≤ 127) :
    ScaledBy s g (B + 1) (x + y) (x1 + y1) := by
  obtain ⟨n1, rfl, rfl, b1⟩ := hx
  obtain ⟨n2, rfl, rfl, b2⟩ := hy
  have e1 : (n1 : ℚ) / (2 : ℚ) ^ g + (n2 : ℚ) / (2 : ℚ) ^ g
      = ((n1 + n2 : Int) : ℚ) / (2 : ℚ) ^ g := by
    push_cast
    ring
  have e2 : (2 : ℚ) ^ s * ((n1 : ℚ) / (2 : ℚ) ^ g) + (2 : ℚ) ^ s * ((n2 : ℚ) / (2 : ℚ) ^ g)
      = (2 : ℚ) ^ s * (((n1 + n2 : Int) : ℚ) / (2 : ℚ) ^ g) := by
    rw [← e1]
    ring
  have hbound : |((n1 + n2 : Int) : ℚ) / (2 : ℚ) ^ g| ≤ (2 : ℚ) ^ (B + 1) := by
    rw [← e1, pow_succ]
    calc |(n1 : ℚ) / (2 : ℚ) ^ g + (n2 : ℚ) / (2 : ℚ) ^ g|
        ≤ |(n1 : ℚ) / (2 : ℚ) ^ g| + |(n2 : ℚ) / (2 : ℚ) ^ g| := abs_add _ _
      _ ≤ (2 : ℚ) ^ B * 2 := by linarith
  rw [f32_finite_add, f32_finite_add, e1, e2]
  exact scaledBy_round _ _ _ _ hg hbound hb

theorem scaledBy_sub (s g B : Nat) (x x1 y y1 : F32)
    (hx : ScaledBy s g B x x1) (hy : ScaledBy s g B y y1)
    (hg : g ≤ 149) (hb : B + 1 + s ≤ 127) :
    ScaledBy s g (B + 1) (x - y) (x1 - y1) := by
  obtain ⟨n1, rfl, rfl, b1⟩ := hx
  obtain ⟨n2, rfl, rfl, b2⟩ := hy
  have e1 : (n1 : ℚ) / (2 : ℚ) ^ g + -((n2 : ℚ) / (2 : ℚ) ^ g)
      = ((n1 - n2 : Int) : ℚ) / (2 : ℚ) ^ g := by
    push_cast
    ring
  have e2 : (2 : ℚ) ^ s * ((n1 : ℚ) / (2 : ℚ) ^ g) + -((2 : ℚ) ^ s * ((n2 : ℚ) / (2 : ℚ) ^ g))
      = (2 : ℚ) ^ s * (((n1 - n2 : Int) : ℚ) / (2 : ℚ) ^ g) := by
    rw [← e1]
    ring
  have hbound : |((n1 - n2 : Int) : ℚ) / (2 : ℚ) ^ g| ≤ (2 : ℚ) ^ (B + 1) := by
    rw [← e1, pow_succ]
    calc |(n1 : ℚ) / (2 : ℚ) ^ g + -((n2 : ℚ) / (2 : ℚ) ^ g)|
        ≤ |(n1 : ℚ) / (2 : ℚ) ^ g| + |-((n2 : ℚ) / (2 : ℚ) ^ g)| := abs_add _ _
      _ ≤ (2 : ℚ) ^ B * 2 := by rw [abs_neg]; linarith
  rw [f32_finite_sub, f32_finite_sub, e1, e2]
  exact scaledBy_round _ _ _ _ hg hbound hb

theorem scaledBy_weaken (s g B g1 B1 : Nat) (x y : F32) (h : ScaledBy s g B x y)
    (hg : g ≤ g1) (hB : B ≤ B1) : ScaledBy s g1 B1 x y := by
  obtain ⟨n, rfl, rfl, b⟩ := h
  have e : (n : ℚ) / (2 : ℚ) ^ g = ((n * (2 : Int) ^ (g1 - g) : Int) : ℚ) / (2 : ℚ) ^ g1 := by
    push_cast
    rw [show g1 = g + (g1 - g) by omega, pow_add]
    field_simp
    ring
  refine ⟨n * (2 : Int) ^ (g1 - g), by rw [e], by rw [e], ?_⟩
  rw [← e]
  exact le_trans b (pow_le_pow_right₀ (by norm_num) hB)

theorem scaledBy_gt (s g B : Nat) (x y : F32) (h : ScaledBy s g B x y) (t : ℚ) :
    F32.gt y (F32.finite ((2 : ℚ) ^ s * t)) = F32.gt x (F32.finite t) := by
  obtain ⟨n, rfl, rfl, _⟩ := h
  have hspos : (0 : ℚ) < (2 : ℚ) ^ s := by positivity
  simp only [F32.gt]
  rw [decide_eq_decide]
  exact mul_lt_mul_left hspos

theorem ofSample_scaledBy (j a b : Nat) (hj : j ≤ 8) (ha : a ≤ 255)
    (hb : (b : ℚ) = (2 : ℚ) ^ j * (a : ℚ)) :
    ScaledBy j 0 8 (F32.ofSample a) (F32.ofSample b) := by
  have haq : (a : ℚ) ≤ 255 := by exact_mod_cast ha
  have h := scaledBy_round j 0 8 (a : Int) (by norm_num) (by
    rw [pow_zero, div_one, Int.cast_natCast, abs_of_nonneg (by positivity)]
    norm_num
    linarith) (by omega)
  rw [pow_zero, div_one, Int.cast_natCast, ← hb] at h
  exact h

theorem weightInRange_scaledBy (w : F32) (h : binary32.WeightInRange w) :
    ScaledBy 0 40 24 w w := by
  obtain ⟨n, hn, hb⟩ := h
  exact ⟨n, hn, by rw [pow_zero, one_mul]; exact hn, hb⟩

theorem binary32_monoResult_scale (j : Nat) (hj : j ≤ 8) (weight : Fin 3 → F32)
    (hw : ∀ c, binary32.WeightInRange (weight c)) (d0 d1 d2 e0 e1 e2 : F32)
    (h0 : ScaledBy j 0 8 d0 e0) (h1 : ScaledBy j 0 8 d1 e1) (h2 : ScaledBy j 0 8 d2 e2) :
    ScaledBy (j + j) 120 96 (binary32.monoResult weight d0 d1 d2)
      (binary32.monoResult weight e0 e1 e2) := by
  have w0 := weightInRange_scaledBy _ (hw 0)
  have w1 := weightInRange_scaledBy _ (hw 1)
  have w2 := weightInRange_scaledBy _ (hw 2)
  have p0 : ScaledBy j 40 32 (d0 * weight 0) (e0 * weight 0) :=
    scaledBy_mul j 0 8 0 40 24 _ _ _ _ h0 w0 (by omega) (by omega)
  have p1 : ScaledBy j 40 32 (d1 * weight 1) (e1 * weight 1) :=
    scaledBy_mul j 0 8 0 40 24 _ _ _ _ h1 w1 (by omega) (by omega)
  have p2 : ScaledBy j 40 32 (d2 * weight 2) (e2 * weight 2) :=
    scaledBy_mul j 0 8 0 40 24 _ _ _ _ h2 w2 (by omega) (by omega)
  have s01 : ScaledBy j 40 33 (d0 * weight 0 + d1 * weight 1) (e0 * weight 0 + e1 * weight 1) :=
    scaledBy_add j 40 32 _ _ _ _ p0 p1 (by omega) (by omega)
  have mean : ScaledBy j 40 34 (d0 * weight 0 + d1 * weight 1 + d2 * weight 2)
      (e0 * weight 0 + e1 * weight 1 + e2 * weight 2) :=
    scaledBy_add j 40 33 _ _ _ _ s01 (scaledBy_weaken j 40 32 40 33 _ _ p2 (by omega) (by omega))
      (by omega) (by omega)
  have v : ∀ d e : F32, ScaledBy j 0 8 d e →
      ScaledBy (j + j) 80 70
        ((d - (d0 * weight 0 + d1 * weight 1 + d2 * weight 2))
          * (d - (d0 * weight 0 + d1 * weight 1 + d2 * weight 2)))
        ((e - (e0 * weight 0 + e1 * weight 1 + e2 * weight 2))
          * (e - (e0 * weight 0 + e1 * weight 1 + e2 * weight 2))) := by
    intro d e hde
    have hv := scaledBy_sub j 40 34 _ _ _ _
      (scaledBy_weaken j 0 8 40 34 _ _ hde (by omega) (by omega)) mean (by omega) (by omega)
    exact scaledBy_mul j 40 35 j 40 35 _ _ _ _ hv hv (by omega) (by omega)
  have t : ∀ (d e : F32) (c : Fin 3), ScaledBy j 0 8 d e →
      ScaledBy (j + j) 120 94
        ((d - (d0 * weight 0 + d1 * weight 1 + d2 * weight 2))
          * (d - (d0 * weight 0 + d1 * weight 1 + d2 * weight 2)) * weight c)
        ((e - (e0 * weight 0 + e1 * weight 1 + e2 * weight 2))
          * (e - (e0 * weight 0 + e1 * weight 1 + e2 * weight 2)) * weight c) := by
    intro d e c hde
    exact scaledBy_mul (j + j) 80 70 0 40 24 _ _ _ _ (v d e hde)
      (weightInRange_scaledBy _ (hw c)) (by omega) (by omega)
  have s1 := scaledBy_add (j + j) 120 94 _ _ _ _ (t d0 e0 0 h0) (t d1 e1 1 h1) (by omega)
    (by omega)
  have s2 := scaledBy_add (j + j) 120 95 _ _ _ _ s1
    (scaledBy_weaken (j + j) 120 94 120 95 _ _ (t d2 e2 2 h2) (by omega) (by omega))
    (by omega) (by omega)
  exact s2

theorem binary32_colorChannelResult_scale (j : Nat) (hj : j ≤ 8) (weight : Fin 3 → F32)
    (hw : ∀ c, binary32.WeightInRange (weight c)) (d0 d1 d2 e0 e1 e2 : F32)
    (h0 : ScaledBy j 0 8 d0 e0) (h1 : ScaledBy j 0 8 d1 e1) (h2 : ScaledBy j 0 8 d2 e2) :
    ScaledBy (j + j) 120 96 (binary32.colorChannelResult weight d0 d1 d2)
      (binary32.colorChannelResult weight e0 e1 e2) := by
  have w0 := weightInRange_scaledBy _ (hw 0)
  have w1 := weightInRange_scaledBy _ (hw 1)
  have w2 := weightInRange_scaledBy _ (hw 2)
  have p0 : ScaledBy j 40 32 (d0 * weight 0) (e0 * weight 0) :=
    scaledBy_mul j 0 8 0 40 24 _ _ _ _ h0 w0 (by omega) (by omega)
  have p1 : ScaledBy j 40 32 (d1 * weight 1) (e1 * weight 1) :=
    scaledBy_mul j 0 8 0 40 24 _ _ _ _ h1 w1 (by omega) (by omega)
  have p2 : ScaledBy j 40 32 (d2 * weight 2) (e2 * weight 2) :=
    scaledBy_mul j 0 8 0 40 24 _ _ _ _ h2 w2 (by omega) (by omega)
  have s01 : ScaledBy j 40 33 (d0 * weight 0 + d1 * weight 1) (e0 * weight 0 + e1 * weight 1) :=
    scaledBy_add j 40 32 _ _ _ _ p0 p1 (by omega) (by omega)
  have mean : ScaledBy j 40 34 (d0 * weight 0 + d1 * weight 1 + d2 * weight 2)
      (e0 * weight 0 + e1 * weight 1 + e2 * weight 2) :=
    scaledBy_add j 40 33 _ _ _ _ s01 (scaledBy_weaken j 40 32 40 33 _ _ p2 (by omega) (by omega))
      (by omega) (by omega)
  have t : ∀ (d e : F32) (c : Fin 3), ScaledBy j 0 8 d e →
      ScaledBy (j + j) 120 94
        ((d - (d0 * weight 0 + d1 * weight 1 + d2 * weight 2))
          * (d - (d0 * weight 0 + d1 * weight 1 + d2 * weight 2)) * weight c)
        ((e - (e0 * weight 0 + e1 * weight 1 + e2 * weight 2))
          * (e - (e0 * weight 0 + e1 * weight 1 + e2 * weight 2)) * weight c) := by
    intro d e c hde
    have hv := scaledBy_sub j 40 34 _ _ _ _
      (scaledBy_weaken j 0 8 40 34 _ _ hde (by omega) (by omega)) mean (by omega) (by omega)
    exact scaledBy_mul (j + j) 80 70 0 40 24 _ _ _ _
      (scaledBy_mul j 40 35 j 40 35 _ _ _ _ hv hv (by omega) (by omega))
      (weightInRange_scaledBy _ (hw c)) (by omega) (by omega)
  have s1 := scaledBy_add (j + j) 120 94 _ _ _ _ (t d0 e0 0 h0) (t d1 e1 1 h1) (by omega)
    (by omega)
  have s2 := scaledBy_add (j + j) 120 95 _ _ _ _ s1
    (scaledBy_weaken (j + j) 120 94 120 95 _ _ (t d1 e1 2 h1) (by omega) (by omega))
    (by omega) (by omega)
  exact s2

theorem luma_scaledBy :
    ScaledBy 0 27 0 binary32.lumaR binary32.lumaR ∧
      ScaledBy 0 27 0 binary32.lumaG binary32.lumaG ∧
      ScaledBy 0 27 0 binary32.lumaB binary32.lumaB := by
  obtain ⟨hr, hg, hb⟩ := luma_values
  refine ⟨⟨40131100, ?_, ?_, ?_⟩, ⟨78785808, ?_, ?_, ?_⟩, ⟨15300821, ?_, ?_, ?_⟩⟩
  · rw [hr]; norm_num
  · rw [hr]; norm_num
  · norm_num [abs_of_nonneg]
  · rw [hg]; norm_num
  · rw [hg]; norm_num
  · norm_num [abs_of_nonneg]
  · rw [hb]; norm_num
  · rw [hb]; norm_num
  · norm_num [abs_of_nonneg]

theorem binary32_colorThresholdResult_scale (j : Nat) (hj : j ≤ 8) (weight : Fin 3 → F32)
    (hw : ∀ c, binary32.WeightInRange (weight c)) (x1 y1 z1 x2 y2 z2 x3 y3 z3 : F32)
    (u1 v1 w1 u2 v2 w2 u3 v3 w3 : F32)
    (a1 : ScaledBy j 0 8 x1 u1) (b1 : ScaledBy j 0 8 y1 v1) (c1 : ScaledBy j 0 8 z1 w1)
    (a2 : ScaledBy j 0 8 x2 u2) (b2 : ScaledBy j 0 8 y2 v2) (c2 : ScaledBy j 0 8 z2 w2)
    (a3 : ScaledBy j 0 8 x3 u3) (b3 : ScaledBy j 0 8 y3 v3) (c3 : ScaledBy j 0 8 z3 w3) :
    ScaledBy (j + j) 147 98
      (binary32.colorThresholdResult weight (x1, y1, z1) (x2, y2, z2) (x3, y3, z3))
      (binary32.colorThresholdResult weight (u1, v1, w1) (u2, v2, w2) (u3, v3, w3)) := by
  obtain ⟨lr, lg, lb⟩ := luma_scaledBy
  have r2 := binary32_colorChannelResult_scale j hj weight hw x1 x2 x3 u1 u2 u3 a1 a2 a3
  have g2 := binary32_colorChannelResult_scale j hj weight hw y1 y2 y3 v1 v2 v3 b1 b2 b3
  have b2' := binary32_colorChannelResult_scale j hj weight hw z1 z2 z3 w1 w2 w3 c1 c2 c3
  have m1 := scaledBy_mul 0 27 0 (j + j) 120 96 _ _ _ _ lr r2 (by omega) (by omega)
  have m2 := scaledBy_mul 0 27 0 (j + j) 120 96 _ _ _ _ lg g2 (by omega) (by omega)
  have m3 := scaledBy_mul 0 27 0 (j + j) 120 96 _ _ _ _ lb b2' (by omega) (by omega)
  rw [Nat.zero_add] at m1 m2 m3
  have s1 := scaledBy_add (j + j) (27 + 120) (0 + 96) _ _ _ _ m1 m2 (by omega) (by omega)
  have s2 := scaledBy_add (j + j) (27 + 120) (0 + 96 + 1) _ _ _ _ s1
    (scaledBy_weaken (j + j) (27 + 120) (0 + 96) (27 + 120) (0 + 96 + 1) _ _ m3 (by omega)
      (by omega)) (by omega) (by omega)
  exact s2

theorem scaled_read_bounded (k : ℚ) (s8 s16 : List Nat) (h : Scaled k s8 s16)
    (hb : ∀ i, s8.getD i 0 ≤ 255) (i : Nat) :
    (readSample (s16.map some) i = none ∧ readSample (s8.map some) i = none) ∨
      ∃ a b : Nat, readSample (s16.map some) i = some b ∧ readSample (s8.map some) i = some a ∧
        (b : ℚ) = k * (a : ℚ) ∧ a ≤ 255 := by
  by_cases hi : i < s8.length
  · right
    exact ⟨s8.getD i 0, s16.getD i 0, readSample_of_lt _ _ (by rw [h.1]; exact hi),
      readSample_of_lt _ _ hi, h.2 i, hb i⟩
  · left
    exact ⟨readSample_of_ge _ _ (by rw [h.1]; omega), readSample_of_ge _ _ (by omega)⟩

theorem sq_two_pow (j : Nat) : ((2 : ℚ) ^ j) ^ 2 = (2 : ℚ) ^ (j + j) := by
  rw [pow_add, sq]

theorem binary32_pixelMonoThreshold_scale (j : Nat) (hj : j ≤ 8)
    (c8 p8 q8 c16 p16 q16 : List Nat)
    (hc : Scaled ((2 : ℚ) ^ j) c8 c16) (hp : Scaled ((2 : ℚ) ^ j) p8 p16)
    (hq : Scaled ((2 : ℚ) ^ j) q8 q16)
    (bc : ∀ i, c8.getD i 0 ≤ 255) (bp : ∀ i, p8.getD i 0 ≤ 255) (bq : ∀ i, q8.getD i 0 ≤ 255)
    (weight : Fin 3 → F32) (hw : ∀ c, binary32.WeightInRange (weight c)) (t : ℚ) (i : Nat) :
    binary32.pixelMonoThreshold (c16.map some) (p16.map some) (q16.map some) weight
        (F32.finite (((2 : ℚ) ^ j) ^ 2 * t)) i
      = binary32.pixelMonoThreshold (c8.map some) (p8.map some) (q8.map some) weight
        (F32.finite t) i := by
  unfold binary32.pixelMonoThreshold
  rcases scaled_read_bounded _ c8 c16 hc bc i with ⟨e1, e2⟩ | ⟨a, a1, e1, e2, ea, la⟩
  · simp [e1, e2]
  · rcases scaled_read_bounded _ p8 p16 hp bp i with ⟨f1, f2⟩ | ⟨b, b1, f1, f2, eb, lb⟩
    · simp [e1, e2, f1, f2]
    · rcases scaled_read_bounded _ q8 q16 hq bq i with ⟨g1, g2⟩ | ⟨c, c1, g1, g2, ec, lc⟩
      · simp [e1, e2, f1, f2, g1, g2]
      · have hs := binary32_monoResult_scale j hj weight hw _ _ _ _ _ _
          (ofSample_scaledBy j a a1 hj la ea) (ofSample_scaledBy j b b1 hj lb eb)
          (ofSample_scaledBy j c c1 hj lc ec)
        simp only [e1, e2, f1, f2, g1, g2, Option.bind_eq_bind, Option.some_bind, sq_two_pow,
          scaledBy_gt _ _ _ _ _ hs t]

theorem binary32_readPixel3_scale (j : Nat) (hj : j ≤ 8) (s8 s16 : List Nat)
    (h : Scaled ((2 : ℚ) ^ j) s8 s16) (hb : ∀ i, s8.getD i 0 ≤ 255) (j3 : Nat) :
    (binary32.readPixel3 (s16.map some) j3 = none ∧
        binary32.readPixel3 (s8.map some) j3 = none) ∨
      ∃ x y z u v w : F32, binary32.readPixel3 (s16.map some) j3 = some (u, v, w) ∧
        binary32.readPixel3 (s8.map some) j3 = some (x, y, z) ∧
        ScaledBy j 0 8 x u ∧ ScaledBy j 0 8 y v ∧ ScaledBy j 0 8 z w := by
  unfold binary32.readPixel3
  rcases scaled_read_bounded _ s8 s16 h hb j3 with ⟨e1, e2⟩ | ⟨a, a1, e1, e2, ea, la⟩
  · left; simp [e1, e2]
  · rcases scaled_read_bounded _ s8 s16 h hb ((j3 + 1) % 2 ^ 32) with
      ⟨f1, f2⟩ | ⟨b, b1, f1, f2, eb, lb⟩
    · left; simp only [e1, e2, f1, f2, Option.bind_eq_bind, Option.some_bind, Option.none_bind,
        and_self]
    · rcases scaled_read_bounded _ s8 s16 h hb ((j3 + 2) % 2 ^ 32) with
        ⟨g1, g2⟩ | ⟨c, c1, g1, g2, ec, lc⟩
      · left; simp only [e1, e2, f1, f2, g1, g2, Option.bind_eq_bind, Option.some_bind,
          Option.none_bind, and_self]
      · right
        refine ⟨_, _, _, _, _, _, ?_, ?_, ofSample_scaledBy j a a1 hj la ea,
          ofSample_scaledBy j b b1 hj lb eb, ofSample_scaledBy j c c1 hj lc ec⟩
        · simp only [e1, f1, g1, Option.bind_eq_bind, Option.some_bind]
        · simp only [e2, f2, g2, Option.bind_eq_bind, Option.some_bind]

theorem binary32_pixelColorThreshold_scale (j : Nat) (hj : j ≤ 8)
    (c8 p8 q8 c16 p16 q16 : List Nat)
    (hc : Scaled ((2 : ℚ) ^ j) c8 c16) (hp : Scaled ((2 : ℚ) ^ j) p8 p16)
    (hq : Scaled ((2 : ℚ) ^ j) q8 q16)
    (bc : ∀ i, c8.getD i 0 ≤ 255) (bp : ∀ i, p8.getD i 0 ≤ 255) (bq : ∀ i, q8.getD i 0 ≤ 255)
    (weight : Fin 3 → F32) (hw : ∀ c, binary32.WeightInRange (weight c)) (t : ℚ) (i : Nat) :
    binary32.pixelColorThreshold (c16.map some) (p16.map some) (q16.map some) weight
        (F32.finite (((2 : ℚ) ^ j) ^ 2 * t)) i
      = binary32.pixelColorThreshold (c8.map some) (p8.map some) (q8.map some) weight
        (F32.finite t) i := by
  unfold binary32.pixelColorThreshold
  rcases binary32_readPixel3_scale j hj c8 c16 hc bc (colorIndex i) with
    ⟨e1, e2⟩ | ⟨x1, y1, z1, u1, v1, w1, e1, e2, a1, b1, c1⟩
  · simp [e1, e2]
  · rcases binary32_readPixel3_scale j hj p8 p16 hp bp (colorIndex i) with
      ⟨f1, f2⟩ | ⟨x2, y2, z2, u2, v2, w2, f1, f2, a2, b2, c2⟩
    · simp [e1, e2, f1, f2]
    · rcases binary32_readPixel3_scale j hj q8 q16 hq bq (colorIndex i) with
        ⟨g1, g2⟩ | ⟨x3, y3, z3, u3, v3, w3, g1, g2, a3, b3, c3⟩
      · simp [e1, e2, f1, f2, g1, g2]
      · have hs := binary32_colorThresholdResult_scale j hj weight hw x1 y1 z1 x2 y2 z2 x3 y3 z3
          u1 v1 w1 u2 v2 w2 u3 v3 w3 a1 b1 c1 a2 b2 c2 a3 b3 c3
        simp only [e1, e2, f1, f2, g1, g2, Option.bind_eq_bind, Option.some_bind, sq_two_pow,
          scaledBy_gt _ _ _ _ _ hs t]

/-- C10 (counterexample): the 8-bit window 238, 250, 220 with the weights `0.5f`, `0.3f`,
`0.2f` and `thresholdSquared = 108`, and its 16-bit counterpart scaled by `k = 257` (each sample
`v` stored as the two bytes `v`, `v`) with `thresholdSquared16 = 257^2 * 108`: the 8-bit path,
whose `float` variance is 108, stores 0, and the 16-bit path, whose `float` variance is
7133292.5 (above 257^2 * 108 = 7133292), stores 255. -/
theorem depth_mask_differs_for_scale_257 :
    (257 : ℚ) ^ 2 * 108 = 7133292 ∧
    binary32.runKernel sqrtFloor ⟨1, 1, 1, 1⟩ (binary32.demoParams 108 7133292)
      [some 238] [some 250] [some 220] [none] = some [some 0] ∧
    binary32.runKernel sqrtFloor ⟨1, 1, 1, 2⟩ (binary32.demoParams 108 7133292)
      [some 238, some 238] [some 250, some 250] [some 220, some 220] [none]
      = some [some 255] := by
  refine ⟨by norm_num, by decide!, by decide!⟩

/-- C10 (amended): when the 16-bit path receives the window of 8-bit samples of the 8-bit path
with every sample multiplied by a scale factor `k = 2^j` (`j ≤ 8`), the weights are multiples of
`2^-40` of magnitude at most `2^24`, and `thresholdSquared16 = k^2 * thresholdSquared` for a
finite `thresholdSquared`, the thresholded run of the 16-bit path (mono or colour), computed in
`float` arithmetic, is the run of the 8-bit path: defined on the same inputs, with the same mask
at every pixel. -/
theorem depth_independent_mask (fsqrt : ℚ → ℚ) (params : binary32.WeightedMovingVarianceParams)
    (henable : params.enableThreshold = true) (j : Nat) (hj : j ≤ 8)
    (hw : ∀ c, binary32.WeightInRange (params.weight c)) (t : ℚ)
    (ht : params.thresholdSquared = F32.finite t)
    (hthr : params.thresholdSquared16 = F32.finite (((2 : ℚ) ^ j) ^ 2 * t))
    (width height numChannels : Nat) (cur8 prev18 prev28 cur16 prev116 prev216 : List Nat)
    (bcur : ∀ i, cur8.getD i 0 ≤ 255) (bprev1 : ∀ i, prev18.getD i 0 ≤ 255)
    (bprev2 : ∀ i, prev28.getD i 0 ≤ 255)
    (bytesCur bytesPrev1 bytesPrev2 : Buffer)
    (hcur : asUInt16 bytesCur = cur16.map some) (hprev1 : asUInt16 bytesPrev1 = prev116.map some)
    (hprev2 : asUInt16 bytesPrev2 = prev216.map some)
    (scur : Scaled ((2 : ℚ) ^ j) cur8 cur16) (sprev1 : Scaled ((2 : ℚ) ^ j) prev18 prev116)
    (sprev2 : Scaled ((2 : ℚ) ^ j) prev28 prev216) (o : Buffer) :
    binary32.runKernel fsqrt ⟨width, height, numChannels, 2⟩ params bytesCur bytesPrev1
        bytesPrev2 o
      = binary32.runKernel fsqrt ⟨width, height, numChannels, 1⟩ params (cur8.map some)
          (prev18.map some) (prev28.map some) o := by
  simp only [binary32.runKernel, hcur, hprev1, hprev2, hthr, ht, henable,
    binary32.weightedVarianceMono, binary32.weightedVarianceColor, if_true, ImgSize.numPixels]
  by_cases hch : numChannels = 1
  · simp only [hch, if_true, OfNat.ofNat_ne_one, if_false,
      binary32.calcWeightedVarianceMonoThreshold]
    exact forLoop_congr _ _ o _ (fun i _ _ => by
      rw [binary32_pixelMonoThreshold_scale j hj cur8 prev18 prev28 cur16 prev116 prev216 scur
        sprev1 sprev2 bcur bprev1 bprev2 params.weight hw t])
  · simp only [hch, if_false, OfNat.ofNat_ne_one, if_true,
      binary32.calcWeightedVarianceColorThreshold]
    exact forLoop_congr _ _ o _ (fun i _ _ => by
      rw [binary32_pixelColorThreshold_scale j hj cur8 prev18 prev28 cur16 prev116 prev216 scur
        sprev1 sprev2 bcur bprev1 bprev2 params.weight hw t])

theorem demoWeight_inRange : ∀ c, binary32.WeightInRange (binary32.demoWeight c) := by
  have hv : binary32.demoWeight = ![F32.finite (1 / 2), F32.finite (5033165 / 16777216),
      F32.finite (13421773 / 67108864)] := by decide!
  intro c
  rw [hv]
  fin_cases c
  · exact ⟨549755813888, by norm_num, by norm_num [abs_of_nonneg]⟩
  · exact ⟨329853501440, by norm_num, by norm_num [abs_of_nonneg]⟩
  · exact ⟨219902328832, by norm_num, by norm_num [abs_of_nonneg]⟩

/-- C10 (witness): the 8-bit window 238, 10 / 250, 10 / 220, 10 and its 16-bit counterpart
scaled by 256 (each sample `v` stored as the two bytes 0, `v`), with the weights `0.5f`, `0.3f`,
`0.2f` and the thresholds 107 and 256^2 * 107: both paths store the mask 255, 0. -/
theorem depth_independent_mask_witness :
    binary32.runKernel sqrtFloor ⟨2, 1, 1, 2⟩ (binary32.demoParams 107 (((2 : ℚ) ^ 8) ^ 2 * 107))
        [some 0, some 238, some 0, some 10] [some 0, some 250, some 0, some 10]
        [some 0, some 220, some 0, some 10] [none, none]
      = binary32.runKernel sqrtFloor ⟨2, 1, 1, 1⟩
        (binary32.demoParams 107 (((2 : ℚ) ^ 8) ^ 2 * 107)) [some 238, some 10]
        [some 250, some 10] [some 220, some 10] [none, none] ∧
    binary32.runKernel sqrtFloor ⟨2, 1, 1, 1⟩
        (binary32.demoParams 107 (((2 : ℚ) ^ 8) ^ 2 * 107)) [some 238, some 10]
        [some 250, some 10] [some 220, some 10] [none, none] = some [some 255, some 0] := by
  have s1 : Scaled ((2 : ℚ) ^ 8) [238, 10] [60928, 2560] :=
    ⟨rfl, fun i => by rcases i with _ | _ | i <;> norm_num⟩
  have s2 : Scaled ((2 : ℚ) ^ 8) [250, 10] [64000, 2560] :=
    ⟨rfl, fun i => by rcases i with _ | _ | i <;> norm_num⟩
  have s3 : Scaled ((2 : ℚ) ^ 8) [220, 10] [56320, 2560] :=
    ⟨rfl, fun i => by rcases i with _ | _ | i <;> norm_num⟩
  refine ⟨?_, by decide!⟩
  exact depth_independent_mask sqrtFloor (binary32.demoParams 107 (((2 : ℚ) ^ 8) ^ 2 * 107)) rfl
    8 (by norm_num) demoWeight_inRange 107 rfl rfl 2 1 1
    [238, 10] [250, 10] [220, 10] [60928, 2560] [64000, 2560] [56320, 2560]
    (fun i => by rcases i with _ | _ | i <;> simp)
    (fun i => by rcases i with _ | _ | i <;> simp)
    (fun i => by rcases i with _ | _ | i <;> simp)
    [some 0, some 238, some 0, some 10] [some 0, some 250, some 0, some 10]
    [some 0, some 220, some 0, some 10] rfl rfl rfl s1 s2 s3 [none, none]

end sky360lib.bgs

namespace sky360lib.demo

theorem intResult_of_range (v : Int) (h1 : INT_MIN ≤ v) (h2 : v ≤ INT_MAX) :
    intResult v = some v := by
  rw [intResult, if_pos ⟨h1, h2⟩]

theorem intResult_eq_some (v r : Int) (h : intResult v = some r) :
    r = v ∧ INT_MIN ≤ v ∧ v ≤ INT_MAX := by
  unfold intResult at h
  split at h
  · rename_i hr
    exact ⟨(Option.some.inj h).symm, hr.1, hr.2⟩
  · exact absurd h (by simp)

theorem boxArea_bounds (r : Rect) (hw : 0 ≤ r.width) (hh : 0 ≤ r.height) :
    r.width + 1 ≤ boxArea r ∧ r.height + 1 ≤ boxArea r ∧ 1 ≤ boxArea r := by
  unfold boxArea
  refine ⟨?_, ?_, ?_⟩ <;> nlinarith

theorem intersectionArea_bounds (bbox1 bbox2 : Rect) (hs : ¬ Separated bbox1 bbox2) :
    0 ≤ xRight bbox1 bbox2 - xLeft bbox1 bbox2 ∧
    xRight bbox1 bbox2 - xLeft bbox1 bbox2 ≤ bbox1.width ∧
    xRight bbox1 bbox2 - xLeft bbox1 bbox2 ≤ bbox2.width ∧
    0 ≤ yBottom bbox1 bbox2 - yTop bbox1 bbox2 ∧
    yBottom bbox1 bbox2 - yTop bbox1 bbox2 ≤ bbox1.height ∧
    yBottom bbox1 bbox2 - yTop bbox1 bbox2 ≤ bbox2.height := by
  unfold Separated at hs
  push_neg at hs
  obtain ⟨hx, hy⟩ := hs
  have a1 : xRight bbox1 bbox2 ≤ bbox1.x + bbox1.width := min_le_left _ _
  have a2 : xRight bbox1 bbox2 ≤ bbox2.x + bbox2.width := min_le_right _ _
  have a3 : bbox1.x ≤ xLeft bbox1 bbox2 := le_max_left _ _
  have a4 : bbox2.x ≤ xLeft bbox1 bbox2 := le_max_right _ _
  have b1 : yBottom bbox1 bbox2 ≤ bbox1.y + bbox1.height := min_le_left _ _
  have b2 : yBottom bbox1 bbox2 ≤ bbox2.y + bbox2.height := min_le_right _ _
  have b3 : bbox1.y ≤ yTop bbox1 bbox2 := le_max_left _ _
  have b4 : bbox2.y ≤ yTop bbox1 bbox2 := le_max_right _ _
  refine ⟨?_, ?_, ?_, ?_, ?_, ?_⟩ <;> omega

theorem intersectionArea_le (bbox1 bbox2 : Rect) (hs : ¬ Separated bbox1 bbox2) :
    1 ≤ intersectionArea bbox1 bbox2 ∧ intersectionArea bbox1 bbox2 ≤ boxArea bbox1 ∧
      intersectionArea bbox1 bbox2 ≤ boxArea bbox2 := by
  obtain ⟨x0, x1, x2, y0, y1, y2⟩ := intersectionArea_bounds bbox1 bbox2 hs
  unfold intersectionArea boxArea
  refine ⟨by nlinarith, ?_, ?_⟩
  · exact mul_le_mul (by omega) (by omega) (by omega) (by omega)
  · exact mul_le_mul (by omega) (by omega) (by omega) (by omega)

theorem bbox_overlap_separated (bbox1 bbox2 : Rect) (f1 : bbox1.EdgesFit) (f2 : bbox2.EdgesFit)
    (hs : Separated bbox1 bbox2) : bbox_overlap bbox1 bbox2 = some 0 := by
  obtain ⟨r1, r1', b1, b1'⟩ := f1
  obtain ⟨r2, r2', b2, b2'⟩ := f2
  have e1 := intResult_of_range _ r1 r1'
  have e2 := intResult_of_range _ r2 r2'
  have e3 := intResult_of_range _ b1 b1'
  have e4 := intResult_of_range _ b2 b2'
  unfold Separated xRight xLeft yBottom yTop at hs
  unfold bbox_overlap
  simp only [e1, e2, e3, e4, Option.bind_eq_bind, Option.some_bind]
  rw [if_pos hs]

theorem bbox_overlap_joined (bbox1 bbox2 : Rect) (hw1 : 0 ≤ bbox1.width)
    (hh1 : 0 ≤ bbox1.height) (hw2 : 0 ≤ bbox2.width) (hh2 : 0 ≤ bbox2.height)
    (f1 : bbox1.EdgesFit) (f2 : bbox2.EdgesFit) (ha : AreasFit bbox1 bbox2)
    (hs : ¬ Separated bbox1 bbox2) :
    bbox_overlap bbox1 bbox2 = some ((intersectionArea bbox1 bbox2 : ℚ) /
      ((boxArea bbox1 + boxArea bbox2 - intersectionArea bbox1 bbox2 : Int) : ℚ)) := by
  obtain ⟨r1, r1', b1, b1'⟩ := f1
  obtain ⟨r2, r2', b2, b2'⟩ := f2
  have e1 := intResult_of_range _ r1 r1'
  have e2 := intResult_of_range _ r2 r2'
  have e3 := intResult_of_range _ b1 b1'
  have e4 := intResult_of_range _ b2 b2'
  obtain ⟨dx0, dx1, dx2, dy0, dy1, dy2⟩ := intersectionArea_bounds bbox1 bbox2 hs
  obtain ⟨i0, i1, i2⟩ := intersectionArea_le bbox1 bbox2 hs
  obtain ⟨wa1, ha1, p1⟩ := boxArea_bounds bbox1 hw1 hh1
  obtain ⟨wa2, ha2, p2⟩ := boxArea_bounds bbox2 hw2 hh2
  have ha' : boxArea bbox1 + boxArea bbox2 ≤ 2147483647 := ha
  have g1 := intResult_of_range (xRight bbox1 bbox2 - xLeft bbox1 bbox2)
    (by unfold INT_MIN; omega) (by unfold INT_MAX; omega)
  have g2 := intResult_of_range (xRight bbox1 bbox2 - xLeft bbox1 bbox2 + 1)
    (by unfold INT_MIN; omega) (by unfold INT_MAX; omega)
  have g3 := intResult_of_range (yBottom bbox1 bbox2 - yTop bbox1 bbox2)
    (by unfold INT_MIN; omega) (by unfold INT_MAX; omega)
  have g4 := intResult_of_range (yBottom bbox1 bbox2 - yTop bbox1 bbox2 + 1)
    (by unfold INT_MIN; omega) (by unfold INT_MAX; omega)
  have g5 := intResult_of_range (intersectionArea bbox1 bbox2)
    (by unfold INT_MIN; omega) (by unfold INT_MAX; omega)
  have g6 := intResult_of_range (bbox1.width + 1)
    (by unfold INT_MIN; omega) (by unfold INT_MAX; omega)
  have g7 := intResult_of_range (bbox1.height + 1)
    (by unfold INT_MIN; omega) (by unfold INT_MAX; omega)
  have g8 := intResult_of_range (boxArea bbox1)
    (by unfold INT_MIN; omega) (by unfold INT_MAX; omega)
  have g9 := intResult_of_range (bbox2.width + 1)
    (by unfold INT_MIN; omega) (by unfold INT_MAX; omega)
  have g10 := intResult_of_range (bbox2.height + 1)
    (by unfold INT_MIN; omega) (by unfold INT_MAX; omega)
  have g11 := intResult_of_range (boxArea bbox2)
    (by unfold INT_MIN; omega) (by unfold INT_MAX; omega)
  have g12 := intResult_of_range (boxArea bbox1 + boxArea bbox2)
    (by unfold INT_MIN; omega) (by unfold INT_MAX; omega)
  have g13 := intResult_of_range (boxArea bbox1 + boxArea bbox2 - intersectionArea bbox1 bbox2)
    (by unfold INT_MIN; omega) (by unfold INT_MAX; omega)
  have hne : ¬ (boxArea bbox1 + boxArea bbox2 - intersectionArea bbox1 bbox2 = 0) := by omega
  unfold Separated at hs
  simp only [intersectionArea, boxArea, xRight, xLeft, yBottom, yTop] at g1 g2 g3 g4 g5 g8 g11
  simp only [intersectionArea, boxArea, xRight, xLeft, yBottom, yTop] at g12 g13 hne hs ⊢
  unfold bbox_overlap overlapRatio spanPlusOne areaPlusOne
  simp only [e1, e2, e3, e4, Option.bind_eq_bind, Option.some_bind, if_neg hs, g1, g2, g3, g4,
    g5, g6, g7, g8, g9, g10, g11, g12, g13, if_neg hne]

theorem contain_facts (bbox1 bbox2 : Rect)
    (h : bbox1_contain_bbox2 bbox1 bbox2 = some true) :
    bbox1.x < bbox2.x ∧ bbox1.y < bbox2.y ∧
      bbox2.x + bbox2.width < bbox1.x + bbox1.width ∧
      bbox2.y + bbox2.height < bbox1.y + bbox1.height ∧ bbox1.EdgesFit ∧ bbox2.EdgesFit := by
  unfold bbox1_contain_bbox2 at h
  split at h
  · rename_i hx
    split at h
    · rename_i hy
      simp only [Option.bind_eq_bind, Option.bind_eq_some] at h
      obtain ⟨r2, hr2, r1, hr1, h⟩ := h
      obtain ⟨er2, lo2, hi2⟩ := intResult_eq_some _ _ hr2
      obtain ⟨er1, lo1, hi1⟩ := intResult_eq_some _ _ hr1
      split at h
      · rename_i hr
        simp only [Option.bind_eq_some] at h
        obtain ⟨b2, hb2, b1, hb1, h⟩ := h
        obtain ⟨eb2, lob2, hib2⟩ := intResult_eq_some _ _ hb2
        obtain ⟨eb1, lob1, hib1⟩ := intResult_eq_some _ _ hb1
        simp only [Option.some.injEq, decide_eq_true_eq] at h
        subst er1 er2 eb1 eb2
        exact ⟨hx, hy, hr, h, ⟨lo1, hi1, lob1, hib1⟩, ⟨lo2, hi2, lob2, hib2⟩⟩
      · simp at h
    · simp at h
  · simp at h

/-- C18 (counterexample): the boxes (0, 0, 46340, 46340) and (0, 0, 0, 0) have non-negative
width and height, but the area 46341 * 46341 = 2147488281 of the first exceeds `INT_MAX`: the
`int` product overflows and `bbox_overlap` has no defined value. -/
theorem bbox_overlap_undefined_on_large_box :
    (0 ≤ (46340 : Int) ∧ 0 ≤ (0 : Int)) ∧
      areaPlusOne 46340 46340 = none ∧
      bbox_overlap ⟨0, 0, 46340, 46340⟩ ⟨0, 0, 0, 0⟩ = none := by
  refine ⟨⟨by norm_num, le_refl _⟩, by decide, by decide⟩

/-- C18 (amended): for two rectangles with non-negative width and height whose edges
`x + width`, `y + height` and whose area sum `bb1_area + bb2_area` are representable in `int`,
`bbox_overlap` returns a value in the closed interval [0, 1]: 0 when the rectangles are
separated, and otherwise the quotient
`intersection_area / (bb1_area + bb2_area - intersection_area)`, whose denominator is positive
and whose numerator is no larger than either box area. -/
theorem bbox_overlap_in_unit_interval (bbox1 bbox2 : Rect) (hw1 : 0 ≤ bbox1.width)
    (hh1 : 0 ≤ bbox1.height) (hw2 : 0 ≤ bbox2.width) (hh2 : 0 ≤ bbox2.height)
    (f1 : bbox1.EdgesFit) (f2 : bbox2.EdgesFit) (ha : AreasFit bbox1 bbox2) :
    ∃ r, bbox_overlap bbox1 bbox2 = some r ∧ 0 ≤ r ∧ r ≤ 1 ∧
      (Separated bbox1 bbox2 → r = 0) ∧
      (¬ Separated bbox1 bbox2 →
        r = (intersectionArea bbox1 bbox2 : ℚ) /
          ((boxArea bbox1 + boxArea bbox2 - intersectionArea bbox1 bbox2 : Int) : ℚ) ∧
        0 < boxArea bbox1 + boxArea bbox2 - intersectionArea bbox1 bbox2 ∧
        intersectionArea bbox1 bbox2 ≤ boxArea bbox1 ∧
        intersectionArea bbox1 bbox2 ≤ boxArea bbox2) := by
  by_cases hs : Separated bbox1 bbox2
  · exact ⟨0, bbox_overlap_separated bbox1 bbox2 f1 f2 hs, le_refl _, by norm_num,
      fun _ => rfl, fun h => absurd hs h⟩
  · obtain ⟨i0, i1, i2⟩ := intersectionArea_le bbox1 bbox2 hs
    obtain ⟨_, _, p2⟩ := boxArea_bounds bbox2 hw2 hh2
    have hden : 0 < boxArea bbox1 + boxArea bbox2 - intersectionArea bbox1 bbox2 := by omega
    have hdenq : (0 : ℚ) <
        ((boxArea bbox1 + boxArea bbox2 - intersectionArea bbox1 bbox2 : Int) : ℚ) := by
      exact_mod_cast hden
    refine ⟨_, bbox_overlap_joined bbox1 bbox2 hw1 hh1 hw2 hh2 f1 f2 ha hs, ?_, ?_,
      fun h => absurd h hs, fun _ => ⟨rfl, hden, i1, i2⟩⟩
    · exact div_nonneg (by exact_mod_cast (by omega : 0 ≤ intersectionArea bbox1 bbox2))
        (le_of_lt hdenq)
    · rw [div_le_one hdenq]
      exact_mod_cast (by omega :
        intersectionArea bbox1 bbox2
          ≤ boxArea bbox1 + boxArea bbox2 - intersectionArea bbox1 bbox2)

/-- C18 (witness): the boxes (0, 0, 100, 80) and (10, 10, 20, 30). -/
theorem bbox_overlap_in_unit_interval_witness :
    ∃ r, bbox_overlap ⟨0, 0, 100, 80⟩ ⟨10, 10, 20, 30⟩ = some r ∧ 0 ≤ r ∧ r ≤ 1 := by
  obtain ⟨r, hr, h0, h1, _⟩ := bbox_overlap_in_unit_interval ⟨0, 0, 100, 80⟩ ⟨10, 10, 20, 30⟩
    (by norm_num) (by norm_num) (by norm_num) (by norm_num) (by decide) (by decide) (by decide)
  exact ⟨r, hr, h0, h1⟩

/-- C20 (counterexample): the box (0, 0, 70000, 70000) strictly contains the box
(1, 1, 65535, 65535) of non-negative width and height, yet the intersection area
65536 * 65536 overflows `int`: `bbox_overlap` is undefined, not positive, and so is the
tracker's `does_bbx_overlap`. -/
theorem contained_large_box_overlap_undefined :
    bbox1_contain_bbox2 ⟨0, 0, 70000, 70000⟩ ⟨1, 1, 65535, 65535⟩ = some true ∧
      bbox_overlap ⟨0, 0, 70000, 70000⟩ ⟨1, 1, 65535, 65535⟩ = none ∧
      is_bbx_contained [⟨0, 0, 70000, 70000⟩] ⟨1, 1, 65535, 65535⟩ = some true ∧
      does_bbx_overlap [⟨0, 0, 70000, 70000⟩] ⟨1, 1, 65535, 65535⟩ = none := by
  refine ⟨by decide, by decide, by decide, by decide⟩

/-- C20 (amended): when `bbox1_contain_bbox2(bbox1, bbox2)` is true for a `bbox2` of
non-negative width and height and the area sum `bb1_area + bb2_area` is representable in
`int`, `bbox_overlap(bbox1, bbox2)` is positive; a tracker whose last box strictly contains
such a box also reports it as overlapping. -/
theorem contained_box_overlaps (bbox1 bbox2 : Rect) (hw2 : 0 ≤ bbox2.width)
    (hh2 : 0 ≤ bbox2.height) (ha : AreasFit bbox1 bbox2)
    (hc : bbox1_contain_bbox2 bbox1 bbox2 = some true) :
    (∃ r, bbox_overlap bbox1 bbox2 = some r ∧ 0 < r) ∧
    ∀ m_bboxes : List Rect, m_bboxes.getLast? = some bbox1 →
      is_bbx_contained m_bboxes bbox2 = some true ∧
      does_bbx_overlap m_bboxes bbox2 = some true := by
  obtain ⟨cx, cy, cr, cb, f1, f2⟩ := contain_facts bbox1 bbox2 hc
  have hw1 : 0 ≤ bbox1.width := by omega
  have hh1 : 0 ≤ bbox1.height := by omega
  have hs : ¬ Separated bbox1 bbox2 := by
    unfold Separated xRight xLeft yBottom yTop
    rw [min_eq_right (le_of_lt cr), max_eq_right (le_of_lt cx), min_eq_right (le_of_lt cb),
      max_eq_right (le_of_lt cy)]
    omega
  obtain ⟨i0, i1, i2⟩ := intersectionArea_le bbox1 bbox2 hs
  obtain ⟨_, _, p2⟩ := boxArea_bounds bbox2 hw2 hh2
  have hden : 0 < boxArea bbox1 + boxArea bbox2 - intersectionArea bbox1 bbox2 := by omega
  have hov := bbox_overlap_joined bbox1 bbox2 hw1 hh1 hw2 hh2 f1 f2 ha hs
  have hpos : (0 : ℚ) < (intersectionArea bbox1 bbox2 : ℚ) /
      ((boxArea bbox1 + boxArea bbox2 - intersectionArea bbox1 bbox2 : Int) : ℚ) :=
    div_pos (by exact_mod_cast (by omega : 0 < intersectionArea bbox1 bbox2))
      (by exact_mod_cast hden)
  refine ⟨⟨_, hov, hpos⟩, fun m_bboxes hlast => ⟨?_, ?_⟩⟩
  · simp only [is_bbx_contained, hlast, Option.bind_eq_bind, Option.some_bind, hc]
  · simp only [does_bbx_overlap, hlast, Option.bind_eq_bind, Option.some_bind, hov,
      Option.some.injEq, decide_eq_true_eq]
    exact hpos

/-- C20 (witness): the box (10, 10, 20, 30) lies strictly inside (0, 0, 100, 80). -/
theorem contained_box_overlaps_witness :
    bbox1_contain_bbox2 ⟨0, 0, 100, 80⟩ ⟨10, 10, 20, 30⟩ = some true ∧
      ∃ r, bbox_overlap ⟨0, 0, 100, 80⟩ ⟨10, 10, 20, 30⟩ = some r ∧ 0 < r :=
  ⟨by decide, (contained_box_overlaps ⟨0, 0, 100, 80⟩ ⟨10, 10, 20, 30⟩ (by norm_num)
    (by norm_num) (by decide) (by decide)).1⟩

end sky360lib.demo
